import Mathlib

/-
Verification of the sfdLib SFD-to-UFO conversion engine
(source file Lib/sfdLib/parser.py).

The development shallowly embeds the parsing and resolution engine:
Python floats are modelled as rationals, Python ints as Lean integers,
Python dicts as insertion-ordered association lists, exceptions
(ValueError, TypeError, IndexError, KeyError, NameError, AssertionError,
failed unpacking) as an Except String monad, and in-place mutation as
explicit state passing.  External collaborators that live outside the
parser source (the utils module: SFDReadUTF7, parseAltuni, parseColor,
parseVersion, getFontBounds, processKernClasses; the re regex engine;
math.atan2; the destination font object model) are taken as parameters
of the embedding, collected in the Ext structure, exactly as the design
treats them: narrow interfaces the core calls but does not implement.
-/

namespace SfdLib

deriving instance DecidableEq for Except

/-! ## Python scalar helpers

All character-level operations are implemented by structural recursion on
character lists so that concrete runs reduce inside the kernel. -/

/-- Whitespace characters recognized by Python str.strip / str.split. -/
def wsChar (c : Char) : Bool :=
  c = ' ' ∨ c = '\t' ∨ c = '\n' ∨ c = '\r' ∨ c = '\x0b' ∨ c = '\x0c'

/-- Python s.strip() on a character list. -/
def chTrim (l : List Char) : List Char :=
  ((l.dropWhile wsChar).reverse.dropWhile wsChar).reverse

/-- Split at every character satisfying p, keeping empty fields. -/
def chSplitPAux (p : Char → Bool) : List Char → List Char → List (List Char)
  | [], acc => [acc.reverse]
  | c :: rest, acc =>
    if p c then acc.reverse :: chSplitPAux p rest []
    else chSplitPAux p rest (c :: acc)

/-- Split on a separator list (nonempty in all uses), keeping empty fields;
fuel is structural and always sufficient. -/
def chSplitOnAux (sep : List Char) : Nat → List Char → List Char →
    List (List Char)
  | 0, l, acc => [acc.reverse ++ l]
  | _ + 1, [], acc => [acc.reverse]
  | fuel + 1, c :: rest, acc =>
    if sep.isPrefixOf (c :: rest) then
      acc.reverse :: chSplitOnAux sep fuel ((c :: rest).drop sep.length) []
    else chSplitOnAux sep fuel rest (c :: acc)

/-- Python s.split(sep) for a nonempty separator, on character lists. -/
def chSplitOn (sep l : List Char) : List (List Char) :=
  if sep.isEmpty then [l] else chSplitOnAux sep (l.length + 1) l []

/-- Python int(s) on a trimmed character list: one optional sign, then a
nonempty digit run. -/
def pyIntL? (l : List Char) : Option Int :=
  let (sgn, t) : Int × List Char :=
    match l with
    | '-' :: r => (-1, r)
    | '+' :: r => (1, r)
    | r => (1, r)
  if t.isEmpty ∨ ¬ t.all Char.isDigit then none
  else some (sgn * (t.foldl (fun a c => a * 10 + (c.toNat - 48)) 0 : Nat))

/-- Python int(s): strip whitespace, optional sign, decimal digits. -/
def pyInt? (s : String) : Option Int :=
  pyIntL? (chTrim s.data)

/-- Decimal digit list value (most significant first). -/
def digitsVal (l : List Char) : Nat :=
  l.foldl (fun a c => a * 10 + (c.toNat - 48)) 0

/-- Python float(s), restricted to the decimal grammar the SFD format uses:
optional sign, integer part, optional fractional part (no exponents). -/
def pyFloat? (s : String) : Option ℚ :=
  let (sgn, t) : ℚ × List Char :=
    match chTrim s.data with
    | '-' :: r => (-1, r)
    | '+' :: r => (1, r)
    | l => (1, l)
  let (ip, rest) := t.span Char.isDigit
  match rest with
  | [] => if ip.isEmpty then none else some (sgn * (digitsVal ip : ℚ))
  | '.' :: fp =>
    if fp.all Char.isDigit ∧ ¬(ip.isEmpty ∧ fp.isEmpty) then
      some (sgn * ((digitsVal ip : ℚ) + (digitsVal fp : ℚ) / ((10 : ℚ) ^ fp.length)))
    else none
  | _ => none

/-- Python int(s, 16): optional sign, hex digits. -/
def pyHex? (s : String) : Option Int :=
  let (sgn, t) : Int × List Char :=
    match chTrim s.data with
    | '-' :: r => (-1, r)
    | '+' :: r => (1, r)
    | l => (1, l)
  if t.isEmpty ∨ ¬ t.all (fun c =>
      c.isDigit ∨ ('a' ≤ c ∧ c ≤ 'f') ∨ ('A' ≤ c ∧ c ≤ 'F')) then none
  else some (sgn * (t.foldl (fun a c =>
    a * 16 + (if c.isDigit then c.toNat - 48
              else if c.toNat ≥ 97 then c.toNat - 87 else c.toNat - 55)) 0 : Nat))

/-- Python s.strip() as a String operation. -/
def pyStrip (s : String) : String := String.mk (chTrim s.data)

/-- Python s.split() with no argument: split on whitespace runs, dropping
empty fields. -/
def pySplitWs (s : String) : List String :=
  ((chSplitPAux wsChar s.data []).filter (fun t => ¬ t.isEmpty)).map String.mk

/-- Python s.split(sep) with an explicit separator: empty fields are kept. -/
def pySplitOn (s sep : String) : List String :=
  (chSplitOn sep.data s.data).map String.mk

/-- Python s.split(sep, 1): at most one split, at the first occurrence. -/
def pySplit1 (s sep : String) : List String :=
  match chSplitOn sep.data s.data with
  | [one] => [String.mk one]
  | k :: rest => [String.mk k, String.mk (List.intercalate sep.data rest)]
  | [] => []

/-- Python sep.join(parts). -/
def pyJoin (sep : String) (parts : List String) : String :=
  String.mk (List.intercalate sep.data (parts.map String.data))

/-- Python s.startswith(pre). -/
def pyStartsWith (s pre : String) : Bool :=
  pre.data.isPrefixOf s.data

/-- Substring containment on character lists. -/
def chIsInfix (sub : List Char) : List Char → Bool
  | [] => sub.isEmpty
  | c :: rest => sub.isPrefixOf (c :: rest) || chIsInfix sub rest

/-- Python sub in s: substring containment. -/
def pyInStr (sub s : String) : Bool :=
  chIsInfix sub.data s.data

/-- Python list indexing with negative-index wrap-around; none is IndexError. -/
def pyGet? {α : Type} (l : List α) (i : Int) : Option α :=
  if i ≥ 0 then l[i.toNat]?
  else
    let j : Int := (l.length : Int) + i
    if j ≥ 0 then l[j.toNat]? else none

/-- Python list index assignment with negative wrap-around; none is IndexError. -/
def pySet? {α : Type} (l : List α) (i : Int) (v : α) : Option (List α) :=
  if i ≥ 0 then (if i.toNat < l.length then some (l.set i.toNat v) else none)
  else
    let j : Int := (l.length : Int) + i
    if j ≥ 0 ∧ j.toNat < l.length then some (l.set j.toNat v) else none

/-- Python s[i] for a string: the character at i as a one-character string;
none is IndexError.  Only nonnegative indices are needed here. -/
def pyStrAt? (s : String) (i : Nat) : Option String :=
  (s.data[i]?).map (fun c => String.mk [c])

/-! ## Insertion-ordered dictionaries (Python dict semantics) -/

/-- Value lookup in an insertion-ordered association list. -/
def dictGet {α β : Type} [DecidableEq α] (m : List (α × β)) (k : α) :
    Option β :=
  (m.find? (fun p => p.1 = k)).map (·.2)

/-- Python d[k] = v: update in place (keeping the insertion position) when the
key exists, append otherwise. -/
def dictSet {α β : Type} [DecidableEq α] (m : List (α × β)) (k : α) (v : β) :
    List (α × β) :=
  if m.any (fun p => p.1 = k) then
    m.map (fun p => if p.1 = k then (k, v) else p)
  else m ++ [(k, v)]

/-- Keys of a dictionary, in insertion order (Python iteration order). -/
def dictKeys {α β : Type} (m : List (α × β)) : List α := m.map Prod.fst

/-- Values of a dictionary, in insertion order. -/
def dictVals {α β : Type} (m : List (α × β)) : List β := m.map Prod.snd

/-- Membership test, Python k in d. -/
def dictHas {α β : Type} [DecidableEq α] (m : List (α × β)) (k : α) : Bool :=
  m.any (fun p => p.1 = k)

/-! ## _splitList -/

/-- Source _splitList(data, n): split a list into n-sized sublists (the last
one possibly shorter). -/
def splitList {α : Type} (data : List α) (n : Nat) : List (List α) :=
  if h : n = 0 ∨ data.length = 0 then []
  else data.take n :: splitList (data.drop n) n
termination_by data.length
decreasing_by
  simp only [not_or] at h
  simp [List.length_drop]
  omega

/-! ## Geometry: _parseSplineSet output and _drawContours

Coordinates are kept as the lists of rationals the source builds
(float lists split into pairs), so odd point counts are representable
exactly as in Python. -/

/-- A point as stored by _parseSplineSet: a list of coordinates (normally
two). -/
abbrev GPoint := List ℚ

inductive SegLetter
  | m | l | c
deriving DecidableEq

/-- One geometry record of a SplineSet: the point list, the segment letter,
and the raw flags field. -/
structure Seg where
  pts : List GPoint
  segmentType : SegLetter
  flags : String
deriving DecidableEq

/-- An element of a parsed contour: a segment tuple or a trailing name
appended by a Named record.  (A name that is not in final position makes
_drawContours unpack a string; for the names arising in practice Python
raises there, which the embedding models as an error.) -/
inductive ContourEntry
  | seg (s : Seg)
  | cname (n : String)
deriving DecidableEq

abbrev Contour := List ContourEntry

/-- Point types of the destination point-pen. -/
inductive PtType
  | move | line | curve | qcurve
deriving DecidableEq

/-- One point handed to pen.addPoint: coordinates, optional segment type
(none = off-curve or interpolated point), optional smooth flag. -/
structure EmittedPt where
  pt : GPoint
  type : Option PtType
  smooth : Option Bool
deriving DecidableEq

/-- Lines 268-270: flag = int(flags.split(",")[0].split("x")[0]). -/
def parseFlag (flags : String) : Option Int :=
  pyInt? (((pySplitOn ((pySplitOn flags ",").headD "") "x").headD ""))

/-- Lines 267-296 for one segment: parse the flags, note the force-open bit,
compute smoothness, and append the emitted points for the segment.  State is
(points emitted so far, forceOpen). -/
def drawSeg (quadratic : Bool) (st : List EmittedPt × Bool) (seg : Seg) :
    Except String (List EmittedPt × Bool) := do
  let (acc, forceOpen) := st
  let some flag := parseFlag seg.flags | throw "ValueError: invalid flag"
  let forceOpen := forceOpen || decide (flag.land 0x400 ≠ 0)
  let smooth : Bool := flag.land 0x3 ≠ 1
  match seg.segmentType with
  | .m => do
    let some p := seg.pts.head? | throw "IndexError: pts"
    pure (acc ++ [⟨p, some .move, some smooth⟩], forceOpen)
  | .l => do
    let some p := seg.pts.head? | throw "IndexError: pts"
    pure (acc ++ [⟨p, some .line, some smooth⟩], forceOpen)
  | .c => do
    let curveTy : PtType := if quadratic then .qcurve else .curve
    let pts ← (if quadratic then
        match seg.pts with
        | p0 :: p1 :: rest =>
          if p0 = p1 then pure (p1 :: rest)
          else throw "AssertionError: pts[0] == pts[1]"
        | _ => throw "IndexError: pts"
      else pure seg.pts)
    if quadratic ∧ flag.land 0x80 ≠ 0 then
      pure (acc ++ pts.map (fun p => ⟨p, none, none⟩), forceOpen)
    else
      match pts.getLast? with
      | none => throw "IndexError: pts"
      | some pl =>
        pure (acc ++ pts.dropLast.map (fun p => ⟨p, none, none⟩)
                  ++ [⟨pl, some curveTy, some smooth⟩], forceOpen)

/-- Lines 298-303: when the path was not forced open, has more than one point,
and its first and last points share coordinates, the first point takes the
last point entry and the last is dropped (closed path). -/
def closeContour (forceOpen : Bool) (l : List EmittedPt) : List EmittedPt :=
  match l.head?, l.getLast? with
  | some hd, some lst =>
    if forceOpen = false ∧ 1 < l.length ∧ hd.pt = lst.pt then
      (lst :: l.tail).dropLast
    else l
  | _, _ => l

/-- Line 263-264: pop a trailing Named entry off the contour. -/
def popName (c : Contour) : Contour :=
  match c.getLast? with
  | some (.cname _) => c.dropLast
  | _ => c

/-- Interpret one contour entry for the segment loop; a name surviving in
non-final position is a string the loop would unpack (an error for the
names arising in practice). -/
def drawEntry (quadratic : Bool) (st : List EmittedPt × Bool) :
    ContourEntry → Except String (List EmittedPt × Bool)
  | .seg s => drawSeg quadratic st s
  | .cname _ => throw "ValueError: cannot unpack contour name"

/-- Lines 261-308 for one contour: pop the optional trailing name, emit all
segments, then close the path. -/
def drawContour (quadratic : Bool) (c : Contour) :
    Except String (List EmittedPt) := do
  let (emitted, forceOpen) ← (popName c).foldlM (drawEntry quadratic) ([], false)
  pure (closeContour forceOpen emitted)

/-- Whole _drawContours body: one point-pen path per contour. -/
def drawContours (quadratic : Bool) (contours : List Contour) :
    Except String (List (List EmittedPt)) :=
  contours.mapM (drawContour quadratic)

/-! ## Lemmas about the contour engine -/

/-- When a segment draws successfully from a non-forced-open state and its
parsed flag has bit 0x400 clear, the state stays non-forced-open. -/
theorem drawSeg_forceOpen_false (q : Bool) (acc : List EmittedPt) (s : Seg)
    (acc2 : List EmittedPt) (fo2 : Bool)
    (h : drawSeg q (acc, false) s = .ok (acc2, fo2))
    (hbit : ((parseFlag s.flags).getD 0).land 0x400 = 0) :
    fo2 = false := by
  unfold drawSeg at h
  cases hp : parseFlag s.flags with
  | none => rw [hp] at h; simp at h
  | some flag =>
    rw [hp] at h
    rw [hp] at hbit
    simp only [Option.getD_some] at hbit
    simp only [hbit, bind, Except.bind, pure, Except.pure] at h
    cases hst : s.segmentType <;> rw [hst] at h <;> repeat' split at h
    all_goals simp_all

/-- The contour fold keeps forceOpen false when every segment flag has bit
0x400 clear. -/
theorem foldl_drawEntry_forceOpen (q : Bool) :
    ∀ (entries : List ContourEntry) (acc em : List EmittedPt) (fo : Bool),
    entries.foldlM (drawEntry q) (acc, false) = .ok (em, fo) →
    (∀ s, ContourEntry.seg s ∈ entries →
      ((parseFlag s.flags).getD 0).land 0x400 = 0) →
    fo = false := by
  intro entries
  induction entries with
  | nil =>
    intro acc em fo h _
    simp [List.foldlM, pure, Except.pure] at h
    exact h.2
  | cons e tl ih =>
    intro acc em fo h hflags
    rw [List.foldlM_cons] at h
    cases e with
    | cname n =>
      simp [drawEntry, throw, throwThe, MonadExceptOf.throw, bind, Except.bind] at h
    | seg s =>
      simp only [drawEntry, bind, Except.bind] at h
      cases hstep : drawSeg q (acc, false) s with
      | error e => rw [hstep] at h; simp at h
      | ok st1 =>
        rw [hstep] at h
        obtain ⟨acc1, fo1⟩ := st1
        have hfo1 : fo1 = false :=
          drawSeg_forceOpen_false q acc s acc1 fo1 hstep
            (hflags s (by simp))
        rw [hfo1] at h
        exact ih acc1 em fo h (fun s2 hs2 => hflags s2 (by simp [hs2]))

/-- A quadratic curve segment whose first two points differ always raises. -/
theorem drawSeg_quad_mismatch_err (st : List EmittedPt × Bool) (s : Seg)
    (hc : s.segmentType = .c) (p0 p1 : GPoint) (rest : List GPoint)
    (hpts : s.pts = p0 :: p1 :: rest) (hne : p0 ≠ p1) :
    ∃ e, drawSeg true st s = .error e := by
  obtain ⟨acc, fo⟩ := st
  unfold drawSeg
  cases hp : parseFlag s.flags with
  | none => exact ⟨_, rfl⟩
  | some flag =>
    rw [hc, hpts]
    simp [hne, bind, Except.bind, throw, throwThe, MonadExceptOf.throw]

/-- Once a mismatched quadratic curve segment is present anywhere in the
entry list, the whole fold raises. -/
theorem foldl_drawEntry_quad_err :
    ∀ (entries : List ContourEntry) (st : List EmittedPt × Bool)
    (s : Seg) (_ : ContourEntry.seg s ∈ entries)
    (_ : s.segmentType = .c) (p0 p1 : GPoint) (rest : List GPoint)
    (_ : s.pts = p0 :: p1 :: rest) (_ : p0 ≠ p1),
    ∃ e, entries.foldlM (drawEntry true) st = .error e := by
  intro entries
  induction entries with
  | nil => intro st s hmem; simp at hmem
  | cons e tl ih =>
    intro st s hmem hc p0 p1 rest hpts hne
    rw [List.foldlM_cons]
    rcases List.mem_cons.mp hmem with heq | htl
    · subst heq
      obtain ⟨err, herr⟩ := drawSeg_quad_mismatch_err st s hc p0 p1 rest hpts hne
      simp only [drawEntry, herr, bind, Except.bind]
      exact ⟨err, rfl⟩
    · cases hstep : drawEntry true st e with
      | error err => simp [hstep, bind, Except.bind]
      | ok st1 =>
        simp only [hstep, bind, Except.bind]
        exact ih st1 s htl hc p0 p1 rest hpts hne

/-- Segment entries survive the trailing-name pop. -/
theorem mem_popName_of_seg {s : Seg} {c : Contour}
    (h : ContourEntry.seg s ∈ c) : ContourEntry.seg s ∈ popName c := by
  unfold popName
  cases hg : c.getLast? with
  | none => exact h
  | some e =>
    cases e with
    | seg s2 => exact h
    | cname n =>
      have hne : c ≠ [] := by
        intro hc; subst hc; simp at hg
      have hsplit := List.dropLast_append_getLast hne
      have hgl : c.getLast hne = ContourEntry.cname n := by
        have h2 := List.getLast?_eq_getLast c hne
        rw [h2] at hg
        exact (Option.some.injEq _ _ ▸ hg)
      rw [← hsplit] at h
      rcases List.mem_append.mp h with h1 | h1
      · exact h1
      · rw [hgl] at h1; simp at h1

/-! ## Claim C3: path closing -/

/-- Instance of claim C3 at one contour: whenever the contour is not forced
open (bit 0x400 clear on every segment) and the first and last emitted
points share coordinates, the stored contour has one point fewer than was
emitted. -/
def c3ClaimHolds (q : Bool) (c : Contour) : Prop :=
  ∀ emitted fo out,
    (popName c).foldlM (drawEntry q) ([], false) = .ok (emitted, fo) →
    drawContour q c = .ok out →
    (∀ s, ContourEntry.seg s ∈ popName c →
      ((parseFlag s.flags).getD 0).land 0x400 = 0) →
    emitted ≠ [] →
    emitted.head?.map EmittedPt.pt = emitted.getLast?.map EmittedPt.pt →
    out.length = emitted.length - 1

/-- C3 as stated fails on a one-point contour: the single move point equals
itself, yet the code only collapses paths with more than one point, so the
stored contour keeps its one point instead of dropping to zero. -/
theorem c3_counterexample :
    ¬ c3ClaimHolds false [ContourEntry.seg ⟨[[0, 0]], .m, "0"⟩] := by
  intro h
  have h2 := h [⟨[0, 0], some .move, some true⟩] false
      [⟨[0, 0], some .move, some true⟩]
      (by rfl) (by rfl)
      (by
        intro s hs
        have h3 : ContourEntry.seg s = ContourEntry.seg ⟨[[0, 0]], .m, "0"⟩ :=
          List.mem_singleton.mp hs
        injection h3 with h4
        subst h4
        decide)
      (by decide) (by rfl)
  simp at h2

/-- Claim C3, amended: the collapse additionally requires more than one
emitted point.  Under that hypothesis the last point is dropped, the first
stored point is the dropped closing point (its segment type and smoothness
included), and the count goes from N to N - 1. -/
theorem c3_closed_contour_drop (q : Bool) (c : Contour)
    (emitted : List EmittedPt) (fo : Bool) (lst : EmittedPt)
    (hfold : (popName c).foldlM (drawEntry q) ([], false) = .ok (emitted, fo))
    (hflags : ∀ s, ContourEntry.seg s ∈ popName c →
      ((parseFlag s.flags).getD 0).land 0x400 = 0)
    (hlen : 1 < emitted.length)
    (hlast : emitted.getLast? = some lst)
    (heq : emitted.head?.map EmittedPt.pt = some lst.pt) :
    drawContour q c = .ok (lst :: emitted.tail.dropLast) ∧
    (lst :: emitted.tail.dropLast).length = emitted.length - 1 ∧
    (lst :: emitted.tail.dropLast).head? = some lst := by
  have hfo : fo = false :=
    foldl_drawEntry_forceOpen q (popName c) [] emitted fo hfold hflags
  subst hfo
  have hdc : drawContour q c = .ok (closeContour false emitted) := by
    unfold drawContour
    rw [hfold]
    rfl
  cases emitted with
  | nil => simp at hlen
  | cons a tl =>
    cases tl with
    | nil => simp at hlen
    | cons b tl2 =>
      have hapt : a.pt = lst.pt := by
        simp only [List.head?_cons, Option.map_some] at heq
        exact Option.some.injEq _ _ ▸ heq
      have hcc : closeContour false (a :: b :: tl2) =
          (lst :: b :: tl2).dropLast := by
        unfold closeContour
        rw [hlast]
        simp only [List.head?_cons]
        rw [if_pos ⟨by trivial, by simp, hapt⟩]
        rfl
      rw [hcc] at hdc
      have hdl : (lst :: b :: tl2).dropLast = lst :: (b :: tl2).dropLast := by
        simp [List.dropLast]
      rw [hdl] at hdc
      refine ⟨hdc, ?_, rfl⟩
      simp [List.length_dropLast]

/-- Witness for the amended C3: a closed square of four emitted points is
stored as three points, headed by the dropped closing point. -/
theorem c3_closed_contour_drop_witness :
    drawContour false
      [ContourEntry.seg ⟨[[0, 0]], .m, "0"⟩,
       ContourEntry.seg ⟨[[10, 0]], .l, "0"⟩,
       ContourEntry.seg ⟨[[10, 10]], .l, "0"⟩,
       ContourEntry.seg ⟨[[0, 0]], .l, "0"⟩] =
      .ok [⟨[0, 0], some .line, some true⟩,
           ⟨[10, 0], some .line, some true⟩,
           ⟨[10, 10], some .line, some true⟩] := by
  have h := c3_closed_contour_drop false
      [ContourEntry.seg ⟨[[0, 0]], .m, "0"⟩,
       ContourEntry.seg ⟨[[10, 0]], .l, "0"⟩,
       ContourEntry.seg ⟨[[10, 10]], .l, "0"⟩,
       ContourEntry.seg ⟨[[0, 0]], .l, "0"⟩]
      [⟨[0, 0], some .move, some true⟩,
       ⟨[10, 0], some .line, some true⟩,
       ⟨[10, 10], some .line, some true⟩,
       ⟨[0, 0], some .line, some true⟩]
      false ⟨[0, 0], some .line, some true⟩
      (by rfl)
      (by
        intro s hs
        simp only [popName] at hs
        simp at hs
        rcases hs with rfl | rfl | rfl | rfl <;> decide)
      (by decide) (by rfl) (by rfl)
  exact h.1

/-! ## Claim C8: quadratic curve constraint -/

/-- Claim C8: on a quadratic layer a curve segment with two distinct leading
points is fatal anywhere in a contour; when the two leading points agree the
duplicate is dropped; on a cubic layer all three points are emitted with no
constraint. -/
theorem c8_quadratic_curve_points :
    (∀ (c : Contour) (s : Seg), ContourEntry.seg s ∈ c → s.segmentType = .c →
      ∀ p0 p1 rest, s.pts = p0 :: p1 :: rest → p0 ≠ p1 →
      ∃ e, drawContour true c = .error e) ∧
    (∀ (acc : List EmittedPt) (fo : Bool) (p0 p2 : GPoint) (flags : String)
      (f : Int), parseFlag flags = some f → f.land 0x80 = 0 →
      drawSeg true (acc, fo) ⟨[p0, p0, p2], .c, flags⟩ =
        .ok (acc ++ [⟨p0, none, none⟩,
                     ⟨p2, some .qcurve, some (decide (f.land 3 ≠ 1))⟩],
             fo || decide (f.land 0x400 ≠ 0))) ∧
    (∀ (acc : List EmittedPt) (fo : Bool) (p0 p1 p2 : GPoint) (flags : String)
      (f : Int), parseFlag flags = some f →
      drawSeg false (acc, fo) ⟨[p0, p1, p2], .c, flags⟩ =
        .ok (acc ++ [⟨p0, none, none⟩, ⟨p1, none, none⟩,
                     ⟨p2, some .curve, some (decide (f.land 3 ≠ 1))⟩],
             fo || decide (f.land 0x400 ≠ 0))) := by
  refine ⟨?_, ?_, ?_⟩
  · intro c s hmem hc p0 p1 rest hpts hne
    obtain ⟨e, he⟩ := foldl_drawEntry_quad_err (popName c) ([], false) s
      (mem_popName_of_seg hmem) hc p0 p1 rest hpts hne
    refine ⟨e, ?_⟩
    unfold drawContour
    rw [he]
    rfl
  · intro acc fo p0 p2 flags f hf h80
    unfold drawSeg
    rw [hf]
    simp [bind, Except.bind, pure, Except.pure, h80, List.dropLast,
      List.getLast?]
  · intro acc fo p0 p1 p2 flags f hf
    unfold drawSeg
    rw [hf]
    simp [bind, Except.bind, pure, Except.pure, List.dropLast, List.getLast?]

/-- Witness for C8 at concrete inputs: a mismatched quadratic curve raises,
a duplicated-point quadratic curve drops its duplicate, and a cubic curve
emits all three points. -/
theorem c8_quadratic_curve_points_witness :
    (∃ e, drawContour true
      [ContourEntry.seg ⟨[[0, 0], [1, 1], [2, 2]], .c, "0"⟩] = .error e) ∧
    drawSeg true ([], false) ⟨[[0, 0], [0, 0], [2, 2]], .c, "0"⟩ =
      .ok ([⟨[0, 0], none, none⟩, ⟨[2, 2], some .qcurve, some true⟩], false) ∧
    drawSeg false ([], false) ⟨[[0, 0], [1, 1], [2, 2]], .c, "0"⟩ =
      .ok ([⟨[0, 0], none, none⟩, ⟨[1, 1], none, none⟩,
            ⟨[2, 2], some .curve, some true⟩], false) := by
  refine ⟨?_, ?_, ?_⟩
  · exact c8_quadratic_curve_points.1
      [ContourEntry.seg ⟨[[0, 0], [1, 1], [2, 2]], .c, "0"⟩]
      ⟨[[0, 0], [1, 1], [2, 2]], .c, "0"⟩ (by simp) rfl
      [0, 0] [1, 1] [[2, 2]] rfl (by decide)
  · exact c8_quadratic_curve_points.2.1 [] false [0, 0] [2, 2] "0" 0
      (by rfl) (by decide)
  · exact c8_quadratic_curve_points.2.2 [] false [0, 0] [1, 1] [2, 2] "0" 0
      (by rfl)

/-! ## The destination font model (the narrow interface of section 6) -/

/-- Private-dictionary values: scalar float or numeric list. -/
inductive PyVal
  | num (q : ℚ)
  | list (l : List ℚ)
deriving DecidableEq

/-- Guideline appended from a Grid contour. -/
structure Guideline where
  x : Option ℚ := none
  y : Option ℚ := none
  angle : Option ℚ := none
  gname : Option String := none
deriving DecidableEq

/-- Generic name-table record (non-1033 LangName strings). -/
structure NameRec where
  nameID : Nat
  languageID : Int
  string : String
  platformID : Nat := 3
  encodingID : Nat := 1
deriving DecidableEq

/-- One gasp table record. -/
structure GaspRec where
  rangeMaxPPEM : Int
  rangeGaspBehavior : List Nat
deriving DecidableEq

/-- Result of the external utils.parseAnchorPoint, stored verbatim on a glyph
in UFO-anchor mode: (name, kind, x, y, index). -/
abbrev AnchorVal := String × String × ℚ × ℚ × Int

/-- Font info fields touched by the parser (defcon Font.info).  Fields start
as Python None. -/
structure Info where
  postscriptFontName : Option String := none
  postscriptFullName : Option String := none
  familyName : Option String := none
  styleName : Option String := none
  postscriptWeightName : Option String := none
  copyright : Option String := none
  note : Option String := none
  trademark : Option String := none
  versionMajor : Option Int := none
  versionMinor : Option Int := none
  italicAngle : Option ℚ := none
  postscriptSlantAngle : Option ℚ := none
  postscriptUnderlinePosition : Option ℚ := none
  postscriptUnderlineThickness : Option ℚ := none
  ascender : Option Int := none
  descender : Option Int := none
  unitsPerEm : Option Int := none
  capHeight : Option Int := none
  xHeight : Option Int := none
  postscriptUniqueID : Option Int := none
  openTypeHeadCreated : Option String := none
  openTypeOS2Type : Option (List Nat) := none
  openTypeOS2WeightClass : Option Int := none
  openTypeOS2WidthClass : Option Int := none
  openTypeOS2Panose : Option (List Int) := none
  openTypeOS2VendorID : Option String := none
  openTypeOS2FamilyClass : Option (Int × Int) := none
  openTypeOS2Selection : Option (List Nat) := none
  openTypeOS2TypoLineGap : Option Int := none
  openTypeHheaLineGap : Option Int := none
  openTypeVheaVertTypoLineGap : Option Int := none
  openTypeHheaAscender : Option ℚ := none
  openTypeHheaDescender : Option ℚ := none
  openTypeOS2TypoAscender : Option ℚ := none
  openTypeOS2TypoDescender : Option ℚ := none
  openTypeOS2WinAscent : Option ℚ := none
  openTypeOS2WinDescent : Option ℚ := none
  openTypeOS2SubscriptXSize : Option Int := none
  openTypeOS2SubscriptYSize : Option Int := none
  openTypeOS2SubscriptXOffset : Option Int := none
  openTypeOS2SubscriptYOffset : Option Int := none
  openTypeOS2SuperscriptXSize : Option Int := none
  openTypeOS2SuperscriptYSize : Option Int := none
  openTypeOS2SuperscriptXOffset : Option Int := none
  openTypeOS2SuperscriptYOffset : Option Int := none
  openTypeOS2StrikeoutSize : Option Int := none
  openTypeOS2StrikeoutPosition : Option Int := none
  openTypeNameUniqueID : Option String := none
  openTypeNameVersion : Option String := none
  openTypeNameManufacturer : Option String := none
  openTypeNameDesigner : Option String := none
  openTypeNameDescription : Option String := none
  openTypeNameManufacturerURL : Option String := none
  openTypeNameDesignerURL : Option String := none
  openTypeNameLicense : Option String := none
  openTypeNameLicenseURL : Option String := none
  openTypeNamePreferredFamilyName : Option String := none
  openTypeNamePreferredSubfamilyName : Option String := none
  openTypeNameCompatibleFullName : Option String := none
  openTypeNameSampleText : Option String := none
  openTypeNameWWSFamilyName : Option String := none
  openTypeNameWWSSubfamilyName : Option String := none
  openTypeNameRecords : Option (List NameRec) := none
  openTypeGaspRangeRecords : Option (List GaspRec) := none
  postscriptBlueValues : Option PyVal := none
  postscriptOtherBlues : Option PyVal := none
  postscriptFamilyBlues : Option PyVal := none
  postscriptFamilyOtherBlues : Option PyVal := none
  postscriptBlueFuzz : Option PyVal := none
  postscriptBlueShift : Option PyVal := none
  postscriptBlueScale : Option PyVal := none
  postscriptForceBold : Option PyVal := none
  postscriptStemSnapH : Option PyVal := none
  postscriptStemSnapV : Option PyVal := none
  guidelines : List Guideline := []
deriving DecidableEq

/-- Rule fragments stored by _parsePosSub (value shapes depend on the key). -/
inductive PosSubData
  | strs (l : List String)
  | nums (l : List Int)
  | pair (gs : List String) (l : List Int)
deriving DecidableEq

/-- One glyph on a layer of the destination font. -/
structure PGlyph where
  width : Int := 0
  height : Int := 0
  unicodes : List Int := []
  gnote : Option String := none
  markColor : Option (List ℚ) := none
  libGlyphClass : Option String := none
  libDecompose : Option Bool := none
  contours : List (List EmittedPt) := []
  components : List (String × List ℚ) := []
  anchors : List AnchorVal := []
deriving DecidableEq

/-- Identity of a layer inside the destination font: the primary (default)
layer that font.newGlyph targets, or a named layer created by
font.newLayer. -/
inductive LayerKey
  | primary
  | named (lname : String)
deriving DecidableEq

/-- The destination font aggregate. -/
structure FontState where
  primaryLayer : List (String × PGlyph) := []
  glyphOrder : List String := []
  namedLayers : List (String × List (String × PGlyph)) := []
  kerning : List ((String × String) × Int) := []
  featuresText : Option String := none
  info : Info := {}
deriving DecidableEq

/-- font.newGlyph(name): a fresh glyph replaces any existing one in the
default layer; the glyph order gains the name on first creation. -/
def FontState.newGlyph (fs : FontState) (name : String) : FontState :=
  { fs with
    primaryLayer := dictSet fs.primaryLayer name {},
    glyphOrder :=
      if name ∈ fs.glyphOrder then fs.glyphOrder else fs.glyphOrder ++ [name] }

/-- font.newLayer(name): create an empty named layer on first use. -/
def FontState.newLayer (fs : FontState) (name : String) : FontState :=
  if dictHas fs.namedLayers name then fs
  else { fs with namedLayers := fs.namedLayers ++ [(name, [])] }

/-- Glyph store of one layer. -/
def FontState.layerGlyphs (fs : FontState) : LayerKey →
    Option (List (String × PGlyph))
  | .primary => some fs.primaryLayer
  | .named n => dictGet fs.namedLayers n

/-- Replace the glyph store of one layer. -/
def FontState.setLayerGlyphs (fs : FontState) (k : LayerKey)
    (gl : List (String × PGlyph)) : FontState :=
  match k with
  | .primary => { fs with primaryLayer := gl }
  | .named n => { fs with namedLayers := dictSet fs.namedLayers n gl }

/-- Fetch a glyph by layer and name. -/
def FontState.glyph? (fs : FontState) (k : LayerKey) (name : String) :
    Option PGlyph :=
  (fs.layerGlyphs k).bind (fun gl => dictGet gl name)

/-- Mutate a glyph in place (it must exist: the parser only touches glyphs
it created). -/
def FontState.modifyGlyph (fs : FontState) (k : LayerKey) (name : String)
    (f : PGlyph → PGlyph) : Except String FontState :=
  match fs.layerGlyphs k with
  | none => throw "KeyError: layer"
  | some gl =>
    match dictGet gl name with
    | none => throw "KeyError: glyph"
    | some g => pure (fs.setLayerGlyphs k (dictSet gl name (f g)))

/-- layer.newGlyph(name): fresh glyph in the given layer only (the font-wide
glyph order is not touched). -/
def FontState.newLayerGlyph (fs : FontState) (k : LayerKey) (name : String) :
    Except String FontState :=
  match fs.layerGlyphs k with
  | none => throw "KeyError: layer"
  | some gl => pure (fs.setLayerGlyphs k (dictSet gl name {}))

/-- Font bounding box, as computed by the external getFontBounds helper. -/
structure Bounds where
  xMin : ℚ := 0
  yMin : ℚ := 0
  xMax : ℚ := 0
  yMax : ℚ := 0
deriving DecidableEq

/-- One parsed kerning class: first groups, second groups (both with the
leading null placeholder), and the flat kern matrix. -/
abbrev KernClassVal :=
  List (Option (List String)) × List (Option (List String)) × List Int

/-- Feature associations of a lookup: the feature tag and its
(script, languages) pairs, as parsed from the Lookup record. -/
abbrev FeatureE := String × List (String × List String)

/-- Lookup info: (lookup kind name, flag names, feature associations). -/
abbrev LookupVal := String × List String × List FeatureE

/-- External collaborators (utils helpers, the re module, math, the
I/O shim) taken as parameters of the embedding. -/
structure Ext where
  readUTF7 : String → String
  parseAltuni : String → List (List Int) → Bool → List Int
  parseColor : Int → List ℚ
  parseVersion : String → Int × Int
  parseAnchorPoint : String → String → ℚ → ℚ → Int → AnchorVal
  escapeDecode : String → String
  fmtTime : Int → String
  getFontBounds : FontState → Bounds
  processKernClasses : FontState → List KernClassVal → FontState
  atan2deg : ℚ → ℚ → ℚ
  fmtG : ℚ → String
  matchLayer : String → Option (String × String × String × String)
  matchKerns : String → Option (String × String × String)
  findKerns : String → List (String × String × String)
  matchAnchor : String → Option (String × String × String × String × String)
  matchLookup : String →
    Option (String × String × String × String × String × String)
  matchSubPos : String → Option (String × String)
  splitDevTable : String → List String
  findQuoted : String → List String
  findFeatures : String → List (String × String)
  findLangsys : String → List (String × String)
  findTags : String → List String
  splitGeomLine : String → Option (String × String × String)

/-! ## Claim C4: glyph layer switching (lines 443 and 490-498) -/

/-- Source _LAYER_KEYWORDS. -/
def LAYER_KEYWORDS : List String := ["Back", "Fore", "Layer"]

/-- Python list.index(k): position of the first occurrence, ValueError when
absent. -/
def listIndex (l : List String) (k : String) : Except String Int :=
  match l.findIdx? (· = k) with
  | some i => pure (i : Int)
  | none => throw "ValueError: not in list"

/-- Line 491: idx = value and int(value) or self._LAYER_KEYWORDS.index(key).
Python truthiness: a missing value, an empty value, and an integer value of
zero are all falsy, so every one of them falls through to the position of
the keyword in _LAYER_KEYWORDS. -/
def layerIdxOf (key : String) (value : Option String) : Except String Int :=
  match value with
  | none => listIndex LAYER_KEYWORDS key
  | some v =>
    if v = "" then listIndex LAYER_KEYWORDS key
    else
      match pyInt? v with
      | none => throw "ValueError: invalid literal for int"
      | some n => if n = 0 then listIndex LAYER_KEYWORDS key else pure n

/-- Claim C4 evidence: Back and Fore select layers 0 and 1 and a nonzero
Layer value selects itself, but the record Layer 0 selects layer index 2
(the position of the word Layer in _LAYER_KEYWORDS), because an integer
value of zero is falsy in the expression value and int(value) or index. -/
theorem c4_layer_zero_goes_to_index_two :
    layerIdxOf "Back" none = .ok 0 ∧
    layerIdxOf "Fore" none = .ok 1 ∧
    layerIdxOf "Layer" (some "2") = .ok 2 ∧
    layerIdxOf "Layer" (some "1") = .ok 1 ∧
    layerIdxOf "Layer" (some "0") = .ok 2 := by
  refine ⟨rfl, rfl, rfl, rfl, rfl⟩

/-! ## Claim C6: offset metrics (lines 645-673 and 1147-1149) -/

/-- Source _OFFSET_METRICS. -/
def OFFSET_METRICS : List (String × String) :=
  [("HheadAOffset", "openTypeHheaAscender"),
   ("HheadDOffset", "openTypeHheaDescender"),
   ("OS2TypoAOffset", "openTypeOS2TypoAscender"),
   ("OS2TypoDOffset", "openTypeOS2TypoDescender"),
   ("OS2WinAOffset", "openTypeOS2WinAscent"),
   ("OS2WinDOffset", "openTypeOS2WinDescent")]

/-- The six offset-metric field names. -/
def offsetMetricNames : List String := OFFSET_METRICS.map Prod.snd

/-- One iteration of the _fixOffsetMetrics loop: read the stored offset, add
the base dictated by the metric name, store the result.  A missing operand
is a Python TypeError. -/
def fixOffsetMetricStep (bounds : Bounds) (info : Info) (metric : String) :
    Except String Info :=
  if metric = "openTypeOS2TypoAscender" then
    match info.openTypeOS2TypoAscender, info.ascender with
    | some v, some a =>
      pure { info with openTypeOS2TypoAscender := some ((a : ℚ) + v) }
    | _, _ => throw "TypeError: unsupported operand"
  else if metric = "openTypeOS2TypoDescender" then
    match info.openTypeOS2TypoDescender, info.descender with
    | some v, some d =>
      pure { info with openTypeOS2TypoDescender := some ((d : ℚ) + v) }
    | _, _ => throw "TypeError: unsupported operand"
  else if metric = "openTypeOS2WinAscent" then
    match info.openTypeOS2WinAscent with
    | some v =>
      pure { info with openTypeOS2WinAscent := some (bounds.yMax + v) }
    | _ => throw "TypeError: unsupported operand"
  else if metric = "openTypeOS2WinDescent" then
    match info.openTypeOS2WinDescent with
    | some v =>
      pure { info with openTypeOS2WinDescent := some (max (-bounds.yMin + v) 0) }
    | _ => throw "TypeError: unsupported operand"
  else if metric = "openTypeHheaAscender" then
    match info.openTypeHheaAscender with
    | some v =>
      pure { info with openTypeHheaAscender := some (bounds.yMax + v) }
    | _ => throw "TypeError: unsupported operand"
  else if metric = "openTypeHheaDescender" then
    match info.openTypeHheaDescender with
    | some v =>
      pure { info with openTypeHheaDescender := some (bounds.yMin + v) }
    | _ => throw "TypeError: unsupported operand"
  else throw "AttributeError"

/-- Source _fixOffsetMetrics: apply the fix to every remembered metric name
in order. -/
def fixOffsetMetrics (bounds : Bounds) (info : Info) (metrics : List String) :
    Except String Info :=
  metrics.foldlM (fixOffsetMetricStep bounds) info

/-- The stored offset field named by a metric. -/
def offField (info : Info) : String → Option ℚ
  | "openTypeOS2TypoAscender" => info.openTypeOS2TypoAscender
  | "openTypeOS2TypoDescender" => info.openTypeOS2TypoDescender
  | "openTypeOS2WinAscent" => info.openTypeOS2WinAscent
  | "openTypeOS2WinDescent" => info.openTypeOS2WinDescent
  | "openTypeHheaAscender" => info.openTypeHheaAscender
  | "openTypeHheaDescender" => info.openTypeHheaDescender
  | _ => none

/-- The rule the claim states for each metric, as a function of the
established ascender and descender, the bounding box, and the stored
offset. -/
def offRule (bounds : Bounds) (a d : Int) (metric : String) (v : ℚ) : ℚ :=
  match metric with
  | "openTypeOS2TypoAscender" => (a : ℚ) + v
  | "openTypeOS2TypoDescender" => (d : ℚ) + v
  | "openTypeOS2WinAscent" => bounds.yMax + v
  | "openTypeOS2WinDescent" => max (-bounds.yMin + v) 0
  | "openTypeHheaAscender" => bounds.yMax + v
  | "openTypeHheaDescender" => bounds.yMin + v
  | _ => v

/-- Characterization of one _fixOffsetMetrics iteration: the metric is one of
the six offset names, ascender and descender are untouched, every other
offset field is untouched, and the named field gets the rule value. -/
theorem fixStep_char (bounds : Bounds) (info : Info) (metric : String)
    (info2 : Info)
    (h : fixOffsetMetricStep bounds info metric = .ok info2) :
    metric ∈ offsetMetricNames ∧
    info2.ascender = info.ascender ∧
    info2.descender = info.descender ∧
    (∀ m2 ∈ offsetMetricNames, m2 ≠ metric →
      offField info2 m2 = offField info m2) ∧
    (∀ a d, info.ascender = some a → info.descender = some d →
      ∃ v, offField info metric = some v ∧
        offField info2 metric = some (offRule bounds a d metric v)) := by
  unfold fixOffsetMetricStep at h
  split_ifs at h with h1 h2 h3 h4 h5 h6
  · subst h1
    rcases hv : info.openTypeOS2TypoAscender with _ | v <;> rw [hv] at h
    · simp at h
    · rcases ha : info.ascender with _ | a <;> rw [ha] at h
      · simp at h
      · simp only [pure, Except.pure, Except.ok.injEq] at h
        subst h
        refine ⟨by decide, rfl, rfl, ?_, ?_⟩
        · intro m2 hm2 hne
          simp only [offsetMetricNames, OFFSET_METRICS, List.map_cons,
            List.map_nil, List.mem_cons, List.not_mem_nil, or_false] at hm2
          rcases hm2 with rfl | rfl | rfl | rfl | rfl | rfl <;>
            first
              | exact absurd rfl hne
              | rfl
        · intro a2 d2 ha2 hd2
          injection ha2 with hh
          subst hh
          exact ⟨v, hv, rfl⟩
  · subst h2
    rcases hv : info.openTypeOS2TypoDescender with _ | v <;> rw [hv] at h
    · simp at h
    · rcases ha : info.descender with _ | a <;> rw [ha] at h
      · simp at h
      · simp only [pure, Except.pure, Except.ok.injEq] at h
        subst h
        refine ⟨by decide, rfl, rfl, ?_, ?_⟩
        · intro m2 hm2 hne
          simp only [offsetMetricNames, OFFSET_METRICS, List.map_cons,
            List.map_nil, List.mem_cons, List.not_mem_nil, or_false] at hm2
          rcases hm2 with rfl | rfl | rfl | rfl | rfl | rfl <;>
            first
              | exact absurd rfl hne
              | rfl
        · intro a2 d2 ha2 hd2
          injection hd2 with hh
          subst hh
          exact ⟨v, hv, rfl⟩
  · subst h3
    rcases hv : info.openTypeOS2WinAscent with _ | v <;> rw [hv] at h
    · simp at h
    · simp only [pure, Except.pure, Except.ok.injEq] at h
      subst h
      refine ⟨by decide, rfl, rfl, ?_, ?_⟩
      · intro m2 hm2 hne
        simp only [offsetMetricNames, OFFSET_METRICS, List.map_cons,
          List.map_nil, List.mem_cons, List.not_mem_nil, or_false] at hm2
        rcases hm2 with rfl | rfl | rfl | rfl | rfl | rfl <;>
          first
            | exact absurd rfl hne
            | rfl
      · intro a2 d2 ha2 hd2
        exact ⟨v, hv, rfl⟩
  · subst h4
    rcases hv : info.openTypeOS2WinDescent with _ | v <;> rw [hv] at h
    · simp at h
    · simp only [pure, Except.pure, Except.ok.injEq] at h
      subst h
      refine ⟨by decide, rfl, rfl, ?_, ?_⟩
      · intro m2 hm2 hne
        simp only [offsetMetricNames, OFFSET_METRICS, List.map_cons,
          List.map_nil, List.mem_cons, List.not_mem_nil, or_false] at hm2
        rcases hm2 with rfl | rfl | rfl | rfl | rfl | rfl <;>
          first
            | exact absurd rfl hne
            | rfl
      · intro a2 d2 ha2 hd2
        exact ⟨v, hv, rfl⟩
  · subst h5
    rcases hv : info.openTypeHheaAscender with _ | v <;> rw [hv] at h
    · simp at h
    · simp only [pure, Except.pure, Except.ok.injEq] at h
      subst h
      refine ⟨by decide, rfl, rfl, ?_, ?_⟩
      · intro m2 hm2 hne
        simp only [offsetMetricNames, OFFSET_METRICS, List.map_cons,
          List.map_nil, List.mem_cons, List.not_mem_nil, or_false] at hm2
        rcases hm2 with rfl | rfl | rfl | rfl | rfl | rfl <;>
          first
            | exact absurd rfl hne
            | rfl
      · intro a2 d2 ha2 hd2
        exact ⟨v, hv, rfl⟩
  · subst h6
    rcases hv : info.openTypeHheaDescender with _ | v <;> rw [hv] at h
    · simp at h
    · simp only [pure, Except.pure, Except.ok.injEq] at h
      subst h
      refine ⟨by decide, rfl, rfl, ?_, ?_⟩
      · intro m2 hm2 hne
        simp only [offsetMetricNames, OFFSET_METRICS, List.map_cons,
          List.map_nil, List.mem_cons, List.not_mem_nil, or_false] at hm2
        rcases hm2 with rfl | rfl | rfl | rfl | rfl | rfl <;>
          first
            | exact absurd rfl hne
            | rfl
      · intro a2 d2 ha2 hd2
        exact ⟨v, hv, rfl⟩

/-- Folding the fix over names that avoid a metric leaves that metric field,
the ascender and the descender untouched. -/
theorem fixFold_preserve (bounds : Bounds) :
    ∀ (metrics : List String) (info info2 : Info),
    fixOffsetMetrics bounds info metrics = .ok info2 →
    info2.ascender = info.ascender ∧ info2.descender = info.descender ∧
    (∀ m ∈ offsetMetricNames, m ∉ metrics →
      offField info2 m = offField info m) := by
  intro metrics
  induction metrics with
  | nil =>
    intro info info2 h
    simp only [fixOffsetMetrics, List.foldlM_nil, pure, Except.pure,
      Except.ok.injEq] at h
    subst h
    exact ⟨rfl, rfl, fun m _ _ => rfl⟩
  | cons m0 tl ih =>
    intro info info2 h
    simp only [fixOffsetMetrics, List.foldlM_cons, bind, Except.bind] at h
    cases hstep : fixOffsetMetricStep bounds info m0 with
    | error e => rw [hstep] at h; simp at h
    | ok i1 =>
      rw [hstep] at h
      have hc := fixStep_char bounds info m0 i1 hstep
      have hi := ih i1 info2 h
      refine ⟨hi.1.trans hc.2.1, hi.2.1.trans hc.2.2.1, ?_⟩
      intro m hm hnm
      have hne : m ≠ m0 := fun he => hnm (he ▸ List.mem_cons_self m0 tl)
      have hnm2 : m ∉ tl := fun ht => hnm (List.mem_cons_of_mem m0 ht)
      exact (hi.2.2 m hm hnm2).trans (hc.2.2.2.1 m hm hne)

/-- Instance of claim C6: for a remembered metric name, the final stored
value equals the rule applied once to the offset stored at fix time. -/
def c6ClaimHolds (bounds : Bounds) (info : Info) (metrics : List String) :
    Prop :=
  ∀ info2, fixOffsetMetrics bounds info metrics = .ok info2 →
  ∀ m ∈ metrics, ∃ v, offField info m = some v ∧
    ∀ a d, info.ascender = some a → info.descender = some d →
      offField info2 m = some (offRule bounds a d m v)

/-- C6 as stated fails when a metric name is remembered twice (two nonzero
flag records): the rule is applied twice, so the spec example numbers
(yMax 750, offset 50) resolve to 1550 instead of 800. -/
theorem c6_counterexample :
    ¬ c6ClaimHolds ⟨0, 0, 0, 750⟩
      { ascender := some 800, descender := some (-200),
        openTypeOS2WinAscent := some 50 }
      ["openTypeOS2WinAscent", "openTypeOS2WinAscent"] := by
  intro h
  have hstep1 : fixOffsetMetricStep ⟨0, 0, 0, 750⟩
      { ascender := some 800, descender := some (-200),
        openTypeOS2WinAscent := some 50 } "openTypeOS2WinAscent" =
      .ok { ascender := some 800, descender := some (-200),
            openTypeOS2WinAscent := some 800 } := by
    simp only [fixOffsetMetricStep, String.reduceEq, reduceIte]
    norm_num [pure, Except.pure]
  have hstep2 : fixOffsetMetricStep ⟨0, 0, 0, 750⟩
      { ascender := some 800, descender := some (-200),
        openTypeOS2WinAscent := some 800 } "openTypeOS2WinAscent" =
      .ok { ascender := some 800, descender := some (-200),
            openTypeOS2WinAscent := some 1550 } := by
    simp only [fixOffsetMetricStep, String.reduceEq, reduceIte]
    norm_num [pure, Except.pure]
  have hfold : fixOffsetMetrics ⟨0, 0, 0, 750⟩
      { ascender := some 800, descender := some (-200),
        openTypeOS2WinAscent := some 50 }
      ["openTypeOS2WinAscent", "openTypeOS2WinAscent"] =
      .ok { ascender := some 800, descender := some (-200),
            openTypeOS2WinAscent := some 1550 } := by
    simp only [fixOffsetMetrics, List.foldlM_cons, List.foldlM_nil, hstep1,
      bind, Except.bind, hstep2, pure, Except.pure]
  have h2 := h _ hfold "openTypeOS2WinAscent" (by simp)
  obtain ⟨v, hv, hr⟩ := h2
  have hv2 : v = 50 := by
    simpa [offField] using hv.symm
  subst hv2
  have h3 := hr 800 (-200) rfl rfl
  simp only [offField, offRule] at h3
  norm_num at h3

/-- Claim C6, amended: when each offset-metric name is remembered at most
once, every remembered metric resolves by exactly the stated rule applied to
the stored offset, and unremembered metrics are untouched. -/
theorem c6_offset_metrics_unique (bounds : Bounds) :
    ∀ (metrics : List String) (info info2 : Info) (a d : Int),
    metrics.Nodup →
    info.ascender = some a → info.descender = some d →
    fixOffsetMetrics bounds info metrics = .ok info2 →
    (∀ m ∈ metrics, m ∈ offsetMetricNames ∧ ∃ v, offField info m = some v ∧
      offField info2 m = some (offRule bounds a d m v)) ∧
    (∀ m ∈ offsetMetricNames, m ∉ metrics →
      offField info2 m = offField info m) := by
  intro metrics
  induction metrics with
  | nil =>
    intro info info2 a d _ _ _ h
    simp only [fixOffsetMetrics, List.foldlM_nil, pure, Except.pure,
      Except.ok.injEq] at h
    subst h
    exact ⟨by simp, fun m _ _ => rfl⟩
  | cons m0 tl ih =>
    intro info info2 a d hnd ha hd h
    simp only [fixOffsetMetrics, List.foldlM_cons, bind, Except.bind] at h
    cases hstep : fixOffsetMetricStep bounds info m0 with
    | error e => rw [hstep] at h; simp at h
    | ok i1 =>
      rw [hstep] at h
      have hc := fixStep_char bounds info m0 i1 hstep
      have hm0six := hc.1
      have hnd0 : m0 ∉ tl := (List.nodup_cons.mp hnd).1
      have hndtl : tl.Nodup := (List.nodup_cons.mp hnd).2
      have ha1 : i1.ascender = some a := hc.2.1.trans ha
      have hd1 : i1.descender = some d := hc.2.2.1.trans hd
      have hi := ih i1 info2 a d hndtl ha1 hd1 h
      constructor
      · intro m hm
        rcases List.mem_cons.mp hm with rfl | hmtl
        · refine ⟨hm0six, ?_⟩
          obtain ⟨v, hv, hv1⟩ := hc.2.2.2.2 a d ha hd
          refine ⟨v, hv, ?_⟩
          have hpres := hi.2 m hm0six hnd0
          exact hpres.trans hv1
        · have hmr := hi.1 m hmtl
          refine ⟨hmr.1, ?_⟩
          obtain ⟨v, hv1, hv2⟩ := hmr.2
          have hne : m ≠ m0 := fun he => hnd0 (he ▸ hmtl)
          refine ⟨v, ?_, hv2⟩
          exact (hc.2.2.2.1 m hmr.1 hne).symm.trans hv1
      · intro m hm hnm
        have hne : m ≠ m0 := fun he => hnm (he ▸ List.mem_cons_self m0 tl)
        have hnm2 : m ∉ tl := fun ht => hnm (List.mem_cons_of_mem m0 ht)
        exact (hi.2 m hm hnm2).trans (hc.2.2.2.1 m hm hne)

/-- Info before the offset fix in the spec example: ascender 800, descender
-200, stored OS/2 win-ascent offset 50. -/
def c6InfoBefore : Info :=
  { ascender := some 800, descender := some (-200),
    openTypeOS2WinAscent := some 50 }

/-- Info after the offset fix in the spec example. -/
def c6InfoAfter : Info :=
  { ascender := some 800, descender := some (-200),
    openTypeOS2WinAscent := some 800 }

/-- Witness for the amended C6 at the spec numbers: ascender 800, descender
-200, bbox yMax 750, stored OS/2 win-ascent offset 50, remembered once,
resolves to 750 + 50 = 800. -/
theorem c6_offset_metrics_unique_witness :
    (∀ m ∈ ["openTypeOS2WinAscent"], m ∈ offsetMetricNames ∧
      ∃ v, offField c6InfoBefore m = some v ∧
        offField c6InfoAfter m = some (offRule ⟨0, 0, 0, 750⟩ 800 (-200) m v)) ∧
    offRule ⟨0, 0, 0, 750⟩ 800 (-200) "openTypeOS2WinAscent" 50 = 800 := by
  refine ⟨?_, by norm_num [offRule]⟩
  refine (c6_offset_metrics_unique ⟨0, 0, 0, 750⟩ ["openTypeOS2WinAscent"]
    c6InfoBefore c6InfoAfter 800 (-200) (by simp) rfl rfl ?_).1
  simp only [fixOffsetMetrics, List.foldlM_cons, List.foldlM_nil,
    fixOffsetMetricStep, String.reduceEq, reduceIte, bind, Except.bind,
    c6InfoBefore, c6InfoAfter]
  norm_num [pure, Except.pure]

/-! ## Claim C5: lookup name sanitization (lines 742-799) -/

/-- Decimal digits of n, most significant first (the %d rendering of the
collision counter). -/
def natDigitsAux (n : Nat) (acc : List Char) : List Char :=
  let acc2 := Char.ofNat (48 + n % 10) :: acc
  if n < 10 then acc2 else natDigitsAux (n / 10) acc2
termination_by n
decreasing_by exact Nat.div_lt_self (by omega) (by omega)

/-- Fuel-based form of natDigitsAux (structural, so that concrete runs
reduce in the kernel); the fuel n + 1 always suffices. -/
def natDigitsGo : Nat → Nat → List Char → List Char
  | 0, _, acc => acc
  | fuel + 1, n, acc =>
    let acc2 := Char.ofNat (48 + n % 10) :: acc
    if n < 10 then acc2 else natDigitsGo fuel (n / 10) acc2

theorem natDigitsGo_eq_aux :
    ∀ (fuel n : Nat), n < fuel → ∀ acc,
    natDigitsGo fuel n acc = natDigitsAux n acc := by
  intro fuel
  induction fuel with
  | zero => intro n h; omega
  | succ f ih =>
    intro n h acc
    unfold natDigitsGo
    unfold natDigitsAux
    by_cases h10 : n < 10
    · simp [h10]
    · simp only [h10, if_false]
      exact ih (n / 10) (by omega) _

/-- Python "%d" % n for a nonnegative n. -/
def natRepr (n : Nat) : String := String.mk (natDigitsGo (n + 1) n [])

theorem natRepr_eq_aux (n : Nat) : natRepr n = String.mk (natDigitsAux n []) := by
  unfold natRepr
  rw [natDigitsGo_eq_aux (n + 1) n (by omega)]

theorem natDigitsAux_acc (n : Nat) :
    ∀ acc, natDigitsAux n acc = natDigitsAux n [] ++ acc := by
  induction n using Nat.strong_induction_on with
  | _ n ih =>
    intro acc
    unfold natDigitsAux
    by_cases h : n < 10
    · simp [h]
    · simp only [h, if_false]
      rw [ih (n / 10) (Nat.div_lt_self (by omega) (by omega)),
        ih (n / 10) (Nat.div_lt_self (by omega) (by omega))
          (Char.ofNat (48 + n % 10) :: [])]
      simp

theorem digitsVal_from (l : List Char) :
    ∀ a, l.foldl (fun a c => a * 10 + (c.toNat - 48)) a =
      a * 10 ^ l.length + digitsVal l := by
  induction l with
  | nil => intro a; simp [digitsVal]
  | cons c tl ih =>
    intro a
    simp only [List.foldl_cons, digitsVal]
    rw [ih (a * 10 + (c.toNat - 48)), ih (0 * 10 + (c.toNat - 48))]
    simp [List.length_cons]
    ring

theorem digitsVal_append_one (l : List Char) (c : Char) :
    digitsVal (l ++ [c]) = digitsVal l * 10 + (c.toNat - 48) := by
  simp only [digitsVal, List.foldl_append, List.foldl_cons, List.foldl_nil]

theorem digit_char_toNat (d : Nat) (h : d < 10) :
    (Char.ofNat (48 + d)).toNat - 48 = d := by
  interval_cases d <;> decide

theorem digitsVal_natDigits (n : Nat) :
    digitsVal (natDigitsAux n []) = n := by
  induction n using Nat.strong_induction_on with
  | _ n ih =>
    unfold natDigitsAux
    by_cases h : n < 10
    · simp only [h, if_true]
      have hd := digit_char_toNat (n % 10) (Nat.mod_lt n (by omega))
      simp [digitsVal, Nat.mod_eq_of_lt h] at hd ⊢
      omega
    · simp only [h, if_false]
      rw [natDigitsAux_acc (n / 10), digitsVal_append_one,
        ih (n / 10) (Nat.div_lt_self (by omega) (by omega)),
        digit_char_toNat (n % 10) (Nat.mod_lt n (by omega))]
      omega

theorem natRepr_inj {m n : Nat} (h : natRepr m = natRepr n) : m = n := by
  rw [natRepr_eq_aux, natRepr_eq_aux] at h
  injection h with h2
  calc m = digitsVal (natDigitsAux m []) := (digitsVal_natDigits m).symm
  _ = digitsVal (natDigitsAux n []) := by rw [h2]
  _ = n := digitsVal_natDigits n

/-- One synthesized collision candidate: the computed prefix (which ends in
an underscore) followed by the counter. -/
def mkCand (pre : String) (i : Nat) : String := pre ++ natRepr i

theorem mkCand_inj (pre : String) {i j : Nat} (h : mkCand pre i = mkCand pre j) :
    i = j := by
  unfold mkCand at h
  have h2 : (pre ++ natRepr i).data = (pre ++ natRepr j).data := by rw [h]
  rw [String.data_append, String.data_append] at h2
  have h3 := List.append_cancel_left h2
  exact natRepr_inj (by
    have h4 : String.mk (natRepr i).data = String.mk (natRepr j).data :=
      congrArg String.mk h3
    simpa using h4)

/-- The while loop of lines 790-797: the least counter k (stepping the
Python i by 2) whose candidate name is not among the already assigned
values.  The fallback 0 is unreachable (see synthIdx_spec). -/
def synthIdx (pre : String) (vals : List String) : Nat :=
  match (List.range (vals.length + 1)).find?
      (fun k => ¬ (mkCand pre (2 * k)) ∈ vals) with
  | some k => k
  | none => 0

/-- The loop terminates with a fresh name: among vals.length + 1 distinct
candidates at least one is not in vals. -/
theorem synthIdx_spec (pre : String) (vals : List String) :
    mkCand pre (2 * synthIdx pre vals) ∉ vals := by
  unfold synthIdx
  cases hf : (List.range (vals.length + 1)).find?
      (fun k => ¬ (mkCand pre (2 * k)) ∈ vals) with
  | some k =>
    have h2 := List.find?_some hf
    simp only [decide_eq_true_eq] at h2
    simpa using h2
  | none =>
    exfalso
    have hall := List.find?_eq_none.mp hf
    have hmem : ∀ k ∈ List.range (vals.length + 1),
        mkCand pre (2 * k) ∈ vals := by
      intro k hk
      have := hall k hk
      simpa using this
    have hinj : Function.Injective (fun k => mkCand pre (2 * k)) := by
      intro a b hab
      have := mkCand_inj pre hab
      omega
    have hnd : ((List.range (vals.length + 1)).map
        (fun k => mkCand pre (2 * k))).Nodup :=
      List.Nodup.map hinj (List.nodup_range _)
    have hsub : ((List.range (vals.length + 1)).map
        (fun k => mkCand pre (2 * k))).toFinset ⊆ vals.toFinset := by
      intro x hx
      rw [List.mem_toFinset] at hx
      rw [List.mem_toFinset]
      obtain ⟨k, hk, rfl⟩ := List.mem_map.mp hx
      exact hmem k hk
    have hcard1 : ((List.range (vals.length + 1)).map
        (fun k => mkCand pre (2 * k))).toFinset.card = vals.length + 1 := by
      rw [List.toFinset_card_of_nodup hnd]
      simp
    have hcard2 := Finset.card_le_card hsub
    have hcard3 := List.toFinset_card_le vals
    omega

/-- Lines 766-776: keep ASCII letters, dots and underscores, and digits not
at index 0 of the raw name; skip everything else. -/
def keepChar (i : Nat) (c : Char) : Bool :=
  if c.toNat ≥ 127 then false
  else if c.isAlpha then true
  else if c = '.' ∨ c = '_' then true
  else if i ≠ 0 ∧ c.isDigit then true
  else false

/-- The first sanitization pass of _santizeLookupName: filter the characters
of the raw name, then truncate to 63 characters. -/
def sanitizeBase (lookup : String) : String :=
  String.mk (((lookup.data.enum.filter
    (fun p => keepChar p.1 p.2)).map Prod.snd).take 63)

/-- Modelled from the claim words, for comparison: strip characters outside
[A-Za-z0-9._], drop leading digits, truncate to 63 characters. -/
def specSanitizeBase (lookup : String) : String :=
  String.mk (((lookup.data.filter
    (fun c => c.isAlpha ∨ c.isDigit ∨ c = '.' ∨ c = '_')).dropWhile
      Char.isDigit).take 63)

/-- C5 as stated fails on the raw name 12ab: the code drops a digit only at
index 0 of the raw name, so the sanitized name is 2ab, which still starts
with a digit; dropping leading digits as the claim says would give ab. -/
theorem c5_counterexample :
    sanitizeBase "12ab" = "2ab" ∧ specSanitizeBase "12ab" = "ab" ∧
    sanitizeBase "12ab" ≠ specSanitizeBase "12ab" := by
  refine ⟨by decide, by decide, by decide⟩

/-- Source _SHORT_LOOKUP_TYPES. -/
def SHORT_LOOKUP_TYPES : List (String × String) :=
  [("gsub_single", "single"),
   ("gsub_multiple", "mult"),
   ("gsub_alternate", "alt"),
   ("gsub_ligature", "ligature"),
   ("gsub_context", "context"),
   ("gsub_contextchain", "chain"),
   ("gsub_reversecchain", "reversecc"),
   ("gpos_single", "single"),
   ("gpos_pair", "pair"),
   ("gpos_cursive", "cursive"),
   ("gpos_mark2base", "mark2base"),
   ("gpos_mark2ligature", "mark2liga"),
   ("gpos_mark2mark", "mark2mark"),
   ("gpos_context", "context"),
   ("gpos_contextchain", "chain")]

/-- Lines 785-789: feat is the first feature tag; script is scanned over the
mixed Python list [tag, (script, langs), ...]: indexing the tag string
yields its first character (IndexError when the tag is empty), and every
later pair whose script is not DFLT overwrites it. -/
def featScriptOf (fealangsys : List FeatureE) : Except String (String × String) :=
  match fealangsys with
  | [] => pure ("", "")
  | f0 :: _ =>
    match f0.1.data.head? with
    | none => throw "IndexError: string index out of range"
    | some c0 =>
      let s0 := String.mk [c0]
      let script := if s0 ≠ "DFLT" then s0 else ""
      let script := f0.2.foldl
        (fun sc p => if p.1 ≠ "DFLT" then p.1 else sc) script
      pure (f0.1, script)

/-- Prefix of a synthesized collision name, line 792:
(pos|sub)_(short kind)_(feat)(script)_ . -/
def synthPre (gp : Bool) (kind : String) (fs : String × String) : String :=
  (if gp then "pos" else "sub") ++ "_" ++
    (dictGet SHORT_LOOKUP_TYPES kind).getD "unknown" ++ "_" ++
    fs.1 ++ fs.2 ++ "_"

/-- The synthesized collision name: the first even counter whose candidate
is fresh. -/
def synthName (gp : Bool) (kind : String) (fs : String × String)
    (vals : List String) : String :=
  mkCand (synthPre gp kind fs) (2 * synthIdx (synthPre gp kind fs) vals)

theorem synthName_not_mem (gp : Bool) (kind : String) (fs : String × String)
    (vals : List String) : synthName gp kind fs vals ∉ vals :=
  synthIdx_spec (synthPre gp kind fs) vals

/-- Source _santizeLookupName: memoized; the filtered name is used if still
unassigned, otherwise a synthesized pos|sub name with an even counter is
searched until fresh.  The state is the _sanitizedLookupNames dict. -/
def santizeLookupName (linfo : List (String × LookupVal))
    (st : List (String × String)) (lookup : String) (isgpos : Option Bool) :
    Except String (String × List (String × String)) :=
  match dictGet st lookup with
  | some v => pure (v, st)
  | none =>
    match isgpos with
    | none => throw "AssertionError: isgpos is not None"
    | some gp =>
      if sanitizeBase lookup ∈ dictVals st then
        match dictGet linfo lookup with
        | none => throw "KeyError: lookup"
        | some (kind, _, fealangsys) =>
          match featScriptOf fealangsys with
          | .error e => .error e
          | .ok fs =>
            .ok (synthName gp kind fs (dictVals st),
                 dictSet st lookup (synthName gp kind fs (dictVals st)))
      else .ok (sanitizeBase lookup, dictSet st lookup (sanitizeBase lookup))

/-- Sanitize a sequence of lookups, threading the memo dict from empty. -/
def runSanitize (linfo : List (String × LookupVal))
    (reqs : List (String × Option Bool)) :
    Except String (List (String × String)) :=
  reqs.foldlM
    (fun st r => (santizeLookupName linfo st r.1 r.2).map Prod.snd) []

theorem dictGet_none_dictSet {β : Type} (st : List (String × β)) (k : String)
    (v : β) (h : dictGet st k = none) : dictSet st k v = st ++ [(k, v)] := by
  unfold dictSet
  unfold dictGet at h
  rw [Option.map_eq_none'] at h
  rw [List.find?_eq_none] at h
  have hany : st.any (fun p => p.1 = k) = false := by
    rw [List.any_eq_false]
    intro p hp
    exact h p hp
  rw [hany]
  simp

theorem dictGet_mem {β : Type} {st : List (String × β)} {k : String} {v : β}
    (h : dictGet st k = some v) : (k, v) ∈ st := by
  unfold dictGet at h
  cases hf : st.find? (fun p => p.1 = k) with
  | none => rw [hf] at h; simp at h
  | some p =>
    rw [hf] at h
    simp at h
    have hp1 := List.find?_some hf
    simp only [decide_eq_true_eq] at hp1
    have hpm := List.mem_of_find?_eq_some hf
    have hpe : p = (k, v) := by
      obtain ⟨a, b⟩ := p
      simp only at hp1 h
      rw [hp1, h]
    exact hpe ▸ hpm

theorem dictGet_append_last {β : Type} (st : List (String × β)) (k : String)
    (v : β) (h : dictGet st k = none) :
    dictGet (st ++ [(k, v)]) k = some v := by
  unfold dictGet at h ⊢
  rw [Option.map_eq_none'] at h
  rw [List.find?_append]
  rw [h]
  simp

theorem vals_nodup_inj {β : Type} [DecidableEq β] :
    ∀ (st : List (String × β)) (l1 l2 : String) (n : β),
    (dictVals st).Nodup → (l1, n) ∈ st → (l2, n) ∈ st → l1 = l2 := by
  intro st
  induction st with
  | nil => intro l1 l2 n _ h1; simp at h1
  | cons p tl ih =>
    intro l1 l2 n hnd h1 h2
    have hnd2 : (dictVals tl).Nodup := (List.nodup_cons.mp hnd).2
    have hp2 : p.2 ∉ dictVals tl := (List.nodup_cons.mp hnd).1
    rcases List.mem_cons.mp h1 with rfl | h1t
    · rcases List.mem_cons.mp h2 with he | h2t
      · exact (congrArg Prod.fst he).symm
      · exfalso
        exact hp2 (List.mem_map.mpr ⟨(l2, n), h2t, rfl⟩)
    · rcases List.mem_cons.mp h2 with rfl | h2t
      · exfalso
        exact hp2 (List.mem_map.mpr ⟨(l1, n), h1t, rfl⟩)
      · exact ih l1 l2 n hnd2 h1t h2t

/-- Characterization of one sanitizer call: either a memo hit, or a fresh
name (absent from the already assigned values) appended for a lookup not
yet in the memo. -/
theorem santize_ok_char (linfo : List (String × LookupVal))
    (st : List (String × String)) (lookup : String) (g : Option Bool)
    (n : String) (st2 : List (String × String))
    (h : santizeLookupName linfo st lookup g = .ok (n, st2)) :
    (dictGet st lookup = some n ∧ st2 = st) ∨
    (dictGet st lookup = none ∧ n ∉ dictVals st ∧
      st2 = st ++ [(lookup, n)]) := by
  unfold santizeLookupName at h
  split at h
  case _ v hm =>
    simp only [pure, Except.pure, Except.ok.injEq, Prod.mk.injEq] at h
    refine Or.inl ⟨?_, h.2.symm⟩
    rw [hm, h.1]
  case _ hm =>
    split at h
    case _ => simp [throw, throwThe, MonadExceptOf.throw] at h
    case _ gp =>
      split at h
      case isTrue hout =>
        split at h
        next hlk => simp [throw, throwThe, MonadExceptOf.throw] at h
        next kind fl fe hlk =>
          split at h
          next e hfs => simp at h
          next fs hfs =>
            simp only [Except.ok.injEq, Prod.mk.injEq] at h
            refine Or.inr ⟨hm, ?_, ?_⟩
            · rw [← h.1]
              exact synthName_not_mem gp kind fs (dictVals st)
            · rw [← h.2, ← h.1]
              exact dictGet_none_dictSet st lookup _ hm
      case isFalse hout =>
        simp only [Except.ok.injEq, Prod.mk.injEq] at h
        refine Or.inr ⟨hm, ?_, ?_⟩
        · rw [← h.1]; exact hout
        · rw [← h.2, ← h.1]
          exact dictGet_none_dictSet st lookup _ hm

/-- One sanitizer call keeps the assigned values free of duplicates. -/
theorem santize_nodup (linfo : List (String × LookupVal))
    (st : List (String × String)) (lookup : String) (g : Option Bool)
    (n : String) (st2 : List (String × String))
    (h : santizeLookupName linfo st lookup g = .ok (n, st2))
    (hnd : (dictVals st).Nodup) : (dictVals st2).Nodup := by
  rcases santize_ok_char linfo st lookup g n st2 h with ⟨_, rfl⟩ | ⟨_, hn, rfl⟩
  · exact hnd
  · unfold dictVals at hnd ⊢
    rw [List.map_append, List.nodup_append]
    refine ⟨hnd, by simp, ?_⟩
    intro a ha hb
    simp only [List.map_cons, List.map_nil, List.mem_singleton] at hb
    subst hb
    exact hn ha

/-- One sanitizer call records the returned name in the memo. -/
theorem santize_memo (linfo : List (String × LookupVal))
    (st : List (String × String)) (lookup : String) (g : Option Bool)
    (n : String) (st2 : List (String × String))
    (h : santizeLookupName linfo st lookup g = .ok (n, st2)) :
    dictGet st2 lookup = some n := by
  rcases santize_ok_char linfo st lookup g n st2 h with ⟨hm, rfl⟩ | ⟨hm, _, rfl⟩
  · exact hm
  · exact dictGet_append_last st lookup n hm

/-- The sanitizer fold keeps the assigned names free of duplicates. -/
theorem runSanitize_fold_nodup (linfo : List (String × LookupVal)) :
    ∀ (reqs : List (String × Option Bool)) (st0 st : List (String × String)),
    (dictVals st0).Nodup →
    reqs.foldlM
      (fun st r => (santizeLookupName linfo st r.1 r.2).map Prod.snd) st0 =
      .ok st →
    (dictVals st).Nodup := by
  intro reqs
  induction reqs with
  | nil =>
    intro st0 st hnd h
    simp only [List.foldlM_nil, pure, Except.pure, Except.ok.injEq] at h
    exact h ▸ hnd
  | cons r tl ih =>
    intro st0 st hnd h
    rw [List.foldlM_cons] at h
    cases hs : santizeLookupName linfo st0 r.1 r.2 with
    | error e => rw [hs] at h; simp [Except.map, bind, Except.bind] at h
    | ok p =>
      rw [hs] at h
      obtain ⟨n, st1⟩ := p
      simp only [Except.map, bind, Except.bind] at h
      exact ih st1 st (santize_nodup linfo st0 r.1 r.2 n st1 hs hnd) h

/-- Claim C5, amended: sanitization is injective for the lifetime of one
parse run (no two distinct lookups ever receive the same name) and names
are memoized per lookup; the per-name production keeps characters in
[A-Za-z0-9._] dropping a digit only at index 0 of the raw name (not every
leading digit), truncates to 63 characters, and synthesizes
(pos|sub)_(kind)_(feat)(script)_(n) with n stepped by 2 on collision. -/
theorem c5_sanitize_injective :
    (∀ (linfo : List (String × LookupVal))
      (reqs : List (String × Option Bool)) (st : List (String × String)),
      runSanitize linfo reqs = .ok st →
      ∀ l1 l2 n1 n2, dictGet st l1 = some n1 → dictGet st l2 = some n2 →
        l1 ≠ l2 → n1 ≠ n2) ∧
    (∀ (linfo : List (String × LookupVal)) (st : List (String × String))
      (lookup : String) (g g2 : Option Bool) (n : String)
      (st2 : List (String × String)),
      santizeLookupName linfo st lookup g = .ok (n, st2) →
      santizeLookupName linfo st2 lookup g2 = .ok (n, st2)) := by
  constructor
  · intro linfo reqs st hrun l1 l2 n1 n2 h1 h2 hne heq
    subst heq
    have hnd : (dictVals st).Nodup :=
      runSanitize_fold_nodup linfo reqs [] st (by simp [dictVals]) hrun
    exact hne (vals_nodup_inj st l1 l2 n1 hnd (dictGet_mem h1) (dictGet_mem h2))
  · intro linfo st lookup g g2 n st2 h
    have hmemo := santize_memo linfo st lookup g n st2 h
    unfold santizeLookupName
    rw [hmemo]
    rfl

/-- Witness for the amended C5: two raw lookup names that collide after
filtering (a! and a?) receive distinct sanitized names; the second gets the
synthesized sub_single_ligalatn_0, and a repeated call is a memo hit. -/
theorem c5_sanitize_injective_witness :
    runSanitize
      [("a?", ("gsub_single", [], [("liga", [("latn", ["dflt"])])]))]
      [("a!", some false), ("a?", some false)] =
      .ok [("a!", "a"), ("a?", "sub_single_ligalatn_0")] ∧
    ("a" : String) ≠ "sub_single_ligalatn_0" ∧
    santizeLookupName
      [("a?", ("gsub_single", [], [("liga", [("latn", ["dflt"])])]))]
      [("a!", "a"), ("a?", "sub_single_ligalatn_0")] "a?" none =
      .ok ("sub_single_ligalatn_0", [("a!", "a"), ("a?", "sub_single_ligalatn_0")]) := by
  refine ⟨by decide, ?_, ?_⟩
  · exact c5_sanitize_injective.1
      [("a?", ("gsub_single", [], [("liga", [("latn", ["dflt"])])]))]
      [("a!", some false), ("a?", some false)]
      [("a!", "a"), ("a?", "sub_single_ligalatn_0")]
      (by decide) "a!" "a?" "a" "sub_single_ligalatn_0"
      (by decide) (by decide) (by decide)
  · exact c5_sanitize_injective.2
      [("a?", ("gsub_single", [], [("liga", [("latn", ["dflt"])])]))]
      [("a!", "a")] "a?" (some false) none "sub_single_ligalatn_0"
      [("a!", "a"), ("a?", "sub_single_ligalatn_0")]
      (by decide)

/-! ## Parser state and the section reader

Loops that walk the line list are written with a structural fuel argument
(always called with at least the length of the list plus one, and consuming
at least one line per iteration) so that concrete runs reduce in the
kernel; exhausting the fuel is modelled as an error and is unreachable in
every call the driver makes. -/

set_option synthInstance.maxSize 1024

/-- Deferred structures the SFDParser instance accumulates. -/
structure PMaps where
  glyphRefs : List ((LayerKey × String) × List (Option String)) := []
  glyphAnchors :
    List (String × List (String × List (String × (ℚ × ℚ × Int)))) := []
  glyphKerns : List (String × List (Int × Int)) := []
  glyphPosSub : List (String × List (String × List (String × PosSubData))) := []
  anchorClasses : List (String × List String) := []
  kernClasses : List (String × KernClassVal) := []
  gsubLookups : List (String × List String) := []
  gposLookups : List (String × List String) := []
  lookupInfo : List (String × LookupVal) := []
  ligatureCarets : List (String × List Int) := []
  sanitized : List (String × String) := []
deriving DecidableEq

/-- Source _getSection, on the remaining line list instead of an index:
collect lines until one that starts with the end marker; never finding the
marker runs off the list (IndexError). -/
def getSection (endMarker : String) (seed : List String) :
    List String → Except String (List String × List String)
  | [] => throw "IndexError: list index out of range"
  | line :: rest =>
    if pyStartsWith line endMarker then pure (seed, rest)
    else getSection endMarker (seed ++ [line]) rest

/-- The section reader leaves a strict suffix of its input. -/
theorem getSection_suffix (endMarker : String) :
    ∀ (data : List String) (seed sec rest2 : List String),
    getSection endMarker seed data = .ok (sec, rest2) →
    rest2.length < data.length ∧ rest2.isSuffixOf data = true := by
  intro data
  induction data with
  | nil => intro seed sec rest2 h; simp [getSection, throw, throwThe, MonadExceptOf.throw] at h
  | cons line rest ih =>
    intro seed sec rest2 h
    unfold getSection at h
    by_cases hs : pyStartsWith line endMarker
    · rw [if_pos hs] at h
      simp only [pure, Except.pure, Except.ok.injEq, Prod.mk.injEq] at h
      obtain ⟨h1, h2⟩ := h
      subst h1
      subst h2
      constructor
      · simp
      · rw [List.isSuffixOf_iff_suffix]
        exact (List.suffix_cons line rest)
    · rw [if_neg hs] at h
      obtain ⟨hlt, hsuf⟩ := ih (seed ++ [line]) sec rest2 h
      constructor
      · simp only [List.length_cons]; omega
      · rw [List.isSuffixOf_iff_suffix] at hsuf ⊢
        exact hsuf.trans (List.suffix_cons line rest)

/-- Splitting a glyph record line into key and value:
line.split(": ", 1) when ": " occurs, else a valueless key. -/
def splitKV (line : String) : String × Option String :=
  if pyInStr ": " line then
    match pySplit1 line ": " with
    | [k, v] => (k, some v)
    | _ => (line, none)
  else (line, none)

/-- Source _parseSplineSet, on the remaining line list, accumulating parsed
contours.  Geometry-line splitting on the regex (\s[lmc]\s) is the external
splitGeomLine; everything after it is concrete. -/
def parseSplineSet (ext : Ext) : Nat → List String → List Contour →
    Except String (List Contour)
  | 0, _, _ => throw "RecursionError"
  | _ + 1, [], contours => pure contours
  | fuel + 1, line :: rest, contours =>
    if line = "Spiro" then do
      let (_, rest2) ← getSection "EndSpiro" [] rest
      parseSplineSet ext fuel (rest2.drop 1) contours
    else if pyStartsWith line "Named" then
      match (pySplitOn line ": ")[1]? with
      | none => throw "IndexError: Named"
      | some nm =>
        match contours.getLast? with
        | none => throw "IndexError: contours"
        | some lastC =>
          parseSplineSet ext fuel rest (contours.dropLast ++
            [lastC ++ [ContourEntry.cname (ext.readUTF7 nm)]])
    else
      match ext.splitGeomLine line with
      | none => throw "ValueError: geometry line"
      | some (ptsStr, segStr, flagsStr) => do
        let ptNums ← (pySplitOn ptsStr " ").mapM (fun c =>
          match pyFloat? c with
          | some q => pure q
          | none => throw "ValueError: could not convert string to float")
        let pts := splitList ptNums 2
        if segStr = "m" then
          if pts.length = 1 then
            parseSplineSet ext fuel rest
              (contours ++ [[ContourEntry.seg ⟨pts, .m, flagsStr⟩]])
          else throw "AssertionError: len(pts) == 1"
        else if segStr = "l" then
          if pts.length = 1 then
            match contours.getLast? with
            | none => throw "IndexError: contours"
            | some lastC =>
              parseSplineSet ext fuel rest (contours.dropLast ++
                [lastC ++ [ContourEntry.seg ⟨pts, .l, flagsStr⟩]])
          else throw "AssertionError: len(pts) == 1"
        else if segStr = "c" then
          if pts.length = 3 then
            match contours.getLast? with
            | none => throw "IndexError: contours"
            | some lastC =>
              parseSplineSet ext fuel rest (contours.dropLast ++
                [lastC ++ [ContourEntry.seg ⟨pts, .c, flagsStr⟩]])
          else throw "AssertionError: len(pts) == 3"
        else parseSplineSet ext fuel rest contours

/-! ## The glyph parser (_parseChar, lines 454-542) -/

/-- Source _GLYPH_CLASSES. -/
def GLYPH_CLASSES : List String :=
  ["automatic", "noclass", "baseglyph", "baseligature", "mark", "component"]

/-- Configuration fixed while one glyph section is parsed. -/
structure CharCtx where
  layers : List (Option LayerKey)
  layerType : List (Option Bool)
  ignoreUvs : Bool
  useUfoAnchors : Bool
deriving DecidableEq

/-- Loop state of _parseChar: the font, the deferred maps, the active layer
glyph, the captured quadratic convention (outer none = the Python local is
still unbound), the collected unicodes, and the declaration order. -/
structure CharState where
  font : FontState
  pm : PMaps
  layerRef : LayerKey
  quadratic : Option (Option Bool)
  unicodes : List Int
  order : Option Int
deriving DecidableEq

/-- Source _parseKerns: one Kerns2 record, deferred by glyph name. -/
def parseKerns (ext : Ext) (pm : PMaps) (gname : String) (data : String) :
    Except String PMaps := do
  if dictHas pm.glyphKerns gname then throw "AssertionError: glyph in kerns"
  else
    let kerns := ext.findKerns data
    if kerns.isEmpty then throw "AssertionError: kerns"
    else do
      let ks ← kerns.mapM (fun t => do
        let some gid := pyInt? t.1 | throw "ValueError: int"
        let some kern := pyInt? t.2.1 | throw "ValueError: int"
        pure (gid, kern))
      pure { pm with glyphKerns := dictSet pm.glyphKerns gname ks }

/-- Source _parseAnchorPoint: store on the glyph (UFO-anchor mode) or in the
deferred anchor map keyed by glyph, class name and kind. -/
def parseAnchorPt (ext : Ext) (useUfo : Bool) (fs : FontState) (pm : PMaps)
    (gname : String) (data : String) : Except String (FontState × PMaps) := do
  let some (nm, xs, ys, kind, idxs) := ext.matchAnchor data
    | throw "AssertionError: anchor"
  let name := ext.readUTF7 nm
  let some x := pyFloat? xs | throw "ValueError: float"
  let some y := pyFloat? ys | throw "ValueError: float"
  let some index := pyInt? idxs | throw "ValueError: int"
  if useUfo then do
    let fs2 ← fs.modifyGlyph .primary gname (fun g =>
      { g with anchors := g.anchors ++ [ext.parseAnchorPoint name kind x y index] })
    pure (fs2, pm)
  else
    let ga := (dictGet pm.glyphAnchors gname).getD []
    let byName := (dictGet ga name).getD []
    let byName2 := dictSet byName kind (x, y, index)
    let ga2 := dictSet ga name byName2
    pure (fs, { pm with glyphAnchors := dictSet pm.glyphAnchors gname ga2 })

/-- Source _parsePosSub: decode the subtable name and the rule payload per
key kind, then file the fragment under glyph and subtable. -/
def parsePosSub (ext : Ext) (pm : PMaps) (gname : String) (key : String)
    (data : String) : Except String PMaps := do
  let some (subQuoted, possubStr) := ext.matchSubPos data
    | throw "AssertionError: subpos"
  let key2 := String.mk key.data.dropLast
  let subtable := ext.readUTF7 subQuoted
  let possub := pySplitWs (pyStrip possubStr)
  let payload ← (if key2 = "Position" then do
      let vals ← possub.mapM (fun p =>
        match (pySplitOn p "=")[1]? with
        | none => throw "IndexError: split"
        | some t =>
          match pyInt? t with
          | some v => pure v
          | none => throw "ValueError: int")
      pure (PosSubData.nums vals)
    else if key2 = "PairPos" then do
      let vals ← (possub.drop 1).mapM (fun p =>
        match (pySplitOn p "=")[1]? with
        | none => throw "IndexError: split"
        | some t =>
          match pyInt? t with
          | some v => pure v
          | none => throw "ValueError: int")
      pure (PosSubData.pair (possub.take 1) vals)
    else pure (PosSubData.strs possub))
  if key2 ∈ ["Ligature", "Substitution", "AlternateSubs", "MultipleSubs",
      "Position", "PairPos"] then
    let bySub := (dictGet pm.glyphPosSub gname).getD []
    let entries := (dictGet bySub subtable).getD []
    let bySub2 := dictSet bySub subtable (entries ++ [(key2, payload)])
    pure { pm with glyphPosSub := dictSet pm.glyphPosSub gname bySub2 }
  else throw "AssertionError: key"

/-- One iteration of the _parseChar record loop: dispatch on the record key,
possibly consuming a nested section from the remaining lines. -/
def charStep (ext : Ext) (ctx : CharCtx) (gname : String) (st : CharState)
    (line : String) (rest : List String) :
    Except String (CharState × List String) := do
  let (key, value) := splitKV line
  if key = "Width" then do
    let some v := value | throw "TypeError: int of None"
    let some n := pyInt? v | throw "ValueError: int"
    let fs2 ← st.font.modifyGlyph .primary gname (fun g => { g with width := n })
    pure ({ st with font := fs2 }, rest)
  else if key = "VWidth" then do
    let some v := value | throw "TypeError: int of None"
    let some n := pyInt? v | throw "ValueError: int"
    let fs2 ← st.font.modifyGlyph .primary gname (fun g => { g with height := n })
    pure ({ st with font := fs2 }, rest)
  else if key = "Encoding" then do
    let some v := value | throw "TypeError: split of None"
    let nums ← (pySplitWs v).mapM (fun t =>
      match pyInt? t with
      | some n => pure n
      | none => throw "ValueError: int")
    match nums with
    | [_, uni, order] =>
      if uni ≥ 0 then
        pure ({ st with order := some order,
                        unicodes := st.unicodes ++ [uni] }, rest)
      else pure ({ st with order := some order }, rest)
    | _ => throw "ValueError: unpack"
  else if key = "AltUni2" then do
    let some v := value | throw "TypeError: split of None"
    let nums ← (pySplitOn v ".").mapM (fun t =>
      match pyHex? t with
      | some n => pure n
      | none => throw "ValueError: int base 16")
    let altuni := splitList nums 3
    pure ({ st with unicodes :=
      st.unicodes ++ ext.parseAltuni gname altuni ctx.ignoreUvs }, rest)
  else if key = "GlyphClass" then do
    let some v := value | throw "TypeError: int of None"
    let some n := pyInt? v | throw "ValueError: int"
    let some cls := pyGet? GLYPH_CLASSES n | throw "IndexError: list"
    let fs2 ← st.font.modifyGlyph .primary gname (fun g =>
      { g with libGlyphClass := some cls })
    pure ({ st with font := fs2 }, rest)
  else if key = "AnchorPoint" then do
    let some v := value | throw "TypeError: match of None"
    let (fs2, pm2) ← parseAnchorPt ext ctx.useUfoAnchors st.font st.pm gname v
    pure ({ st with font := fs2, pm := pm2 }, rest)
  else if key ∈ LAYER_KEYWORDS then do
    let idx ← layerIdxOf key value
    let some slot := pyGet? ctx.layers idx | throw "IndexError: list"
    let some lk := slot | throw "TypeError: argument of type NoneType"
    let some q := pyGet? ctx.layerType idx | throw "IndexError: list"
    match st.font.layerGlyphs lk with
    | none => throw "KeyError: layer"
    | some gl =>
      if dictHas gl gname then
        pure ({ st with layerRef := lk, quadratic := some q }, rest)
      else do
        let some g0 := st.font.glyph? .primary gname | throw "KeyError: glyph"
        let fs2 ← st.font.newLayerGlyph lk gname
        let fs3 ← fs2.modifyGlyph lk gname (fun g => { g with width := g0.width })
        pure ({ st with font := fs3, layerRef := lk, quadratic := some q }, rest)
  else if key = "SplineSet" then do
    let (splines, rest2) ← getSection "EndSplineSet" [] rest
    let contours ← parseSplineSet ext (splines.length + 1) splines []
    let some qq := st.quadratic | throw "NameError: quadratic"
    let drawn ← drawContours (qq.getD false) contours
    let fs2 ← st.font.modifyGlyph st.layerRef gname (fun g =>
      { g with contours := g.contours ++ drawn })
    pure ({ st with font := fs2 }, rest2)
  else if key = "Image" then do
    let seed := match value with
      | some v => [v]
      | none => []
    let (_, rest2) ← getSection "EndImage" seed rest
    pure (st, rest2)
  else if key = "Colour" then do
    let some v := value | throw "TypeError: int of None"
    let some n := pyHex? v | throw "ValueError: int base 16"
    let fs2 ← st.font.modifyGlyph st.layerRef gname (fun g =>
      { g with markColor := some (ext.parseColor n) })
    pure ({ st with font := fs2 }, rest)
  else if key = "Refer" then
    let k := (st.layerRef, gname)
    let refs := (dictGet st.pm.glyphRefs k).getD []
    pure ({ st with pm :=
      { st.pm with glyphRefs := dictSet st.pm.glyphRefs k (refs ++ [value]) } },
      rest)
  else if key = "Kerns2" then do
    let some v := value | throw "TypeError: findall of None"
    let pm2 ← parseKerns ext st.pm gname v
    pure ({ st with pm := pm2 }, rest)
  else if key = "Comment" then do
    let some v := value | throw "TypeError: decode of None"
    let fs2 ← st.font.modifyGlyph .primary gname (fun g =>
      { g with gnote := some (ext.readUTF7 v) })
    pure ({ st with font := fs2 }, rest)
  else if key = "UnlinkRmOvrlpSave" then do
    let some v := value | throw "TypeError: int of None"
    let some n := pyInt? v | throw "ValueError: int"
    let fs2 ← st.font.modifyGlyph .primary gname (fun g =>
      { g with libDecompose := some (n ≠ 0) })
    pure ({ st with font := fs2 }, rest)
  else if key = "LCarets2" then do
    let some v := value | throw "TypeError: split of None"
    let nums ← (pySplitOn v " ").mapM (fun t =>
      match pyInt? t with
      | some n => pure n
      | none => throw "ValueError: int")
    match nums with
    | [] => throw "IndexError: pop from empty list"
    | num :: vtail =>
      if vtail.any (· ≠ 0) then
        if (vtail.length : Int) = num then
          pure ({ st with pm := { st.pm with
            ligatureCarets := dictSet st.pm.ligatureCarets gname vtail } }, rest)
        else throw "AssertionError: len(v) == num"
      else pure (st, rest)
  else if key ∈ ["Position2", "PairPos2", "Ligature2", "Substitution2",
      "AlternateSubs2", "MultipleSubs2"] then do
    let some v := value | throw "TypeError: match of None"
    let pm2 ← parsePosSub ext st.pm gname key v
    pure ({ st with pm := pm2 }, rest)
  else pure (st, rest)

/-- The _parseChar record loop (fuelled; the driver passes enough fuel). -/
def charLoop (ext : Ext) (ctx : CharCtx) (gname : String) :
    Nat → CharState → List String → Except String CharState
  | 0, _, _ => throw "RecursionError"
  | _ + 1, st, [] => pure st
  | fuel + 1, st, line :: rest => do
    let (st2, rest2) ← charStep ext ctx gname st line rest
    charLoop ext ctx gname fuel st2 rest2

/-- Source _parseChar: read the StartChar line, create the glyph, loop over
the records, assign the unicodes, and return the declaration order (reading
it without any Encoding record is the Python NameError). -/
def parseChar (ext : Ext) (ctx : CharCtx) (fs : FontState) (pm : PMaps)
    (data : List String) :
    Except String (FontState × PMaps × String × Int) := do
  match data with
  | [] => throw "IndexError: pop from empty list"
  | first :: rest => do
    let name ← (match pySplitOn first ": " with
      | [_, n] => pure n
      | _ => throw "ValueError: unpack")
    let name := if pyStartsWith name "\"" then ext.readUTF7 name else name
    let fs := fs.newGlyph name
    let st0 : CharState :=
      { font := fs, pm := pm, layerRef := .primary, quadratic := none,
        unicodes := [], order := none }
    let st ← charLoop ext ctx name (rest.length + 1) st0 rest
    let fs2 ← st.font.modifyGlyph .primary name (fun g =>
      { g with unicodes := st.unicodes })
    match st.order with
    | none => throw "NameError: name order is not defined"
    | some o => pure (fs2, st.pm, name, o)

/-- Comparison used by the final glyph-order sort: ranks from the
declaration-order map. -/
def rankLe (m : List (String × Int)) (a b : String) : Bool :=
  ((dictGet m a).getD 0) ≤ ((dictGet m b).getD 0)

/-- sorted(glyphOrderMap, key=glyphOrderMap.get): the map keys in insertion
order, stably sorted by rank. -/
def sortByRank (m : List (String × Int)) : List String :=
  (m.map Prod.fst).mergeSort (rankLe m)

/-- The StartChar scan loop of _parseChars (fuelled). -/
def parseCharsLoop (ext : Ext) (ctx : CharCtx) :
    Nat → FontState → PMaps → List String → List (String × Int) →
    Except String (FontState × PMaps × List (String × Int))
  | 0, _, _, _, _ => throw "RecursionError"
  | _ + 1, fs, pm, [], m => pure (fs, pm, m)
  | fuel + 1, fs, pm, line :: rest, m =>
    if pyStartsWith line "StartChar" then do
      let (sec, rest2) ← getSection "EndChar" [line] rest
      let (fs2, pm2, name, order) ← parseChar ext ctx fs pm sec
      parseCharsLoop ext ctx fuel fs2 pm2 rest2 (dictSet m name order)
    else parseCharsLoop ext ctx fuel fs pm rest m

/-- Source _parseChars: strip and drop blank lines, scan the StartChar
sections, check the glyph-count invariant, and assign the final glyph
order.  The declaration-order map is also returned for the record. -/
def parseChars (ext : Ext) (ctx : CharCtx) (fs : FontState) (pm : PMaps)
    (data : List String) :
    Except String (FontState × PMaps × List (String × Int)) := do
  let data := (data.map pyStrip).filter (· ≠ "")
  let (fs2, pm2, m) ← parseCharsLoop ext ctx (data.length + 1) fs pm data []
  if fs2.glyphOrder.length = m.length then
    pure ({ fs2 with glyphOrder := sortByRank m }, pm2, m)
  else throw "AssertionError: glyph order count"

/-! ## The feature program generator (_writeGSUBGPOS and friends) -/

/-- Python "%d" for a possibly negative int. -/
def intRepr (i : Int) : String :=
  if i < 0 then "-" ++ natRepr i.natAbs else natRepr i.toNat

/-- Source _LOOKUP_TYPES. -/
def LOOKUP_TYPES : List (Int × String) :=
  [(0x001, "gsub_single"),
   (0x002, "gsub_multiple"),
   (0x003, "gsub_alternate"),
   (0x004, "gsub_ligature"),
   (0x005, "gsub_context"),
   (0x006, "gsub_contextchain"),
   (0x008, "gsub_reversecchain"),
   (0x0fd, "morx_indic"),
   (0x0fe, "morx_context"),
   (0x0ff, "morx_insert"),
   (0x101, "gpos_single"),
   (0x102, "gpos_pair"),
   (0x103, "gpos_cursive"),
   (0x104, "gpos_mark2base"),
   (0x105, "gpos_mark2ligature"),
   (0x106, "gpos_mark2mark"),
   (0x107, "gpos_context"),
   (0x108, "gpos_contextchain"),
   (0x1ff, "kern_statemachine")]

/-- Source _LOOKUP_FLAGS, already in sorted key order. -/
def LOOKUP_FLAGS : List (Int × String) :=
  [(1, "RightToLeft"),
   (2, "IgnoreBaseGlyphs"),
   (4, "IgnoreLigatures"),
   (8, "IgnoreMarks")]

/-- Type of the deferred rule-fragment store _glyphPosSub. -/
abbrev GPS := List (String × List (String × List (String × PosSubData)))

/-- Lines 813-821, the body test: a subtable survives when some glyph filed
rule fragments under it or it is an anchor-class subtable. -/
def subtableSurvives (gps : GPS) (ac : List (String × List String))
    (sub : String) : Bool :=
  gps.any (fun g => dictHas g.2 sub) || dictHas ac sub

/-- Source _pruneSubtables: keep the surviving subtables. -/
def pruneSubtables (gps : GPS) (ac : List (String × List String))
    (subtables : List String) : List String :=
  subtables.filter (subtableSurvives gps ac)

/-- Python any() over a list of strings: an empty string is falsy. -/
def pyAnyStr (l : List String) : Bool := l.any (· ≠ "")

/-- Lines 882-885: keep each lookup whose pruned subtable list is truthy. -/
def prunedLookups (gps : GPS) (ac : List (String × List String))
    (tableLookups : List (String × List String)) :
    List (String × List String) :=
  tableLookups.filter (fun p => pyAnyStr (pruneSubtables gps ac p.2))

/-- The line-922 and line-938 calls self._santizeLookupName(lookup): by this
point the name is memoized (sanitized in the first loop over the table);
an unmemoized call with the default None argument is the assert. -/
def sanNameOf (st : List (String × String)) (lookup : String) :
    Except String String :=
  match dictGet st lookup with
  | some v => pure v
  | none => throw "AssertionError: isgpos is not None"

/-- Lines 913-922: the ordered lookup references of one
(feature, script, language) slot. -/
def outlFor (st : List (String × String)) (lookups : List (String × List String))
    (linfo : List (String × LookupVal)) (feature script language : String) :
    Except String (List String) :=
  lookups.foldlM (fun acc p =>
    match dictGet linfo p.1 with
    | none => throw "KeyError: lookup info"
    | some info =>
      info.2.2.foldlM (fun acc2 fl =>
        if fl.1 = feature then
          fl.2.foldlM (fun acc3 sl =>
            if sl.1 = script then
              sl.2.foldlM (fun acc4 ll =>
                if ll = language then do
                  let n ← sanNameOf st p.1
                  pure (acc4 ++ [n])
                else pure acc4) acc3
            else pure acc3) acc2
        else pure acc2) acc) []

/-- Lines 890-902: the ordered feature set and the script/language
collections of the surviving lookups. -/
def collectFeatScriptLang (linfo : List (String × LookupVal))
    (lookups : List (String × List String)) :
    Except String (List String × List String × List (String × List String)) :=
  lookups.foldlM (fun acc p =>
    match dictGet linfo p.1 with
    | none => throw "KeyError: lookup info"
    | some info =>
      pure (info.2.2.foldl (fun acc2 feature =>
        let fset := if feature.1 ∈ acc2.1 then acc2.1 else acc2.1 ++ [feature.1]
        feature.2.foldl (fun acc3 sl =>
          let sset := if sl.1 ∈ acc3.2.1 then acc3.2.1 else acc3.2.1 ++ [sl.1]
          let cur := (dictGet acc3.2.2 sl.1).getD []
          let cur2 := sl.2.foldl (fun c l => if l ∈ c then c else c ++ [l]) cur
          (acc3.1, sset, dictSet acc3.2.2 sl.1 cur2))
          (fset, acc2.2.1, acc2.2.2)) acc)) ([], [], [])

/-- Python sorted on strings. -/
def sortStrs (l : List String) : List String :=
  l.mergeSort (fun a b => a ≤ b)

/-- Line 905: languages sorted with dflt first. -/
def sortLangs (l : List String) : List String :=
  l.mergeSort (fun a b =>
    (if a = "dflt" then "0" else a) ≤ (if b = "dflt" then "0" else b))

/-- Lines 907-928: the nested feature → script → language → lookup-name
structure. -/
def buildFeatures (st : List (String × String))
    (linfo : List (String × LookupVal)) (lookups : List (String × List String))
    (featureSet scripts : List String) (langSet : List (String × List String)) :
    Except String (List (String × List (String × List (String × List String)))) :=
  featureSet.foldlM (fun outfAcc feature => do
    let outf ← scripts.foldlM (fun outsAcc script => do
      match dictGet langSet script with
      | none => throw "KeyError: langSet"
      | some langs => do
        let outs ← (sortLangs langs).foldlM (fun outlAcc language => do
          let outl ← outlFor st lookups linfo feature script language
          pure (if outl ≠ [] then outlAcc ++ [(language, outl)] else outlAcc)) []
        pure (if outs ≠ [] then outsAcc ++ [(script, outs)] else outsAcc)) []
    pure (if outf ≠ [] then outfAcc ++ [(feature, outf)] else outfAcc)) []

/-- Source _sanitizeName (anchor class names): spaces become underscores,
alphanumerics, dots and underscores are kept, the rest is dropped. -/
def sanitizeName (name : String) : String :=
  String.mk (name.data.foldl (fun out c =>
    if c.toNat ≥ 127 then out
    else
      (out ++ (if c = ' ' then ['_'] else [])) ++
        (if c.isAlphanum ∨ c = '.' ∨ c = '_' then [c] else [])) [])

/-- Source _dumpAnchor for a full deferred anchor triple. -/
def dumpAnchor (ext : Ext) : Option (ℚ × ℚ × Int) → String
  | none => "<anchor NULL>"
  | some a => "<anchor " ++ ext.fmtG a.1 ++ " " ++ ext.fmtG a.2.1 ++ ">"

/-- Source _dumpAnchor for an (x, y) pair (the mark[:2] slices). -/
def dumpAnchor2 (ext : Ext) (a : ℚ × ℚ) : String :=
  "<anchor " ++ ext.fmtG a.1 ++ " " ++ ext.fmtG a.2 ++ ">"

/-- Source _writeAnchorClass: cursive attachments are emitted inline; mark
and base anchors are grouped by coordinates and class and then emitted as
markClass / pos statements. -/
abbrev AnchorAcc :=
  List String × List (((ℚ × ℚ) × String) × List String) ×
    List (((ℚ × ℚ) × String) × List String)

/-- One (anchor class, glyph) step of the _writeAnchorClass grouping loop. -/
def anchorStep (ext : Ext) (pm : PMaps) (kind : String)
    (acc : AnchorAcc) (ancGlyph : String × String) : AnchorAcc :=
  let (anchorClass, glyph) := ancGlyph
  match dictGet pm.glyphAnchors glyph with
  | none => acc
  | some byName =>
    match dictGet byName anchorClass with
    | none => acc
    | some anchor =>
      if kind = "gpos_cursive" then
        let entry := dictGet anchor "entry"
        let exitA := dictGet anchor "exit"
        if entry.isSome ∨ exitA.isSome then
          (acc.1 ++ ["    pos cursive \\" ++ glyph ++ " " ++
            dumpAnchor ext entry ++ " " ++ dumpAnchor ext exitA ++ ";"],
           acc.2)
        else acc
      else
        let mark := dictGet anchor "mark"
        let base := match dictGet anchor "basechar" with
          | some b => some b
          | none => dictGet anchor "basemark"
        let marks2 := match mark with
          | none => acc.2.1
          | some m =>
            let k := ((m.1, m.2.1), anchorClass)
            dictSet acc.2.1 k ((dictGet acc.2.1 k).getD [] ++ [glyph])
        let bases2 := match base with
          | none => acc.2.2
          | some b =>
            let k := ((b.1, b.2.1), anchorClass)
            dictSet acc.2.2 k ((dictGet acc.2.2 k).getD [] ++ [glyph])
        (acc.1, marks2, bases2)

def writeAnchorClass (ext : Ext) (pm : PMaps) (fs : FontState)
    (lookup subtable : String) : Except String (List String) := do
  let some (kind, _, _) := dictGet pm.lookupInfo lookup
    | throw "KeyError: lookup info"
  let some anchorsOfSub := dictGet pm.anchorClasses subtable
    | throw "KeyError: anchor class"
  let folded := (anchorsOfSub.flatMap (fun anchorClass =>
    fs.glyphOrder.map (fun glyph => (anchorClass, glyph)))).foldl
    (anchorStep ext pm kind) ([], [], [])
  let (cursiveLines, marks, bases) := folded
  let markLines := marks.map (fun mkv =>
    let className := sanitizeName mkv.1.2
    "  markClass [\\" ++ pyJoin " \\" mkv.2 ++ " ] " ++
      dumpAnchor2 ext mkv.1.1 ++ " @" ++ className ++ ";")
  let baseLines ← bases.mapM (fun bkv => do
    let className := sanitizeName bkv.1.2
    match (pySplitOn kind "2")[1]? with
    | none => throw "IndexError: split"
    | some pos =>
      if pos = "ligature" then throw "AssertionError: pos != ligature"
      else
        pure ("  pos " ++ pos ++ " [\\" ++ pyJoin " \\" bkv.2 ++ " ] " ++
          dumpAnchor2 ext bkv.1.1 ++ " mark @" ++ className ++ ";"))
  pure (cursiveLines ++ markLines ++ baseLines)

/-- The stored possub payload as Python str() items (for gpos joins). -/
def payloadStrs : PosSubData → List String
  | .strs l => l
  | .nums l => l.map intRepr
  | .pair gs l => gs ++ l.map intRepr

/-- Python " \\".join(possub): joining requires every item to be a string
(an int in the list is the gsub-kind TypeError). -/
def joinStrsOnly : PosSubData → Except String String
  | .strs l => pure (pyJoin " \\" l)
  | .nums [] => pure ""
  | .nums (_ :: _) => throw "TypeError: join of int"
  | .pair gs [] => pure (pyJoin " \\" gs)
  | .pair _ (_ :: _) => throw "TypeError: join of int"

/-- Lines 944-965: the rule lines of one (glyph, rule fragment) pair under a
given lookup kind. -/
def ruleLines (kind glyph : String) (payload : PosSubData) :
    Except String (List String) := do
  if pyStartsWith kind "gsub_" then do
    let joined ← joinStrsOnly payload
    if kind = "gsub_single" ∨ kind = "gsub_multiple" then
      pure ["    sub \\" ++ glyph ++ " by \\" ++ joined ++ " ;"]
    else if kind = "gsub_alternate" then
      pure ["    sub \\" ++ glyph ++ " from [\\" ++ joined ++ " ];"]
    else if kind = "gsub_ligature" then
      pure ["    sub \\" ++ joined ++ "  by \\" ++ glyph ++ ";"]
    else throw "AssertionError: kind"
  else if kind = "gpos_single" then
    pure ["    pos \\" ++ glyph ++ " <" ++
      pyJoin " " (payloadStrs payload) ++ ">;"]
  else if kind = "gpos_pair" then
    match payloadStrs payload with
    | [] => throw "IndexError: pop from empty list"
    | glyph2 :: vals =>
      pure ["    pos \\" ++ glyph ++ " <" ++ pyJoin " " (vals.take 4) ++
        "> \\" ++ glyph2 ++ " <" ++ pyJoin " " (vals.drop 4) ++ ">;"]
  else throw "AssertionError: kind"

/-- Lines 934-966: one serialized lookup block. -/
def writeLookupBlock (ext : Ext) (pm : PMaps) (fs : FontState)
    (st : List (String × String)) (lookup : String) (subtables : List String) :
    Except String (List String) := do
  let some (kind, flags, _) := dictGet pm.lookupInfo lookup
    | throw "KeyError: lookup info"
  let flagsStr := if flags.isEmpty then "0" else pyJoin " " flags
  let name ← sanNameOf st lookup
  let body ← subtables.foldlM (fun acc subtable =>
    if dictHas pm.anchorClasses subtable then do
      let ls ← writeAnchorClass ext pm fs lookup subtable
      pure (acc ++ ls)
    else
      pm.glyphPosSub.foldlM (fun acc2 gEntry =>
        match dictGet gEntry.2 subtable with
        | none => pure acc2
        | some entries =>
          entries.foldlM (fun acc3 e => do
            let ls ← ruleLines kind gEntry.1 e.2
            pure (acc3 ++ ls)) acc2) acc) []
  pure (["", "lookup " ++ name ++ " \x7b", "  lookupflag " ++ flagsStr ++ ";"]
    ++ body ++ ["\x7d " ++ name ++ ";"])

/-- Lines 968-978: the feature blocks. -/
def featureBlockLines
    (features : List (String × List (String × List (String × List String)))) :
    List String :=
  features.foldl (fun acc f =>
    acc ++ ["", "feature " ++ f.1 ++ " \x7b"] ++
    f.2.foldl (fun acc2 sc =>
      acc2 ++ ["", " script " ++ sc.1 ++ ";"] ++
      sc.2.foldl (fun acc3 lg =>
        acc3 ++ ["     language " ++ lg.1 ++ " " ++
          (if lg.1 ≠ "dflt" then "exclude_dflt" else "") ++ ";"] ++
        lg.2.map (fun n => "      lookup " ++ n ++ ";")) []) [] ++
    ["\x7d " ++ f.1 ++ ";"]) []

/-- Append generated lines to the feature text blob (lines 982-984). -/
def appendFeatureText (fs : FontState) (lines : List String) : FontState :=
  let base := match fs.featuresText with
    | none => "\n"
    | some t => t
  { fs with featuresText := some (base ++ pyJoin "\n" lines) }

/-- Source _writeGSUBGPOS: sanitize every table lookup, prune, collect the
feature/script/language structure, serialize the lookup blocks and feature
blocks, and append the text. -/
def writeGSUBGPOS (ext : Ext) (pm : PMaps) (fs : FontState) (isgpos : Bool) :
    Except String (PMaps × FontState) := do
  let tableLookups := if isgpos then pm.gposLookups else pm.gsubLookups
  let st ← (dictKeys tableLookups).foldlM (fun st k =>
    (santizeLookupName pm.lookupInfo st k (some isgpos)).map Prod.snd)
    pm.sanitized
  let pm := { pm with sanitized := st }
  let lookups := prunedLookups pm.glyphPosSub pm.anchorClasses tableLookups
  if lookups.isEmpty then pure (pm, fs)
  else do
    let (featureSet, scripts, langSet) ←
      collectFeatScriptLang pm.lookupInfo lookups
    let features ← buildFeatures st pm.lookupInfo lookups featureSet
      (sortStrs scripts) langSet
    let blocks ← lookups.foldlM (fun acc p => do
      let ls ← writeLookupBlock ext pm fs st p.1 p.2
      pure (acc ++ ls)) []
    let lines := ["# " ++ (if isgpos then "GPOS" else "GSUB") ++ " ", ""] ++
      blocks ++ featureBlockLines features ++ [""]
    pure (pm, appendFeatureText fs lines)

/-- Python s.split(sep, n): at most n splits. -/
def pySplitN (s sep : String) (n : Nat) : List String :=
  let parts := chSplitOn sep.data s.data
  if parts.length ≤ n + 1 then parts.map String.mk
  else (parts.take n).map String.mk ++
    [String.mk (List.intercalate sep.data (parts.drop n))]

/-- Source _writeGDEF: bucket the glyphs by class (unclassed glyphs default
to baseglyph, or baseligature when they own a Ligature fragment), emit the
bracketed class lines with the 80-column wrapping, the GlyphClassDef
statement, and the ligature caret lines. -/
def writeGDEF (pm : PMaps) (fs : FontState) : Except String FontState := do
  let classNames : List (String × String) :=
    [("baseglyph", "@GDEF_Simple"),
     ("baseligature", "@GDEF_Ligature"),
     ("mark", "@GDEF_Mark"),
     ("component", "@GDEF_Component")]
  let gdef ← fs.glyphOrder.foldlM
    (fun (gdef : List (String × List String)) name => do
      let some g := fs.glyph? .primary name | throw "KeyError: glyph"
      match g.libGlyphClass with
      | some cls =>
        pure (dictSet gdef cls ((dictGet gdef cls).getD [] ++ [name]))
      | none =>
        if name = ".notdef" then pure gdef
        else
          let isLiga := match dictGet pm.glyphPosSub name with
            | none => false
            | some bySub => bySub.any (fun se =>
                se.2.any (fun e => e.1 = "Ligature"))
          let cls := if isLiga then "baseligature" else "baseglyph"
          pure (dictSet gdef cls ((dictGet gdef cls).getD [] ++ [name])))
    []
  let classLines := classNames.foldl (fun acc cn =>
    match dictGet gdef cn.1 with
    | none => acc
    | some glyphs =>
      let start := cn.2 ++ " = ["
      let folded := glyphs.foldl (fun (p : String × Nat) glyph =>
        let (ln, n) := p
        let (ln, n) := if n + glyph.data.length + 1 > 80
          then (ln ++ "\n\t", 8) else (ln, n)
        (ln ++ "\\" ++ glyph ++ " ", n + glyph.data.length + 1))
        (start, cn.2.data.length + 8)
      acc ++ [folded.1 ++ "];"]) []
  let names := classNames.map (fun cn =>
    if dictHas gdef cn.1 then cn.2 else "")
  let caretLines := pm.ligatureCarets.foldl (fun acc kv =>
    acc ++ ["  LigatureCaretByPos \\" ++ kv.1 ++ " " ++
      pyJoin " " (kv.2.map intRepr) ++ ";"]) []
  let lines :=
    ["#Mark attachment classes (defined in GDEF, used in lookupflags)", ""] ++
    classLines ++
    ["", "table GDEF \x7b", "  GlyphClassDef " ++ pyJoin ", " names ++ ";",
     ""] ++
    caretLines ++ ["\x7d GDEF;", "", ""]
  pure (appendFeatureText fs lines)

/-! ## Font-level record parsers -/

/-- Source _NAMES (None marks reserved or unhandled slots). -/
def NAMES : List (Option String) :=
  [some "copyright",
   some "familyName",
   some "styleName",
   some "openTypeNameUniqueID",
   none,
   some "openTypeNameVersion",
   some "postscriptFontName",
   some "trademark",
   some "openTypeNameManufacturer",
   some "openTypeNameDesigner",
   some "openTypeNameDescription",
   some "openTypeNameManufacturerURL",
   some "openTypeNameDesignerURL",
   some "openTypeNameLicense",
   some "openTypeNameLicenseURL",
   none,
   some "openTypeNamePreferredFamilyName",
   some "openTypeNamePreferredSubfamilyName",
   some "openTypeNameCompatibleFullName",
   some "openTypeNameSampleText",
   none,
   some "openTypeNameWWSFamilyName",
   some "openTypeNameWWSSubfamilyName"]

/-- setattr(info, field, name) for the _NAMES fields. -/
def setNameField (info : Info) (field name : String) : Info :=
  if field = "copyright" then { info with copyright := some name }
  else if field = "familyName" then { info with familyName := some name }
  else if field = "styleName" then { info with styleName := some name }
  else if field = "openTypeNameUniqueID" then
    { info with openTypeNameUniqueID := some name }
  else if field = "openTypeNameVersion" then
    { info with openTypeNameVersion := some name }
  else if field = "postscriptFontName" then
    { info with postscriptFontName := some name }
  else if field = "trademark" then { info with trademark := some name }
  else if field = "openTypeNameManufacturer" then
    { info with openTypeNameManufacturer := some name }
  else if field = "openTypeNameDesigner" then
    { info with openTypeNameDesigner := some name }
  else if field = "openTypeNameDescription" then
    { info with openTypeNameDescription := some name }
  else if field = "openTypeNameManufacturerURL" then
    { info with openTypeNameManufacturerURL := some name }
  else if field = "openTypeNameDesignerURL" then
    { info with openTypeNameDesignerURL := some name }
  else if field = "openTypeNameLicense" then
    { info with openTypeNameLicense := some name }
  else if field = "openTypeNameLicenseURL" then
    { info with openTypeNameLicenseURL := some name }
  else if field = "openTypeNamePreferredFamilyName" then
    { info with openTypeNamePreferredFamilyName := some name }
  else if field = "openTypeNamePreferredSubfamilyName" then
    { info with openTypeNamePreferredSubfamilyName := some name }
  else if field = "openTypeNameCompatibleFullName" then
    { info with openTypeNameCompatibleFullName := some name }
  else if field = "openTypeNameSampleText" then
    { info with openTypeNameSampleText := some name }
  else if field = "openTypeNameWWSFamilyName" then
    { info with openTypeNameWWSFamilyName := some name }
  else if field = "openTypeNameWWSSubfamilyName" then
    { info with openTypeNameWWSSubfamilyName := some name }
  else info

/-- Source _parseNames: one LangName record. -/
def parseNames (ext : Ext) (info : Info) (data : String) :
    Except String Info := do
  match pySplit1 data " " with
  | [] => pure info
  | [_] => pure info
  | lid :: restStr :: _ => do
    let some langId := pyInt? lid | throw "ValueError: int"
    (ext.findQuoted restStr).enum.foldlM (fun inf p => do
      let (nameId, qn) := p
      let name := ext.readUTF7 qn
      if name = "" then pure inf
      else
        let appendRec := fun (inf2 : Info) =>
          let recs := (inf2.openTypeNameRecords).getD []
          { inf2 with openTypeNameRecords := some (recs ++
            [⟨nameId, langId, name, 3, 1⟩]) }
        if langId = 1033 then do
          let some slot := pyGet? NAMES (nameId : Int) | throw "IndexError"
          match slot with
          | some field => pure (setNameField inf field name)
          | none => pure (appendRec inf)
        else pure (appendRec inf)) info

/-- Source _parseGaspTable. -/
def parseGaspTable (info : Info) (data : String) : Except String Info := do
  match pySplitOn data " " with
  | [] => throw "IndexError: pop"
  | n0 :: restParts => do
    let some num := pyInt? n0 | throw "ValueError: int"
    match restParts.getLast? with
    | none => throw "IndexError: pop"
    | some vlast => do
      let some _version := pyInt? vlast | throw "ValueError: int"
      let mid := restParts.dropLast
      if (mid.length : Int) = num * 2 then do
        let records ← (splitList mid 2).mapM (fun pr =>
          match pr with
          | [p, f] => do
            let some ppem := pyInt? p | throw "ValueError: int"
            let some flags := pyInt? f | throw "ValueError: int"
            let bits := (List.range 4).filter
              (fun i => flags.land ((2 : Int) ^ i) ≠ 0)
            pure (⟨ppem, bits⟩ : GaspRec)
          | _ => throw "ValueError: unpack")
        if records.isEmpty then pure info
        else pure { info with openTypeGaspRangeRecords := some records }
      else throw "AssertionError: gasp length"

/-- Store one private-dictionary value on the matching info field. -/
def setPrivateField (info : Info) (key : String) (v : PyVal) : Info :=
  if key = "BlueValues" then { info with postscriptBlueValues := some v }
  else if key = "OtherBlues" then { info with postscriptOtherBlues := some v }
  else if key = "FamilyBlues" then { info with postscriptFamilyBlues := some v }
  else if key = "FamilyOtherBlues" then
    { info with postscriptFamilyOtherBlues := some v }
  else if key = "BlueFuzz" then { info with postscriptBlueFuzz := some v }
  else if key = "BlueShift" then { info with postscriptBlueShift := some v }
  else if key = "BlueScale" then { info with postscriptBlueScale := some v }
  else if key = "ForceBold" then { info with postscriptForceBold := some v }
  else if key = "StemSnapH" then { info with postscriptStemSnapH := some v }
  else if key = "StemSnapV" then { info with postscriptStemSnapV := some v }
  else info

/-- Promote a standard stem width to the front of its stem-snap list
(lines 141-148); a missing or scalar list is the Python TypeError. -/
def promoteStd (snap : Option PyVal) (std : ℚ) :
    Except String PyVal :=
  match snap with
  | some (.list l) =>
    pure (.list (std :: (if std ∈ l then l.erase std else l)))
  | _ => throw "TypeError: argument of type NoneType"

/-- Source _parsePrivateDict. -/
def parsePrivateDict (info : Info) (data : List String) :
    Except String Info := do
  match data with
  | [] => throw "IndexError: pop from empty list"
  | n0 :: entries => do
    let some n := pyInt? n0 | throw "ValueError: int"
    if (entries.length : Int) = n then do
      let folded ← entries.foldlM
        (fun (acc : Info × Option ℚ × Option ℚ) line => do
          let (inf, stdHW, stdVW) := acc
          match (pySplitN line " " 2).map pyStrip with
          | [key, cnt, value] => do
            let some cntN := pyInt? cnt | throw "ValueError: int"
            if (value.data.length : Int) = cntN then do
              let v ← (if pyStartsWith value "[" ∧
                  value.data.getLast? = some ']' then do
                  let inner := String.mk (value.data.drop 1).dropLast
                  let nums ← (pySplitOn inner " ").mapM (fun t =>
                    match pyFloat? t with
                    | some q => pure q
                    | none => throw "ValueError: float")
                  pure (PyVal.list nums)
                else
                  match pyFloat? value with
                  | some q => pure (PyVal.num q)
                  | none => throw "ValueError: float")
              if key = "StdHW" then
                match v with
                | .list (x :: _) => pure (inf, some x, stdVW)
                | .list [] => throw "IndexError: list index out of range"
                | .num _ => throw "TypeError: float is not subscriptable"
              else if key = "StdVW" then
                match v with
                | .list (x :: _) => pure (inf, stdHW, some x)
                | .list [] => throw "IndexError: list index out of range"
                | .num _ => throw "TypeError: float is not subscriptable"
              else pure (setPrivateField inf key v, stdHW, stdVW)
            else throw "AssertionError: value length"
          | _ => throw "ValueError: unpack")
        (info, none, none)
      let (inf, stdHW, stdVW) := folded
      let inf ← (match stdHW with
        | some q =>
          if q ≠ 0 then do
            let v ← promoteStd inf.postscriptStemSnapH q
            pure { inf with postscriptStemSnapH := some v }
          else pure inf
        | none => pure inf)
      match stdVW with
      | some q =>
        if q ≠ 0 then do
          let v ← promoteStd inf.postscriptStemSnapV q
          pure { inf with postscriptStemSnapV := some v }
        else pure inf
      | none => pure inf
    else throw "AssertionError: private count"

/-- Source _parseKernClass: consume the group rows and the kern row from
the remaining lines. -/
def parseKernClass (ext : Ext) (pm : PMaps) (rest : List String)
    (value : String) : Except String (PMaps × List String) := do
  let some (n1s, n2s, nameQ) := ext.matchKerns value
    | throw "AttributeError: NoneType has no attribute groups"
  let some n1 := pyInt? n1s | throw "ValueError: int"
  let some n2 := pyInt? n2s | throw "ValueError: int"
  let name := ext.readUTF7 nameQ
  let firstRaw := rest.take (n1 - 1).toNat
  let first : List (Option (List String)) :=
    none :: firstRaw.map (fun v => some ((pySplitWs v).drop 1))
  let rest1 := rest.drop (n1 - 1).toNat
  let secondRaw := rest1.take (n2 - 1).toNat
  let second : List (Option (List String)) :=
    none :: secondRaw.map (fun v => some ((pySplitWs v).drop 1))
  let rest2 := rest1.drop (n2 - 1).toNat
  match rest2 with
  | [] => throw "IndexError: list index out of range"
  | kline :: rest3 => do
    let kerns ← ((ext.splitDevTable kline).filter (· ≠ "")).mapM (fun t =>
      match pyInt? t with
      | some v => pure v
      | none => throw "ValueError: int")
    let kcs := dictSet pm.kernClasses name (first, second, kerns)
    pure ({ pm with kernClasses := kcs }, rest3)

/-- Source _parseAnchorClass. -/
def parseAnchorClass (ext : Ext) (pm : PMaps) (data : String) :
    Except String PMaps := do
  if pm.anchorClasses ≠ [] then throw "AssertionError: anchor classes"
  else
    let vals := (ext.findQuoted data).map ext.readUTF7
    (splitList vals 2).foldlM (fun pm2 pr =>
      match pr with
      | [anchor, subtable] =>
        let cur := (dictGet pm2.anchorClasses subtable).getD []
        let acs := dictSet pm2.anchorClasses subtable (cur ++ [anchor])
        pure { pm2 with anchorClasses := acs }
      | _ => throw "ValueError: unpack") pm

/-- Source _parseLookup. -/
def parseLookup (ext : Ext) (pm : PMaps) (data : String) :
    Except String PMaps := do
  let some (kindS, flagS, _, lookupQ, subtablesS, featureS) :=
    ext.matchLookup data | throw "AssertionError: lookup"
  let some kind := pyInt? kindS | throw "ValueError: int"
  let some flag := pyInt? flagS | throw "ValueError: int"
  let lookup := ext.readUTF7 lookupQ
  let subtables := (ext.findQuoted subtablesS).map ext.readUTF7
  let pm := if kind.fdiv 256 ≠ 0 then
      { pm with gposLookups := dictSet pm.gposLookups lookup subtables }
    else
      { pm with gsubLookups := dictSet pm.gsubLookups lookup subtables }
  let flagsL := (LOOKUP_FLAGS.filter (fun p => flag.land p.1 ≠ 0)).map Prod.snd
  let features := (ext.findFeatures featureS).map (fun tl =>
    (tl.1, (ext.findLangsys tl.2).map (fun sl => (sl.1, ext.findTags sl.2))))
  let some kindName := dictGet LOOKUP_TYPES kind | throw "KeyError: kind"
  let li := dictSet pm.lookupInfo lookup (kindName, flagsL, features)
  pure { pm with lookupInfo := li }

/-- Source _parseGrid: font-level guideline contours. -/
def parseGrid (ext : Ext) (info : Info) (data : List String) :
    Except String Info := do
  let data := data.map pyStrip
  let contours ← parseSplineSet ext (data.length + 1) data []
  contours.foldlM (fun inf contour => do
    let stripped := match contour.getLast? with
      | some (.cname n) => (some n, contour.dropLast)
      | _ => (none, contour)
    let (gname, c) := stripped
    if c.length ≠ 2 then pure inf
    else do
      let folded ← c.foldlM
        (fun (acc : Info × Option GPoint) e => do
          match e with
          | .cname _ => throw "ValueError: cannot unpack"
          | .seg s =>
            match s.segmentType with
            | .m =>
              match s.pts.head? with
              | some p => pure (acc.1, some p)
              | none => throw "IndexError: pts"
            | .l => do
              let some p1 := s.pts.head? | throw "IndexError: pts"
              let some p0 := acc.2 | throw "NameError: p0"
              let some x0 := p0[0]? | throw "IndexError: point"
              let some x1 := p1[0]? | throw "IndexError: point"
              if x0 = x1 then
                let gl : Guideline := { x := some x0, gname := gname }
                pure ({ acc.1 with
                  guidelines := acc.1.guidelines ++ [gl] }, acc.2)
              else do
                let some y0 := p0[1]? | throw "IndexError: point"
                let some y1 := p1[1]? | throw "IndexError: point"
                if y0 = y1 then
                  let gl : Guideline := { y := some y0, gname := gname }
                  pure ({ acc.1 with
                    guidelines := acc.1.guidelines ++ [gl] }, acc.2)
                else
                  let angle := ext.atan2deg (x1 - x0) (y1 - y0)
                  let angle := if angle < 0 then 360 + angle else angle
                  let gl : Guideline := ⟨some x0, some y0, some angle, gname⟩
                  pure ({ acc.1 with
                    guidelines := acc.1.guidelines ++ [gl] }, acc.2)
            | .c =>
              match s.pts.head? with
              | some p => pure (acc.1, some p)
              | none => throw "IndexError: pts")
        (inf, none)
      pure folded.1) info

/-! ## The cross-reference resolver and the driver -/

/-- Source _processReferences: rewrite stored numeric references through the
final glyph order and add the components. -/
def processReferences (pm : PMaps) (fs : FontState) :
    Except String FontState :=
  pm.glyphRefs.foldlM (fun fs kv =>
    kv.2.foldlM (fun fs ref => do
      let some r := ref | throw "AttributeError: split of None"
      match pySplitWs r with
      | [] => throw "IndexError: list index out of range"
      | t0 :: _ => do
        let some gid := pyInt? t0 | throw "ValueError: int"
        let some name := pyGet? fs.glyphOrder gid
          | throw "IndexError: list index out of range"
        let matrix ← (((pySplitWs r).drop 3).take 6).mapM (fun t =>
          match pyFloat? t with
          | some q => pure q
          | none => throw "ValueError: float")
        fs.modifyGlyph kv.1.1 kv.1.2 (fun g =>
          { g with components := g.components ++ [(name, matrix)] })) fs) fs

/-- Source _processKerns: resolve deferred kerning targets by index. -/
def processKerns (pm : PMaps) (fs : FontState) : Except String FontState :=
  pm.glyphKerns.foldlM (fun fs kv =>
    kv.2.foldlM (fun fs gk => do
      let some name2 := pyGet? fs.glyphOrder gk.1
        | throw "IndexError: list index out of range"
      pure { fs with kerning := dictSet fs.kerning (kv.1, name2) gk.2 }) fs) fs

/-- Layer slots as filled by the scan loop (before resolution). -/
inductive LayerSlot
  | unset
  | defaultL
  | lname (s : String)
deriving DecidableEq

/-- Working entries of the layer-resolution loop: still-raw slots or
already-created layer objects. -/
abbrev ResSlot := LayerSlot ⊕ LayerKey

/-- Lines 1209-1215: walk the slot list, uniquifying duplicated layer names
(counted against the live, partially resolved list) and creating the
layers. -/
def resolveLayersGo : Nat → FontState → List ResSlot → Nat →
    FontState × List ResSlot
  | 0, fs, w, _ => (fs, w)
  | fuel + 1, fs, w, idx =>
    match w[idx]? with
    | none => (fs, w)
    | some entry =>
      match entry with
      | .inl (.lname s) =>
        let cnt := w.countP (fun e => e = .inl (.lname s))
        let s2 := if idx ≠ 0 ∧ idx ≠ 1 ∧ cnt ≠ 1
          then s ++ "_" ++ natRepr idx else s
        let fs2 := fs.newLayer s2
        resolveLayersGo fuel fs2 (w.set idx (.inr (.named s2))) (idx + 1)
      | _ => resolveLayersGo fuel fs w (idx + 1)

/-- Resolve the scan-time layer slots into layer references. -/
def resolveLayers (fs : FontState) (slots : List LayerSlot) :
    FontState × List (Option LayerKey) :=
  let (fs2, w) := resolveLayersGo (slots.length + 1) fs
    (slots.map Sum.inl) 0
  (fs2, w.map (fun e =>
    match e with
    | .inr k => some k
    | .inl .defaultL => some .primary
    | .inl _ => none))

/-- State of the top-level scan loop. -/
structure ScanState where
  fs : FontState
  pm : PMaps
  slots : List LayerSlot
  layerType : List (Option Bool)
  charData : Option (List String)
  offsetMetrics : List String
deriving DecidableEq

/-- Key/value split of the driver loop (lines 1010-1014): the first colon,
both sides stripped. -/
def splitColonKV (line : String) : String × Option String :=
  if pyInStr ":" line then
    match pySplit1 line ":" with
    | [k, v] => (pyStrip k, some (pyStrip v))
    | _ => (pyStrip line, none)
  else (pyStrip line, none)

/-- Python value.strip(single-quote) for the OS2Vendor record. -/
def stripTicks (s : String) : String :=
  let q := Char.ofNat 39
  String.mk (((s.data.dropWhile (· = q)).reverse.dropWhile (· = q)).reverse)

/-- The line-1259-1265 styleName fallback. -/
def styleNameFallback (fs : FontState) : FontState :=
  match fs.info.styleName with
  | some _ => fs
  | none =>
    let value :=
      match fs.info.postscriptFontName with
      | some p =>
        if p ≠ "" ∧ pyInStr "-" p then ((pySplit1 p "-")[1]?).getD ""
        else
          match fs.info.postscriptWeightName with
          | some w => if w ≠ "" then w else "Regular"
          | none => "Regular"
      | none =>
        match fs.info.postscriptWeightName with
        | some w => if w ≠ "" then w else "Regular"
        | none => "Regular"
    { fs with info := { fs.info with styleName := some value } }

/-- Replace the info of the font under scan. -/
def ScanState.setInfo (st : ScanState) (i : Info) : ScanState :=
  { st with fs := { st.fs with info := i } }

/-- Read an int record value (int(value): TypeError on a missing value,
ValueError on a malformed one). -/
def intValue (value : Option String) : Except String Int := do
  let some v := value | throw "TypeError: int of None"
  let some n := pyInt? v | throw "ValueError: int"
  pure n

/-- Read a float record value. -/
def floatValue (value : Option String) : Except String ℚ := do
  let some v := value | throw "TypeError: float of None"
  let some q := pyFloat? v | throw "ValueError: float"
  pure q

/-- One iteration of the driver scan loop (lines 1005-1206): the version
gate on the first line, then the key dispatch.  Returns the new state, the
remaining lines, and whether EndSplineFont broke the loop. -/
def scanStep (ext : Ext) (st : ScanState) (line : String)
    (rest : List String) (isFirst : Bool) :
    Except String (ScanState × List String × Bool) := do
  let (key, value) := splitColonKV line
  let info := st.fs.info
  if isFirst then
    if key ≠ "SplineFontDB" then throw "Not an SFD file."
    else do
      let ver ← floatValue value
      if ver ≠ 3 then throw "Unsupported SFD version"
      else pure (st, rest, false)
  else if key = "FontName" then
    pure (st.setInfo { info with postscriptFontName := value }, rest, false)
  else if key = "FullName" then
    pure (st.setInfo { info with postscriptFullName := value }, rest, false)
  else if key = "FamilyName" then
    pure (st.setInfo { info with familyName := value }, rest, false)
  else if key = "DefaultBaseFilename" then pure (st, rest, false)
  else if key = "Weight" then
    pure (st.setInfo { info with postscriptWeightName := value }, rest, false)
  else if key = "Copyright" then do
    let some v := value | throw "TypeError: escape_decode of None"
    pure (st.setInfo { info with copyright := some (ext.escapeDecode v) },
      rest, false)
  else if key = "Comments" then
    pure (st.setInfo { info with note := value }, rest, false)
  else if key = "UComments" then do
    let some v := value | throw "TypeError: decode of None"
    let old := info.note
    let newNote := ext.readUTF7 v
    let newNote := match old with
      | some o => if o ≠ "" then newNote ++ "\n" ++ o else newNote
      | none => newNote
    pure (st.setInfo { info with note := some newNote }, rest, false)
  else if key = "FontLog" then do
    let some v := value | throw "TypeError: decode of None"
    let base := match info.note with
      | none => ""
      | some o => if o = "" then "" else "\n"
    let newNote := base ++ "Font log:\n" ++ ext.readUTF7 v
    pure (st.setInfo { info with note := some newNote }, rest, false)
  else if key = "Version" then do
    let some v := value | throw "TypeError: parseVersion of None"
    let vm := ext.parseVersion v
    let i2 := { info with versionMajor := some vm.1, versionMinor := some vm.2 }
    pure (st.setInfo i2, rest, false)
  else if key = "ItalicAngle" then do
    let q ← floatValue value
    let i2 := { info with italicAngle := some q, postscriptSlantAngle := some q }
    pure (st.setInfo i2, rest, false)
  else if key = "UnderlinePosition" then do
    let q ← floatValue value
    pure (st.setInfo { info with postscriptUnderlinePosition := some q },
      rest, false)
  else if key = "UnderlineWidth" then do
    let q ← floatValue value
    pure (st.setInfo { info with postscriptUnderlineThickness := some q },
      rest, false)
  else if pyInStr key "Ascent" then do
    let n ← intValue value
    pure (st.setInfo { info with ascender := some n }, rest, false)
  else if pyInStr key "Descent" then do
    let n ← intValue value
    pure (st.setInfo { info with descender := some (-n) }, rest, false)
  else if key = "sfntRevision" then pure (st, rest, false)
  else if key = "WidthSeparation" then pure (st, rest, false)
  else if key = "LayerCount" then do
    let n ← intValue value
    let sl := List.replicate n.toNat LayerSlot.unset
    let st2 := { st with slots := sl, layerType := List.replicate n.toNat none }
    pure (st2, rest, false)
  else if key = "Layer" then do
    let some v := value | throw "TypeError: match of None"
    let some (idxS, quadS, nameQ, _) := ext.matchLayer v
      | throw "AttributeError: NoneType has no attribute groups"
    let some idx := pyInt? idxS | throw "ValueError: int"
    let some quadN := pyInt? quadS | throw "ValueError: int"
    let name := ext.readUTF7 nameQ
    let slot := if idx = 1 then LayerSlot.defaultL else LayerSlot.lname name
    let some slots2 := pySet? st.slots idx slot
      | throw "IndexError: list assignment index out of range"
    let some types2 := pySet? st.layerType idx (some (quadN ≠ 0))
      | throw "IndexError: list assignment index out of range"
    pure ({ st with slots := slots2, layerType := types2 }, rest, false)
  else if key = "DisplayLayer" ∨ key = "DisplaySize" ∨ key = "AntiAlias" ∨
      key = "FitToEm" ∨ key = "WinInfo" ∨ key = "Encoding" then
    pure (st, rest, false)
  else if key = "CreationTime" then do
    let n ← intValue value
    pure (st.setInfo { info with openTypeHeadCreated := some (ext.fmtTime n) },
      rest, false)
  else if key = "ModificationTime" then pure (st, rest, false)
  else if key = "FSType" then do
    let n ← intValue value
    let bits := (List.range 16).filter (fun i => n.land ((2 : Int) ^ i) ≠ 0)
    pure (st.setInfo { info with openTypeOS2Type := some bits }, rest, false)
  else if key = "PfmFamily" then pure (st, rest, false)
  else if key = "TTFWeight" ∨ key = "PfmWeight" then do
    let n ← intValue value
    pure (st.setInfo { info with openTypeOS2WeightClass := some n },
      rest, false)
  else if key = "TTFWidth" then do
    let n ← intValue value
    pure (st.setInfo { info with openTypeOS2WidthClass := some n },
      rest, false)
  else if key = "Panose" then do
    let some v := value | throw "TypeError: split of None"
    let nums ← (pySplitWs v).mapM (fun t =>
      match pyInt? t with
      | some n => pure n
      | none => throw "ValueError: int")
    pure (st.setInfo { info with openTypeOS2Panose := some nums },
      rest, false)
  else if key = "LineGap" then do
    let n ← intValue value
    pure (st.setInfo { info with openTypeHheaLineGap := some n }, rest, false)
  else if key = "VLineGap" then do
    let n ← intValue value
    pure (st.setInfo { info with openTypeVheaVertTypoLineGap := some n },
      rest, false)
  else if key = "HheadAscent" then do
    let n ← intValue value
    pure (st.setInfo { info with openTypeHheaAscender := some (n : ℚ) },
      rest, false)
  else if key = "HheadDescent" then do
    let n ← intValue value
    pure (st.setInfo { info with openTypeHheaDescender := some (n : ℚ) },
      rest, false)
  else if key = "OS2TypoLinegap" then do
    let n ← intValue value
    pure (st.setInfo { info with openTypeOS2TypoLineGap := some n },
      rest, false)
  else if key = "OS2Vendor" then do
    let some v := value | throw "TypeError: strip of None"
    pure (st.setInfo { info with openTypeOS2VendorID := some (stripTicks v) },
      rest, false)
  else if key = "OS2FamilyClass" then do
    let n ← intValue value
    let fc := some (n.fdiv 256, n.land 255)
    pure (st.setInfo { info with openTypeOS2FamilyClass := fc }, rest, false)
  else if key = "OS2Version" then pure (st, rest, false)
  else if key = "OS2_WeightWidthSlopeOnly" then do
    let n ← intValue value
    if n ≠ 0 then
      let cur := (info.openTypeOS2Selection).getD []
      pure (st.setInfo { info with openTypeOS2Selection := some (cur ++ [8]) },
        rest, false)
    else pure (st, rest, false)
  else if key = "OS2_UseTypoMetrics" then
    let cur := (info.openTypeOS2Selection).getD []
    pure (st.setInfo { info with openTypeOS2Selection := some (cur ++ [7]) },
      rest, false)
  else if key = "OS2CodePages" ∨ key = "OS2UnicodeRanges" then
    pure (st, rest, false)
  else if key = "OS2TypoAscent" then do
    let n ← intValue value
    pure (st.setInfo { info with openTypeOS2TypoAscender := some (n : ℚ) },
      rest, false)
  else if key = "OS2TypoDescent" then do
    let n ← intValue value
    pure (st.setInfo { info with openTypeOS2TypoDescender := some (n : ℚ) },
      rest, false)
  else if key = "OS2WinAscent" then do
    let n ← intValue value
    pure (st.setInfo { info with openTypeOS2WinAscent := some (n : ℚ) },
      rest, false)
  else if key = "OS2WinDescent" then do
    let n ← intValue value
    pure (st.setInfo { info with openTypeOS2WinDescent := some (n : ℚ) },
      rest, false)
  else if dictHas OFFSET_METRICS key then do
    let n ← intValue value
    if n ≠ 0 then
      let om := st.offsetMetrics ++ ((dictGet OFFSET_METRICS key).toList)
      pure ({ st with offsetMetrics := om }, rest, false)
    else pure (st, rest, false)
  else if key = "OS2SubXSize" then do
    let n ← intValue value
    pure (st.setInfo { info with openTypeOS2SubscriptXSize := some n },
      rest, false)
  else if key = "OS2SubYSize" then do
    let n ← intValue value
    pure (st.setInfo { info with openTypeOS2SubscriptYSize := some n },
      rest, false)
  else if key = "OS2SubXOff" then do
    let n ← intValue value
    pure (st.setInfo { info with openTypeOS2SubscriptXOffset := some n },
      rest, false)
  else if key = "OS2SubYOff" then do
    let n ← intValue value
    pure (st.setInfo { info with openTypeOS2SubscriptYOffset := some n },
      rest, false)
  else if key = "OS2SupXSize" then do
    let n ← intValue value
    pure (st.setInfo { info with openTypeOS2SuperscriptXSize := some n },
      rest, false)
  else if key = "OS2SupYSize" then do
    let n ← intValue value
    pure (st.setInfo { info with openTypeOS2SuperscriptYSize := some n },
      rest, false)
  else if key = "OS2SupXOff" then do
    let n ← intValue value
    pure (st.setInfo { info with openTypeOS2SuperscriptXOffset := some n },
      rest, false)
  else if key = "OS2SupYOff" then do
    let n ← intValue value
    pure (st.setInfo { info with openTypeOS2SuperscriptYOffset := some n },
      rest, false)
  else if key = "OS2StrikeYSize" then do
    let n ← intValue value
    pure (st.setInfo { info with openTypeOS2StrikeoutSize := some n },
      rest, false)
  else if key = "OS2StrikeYPos" then do
    let n ← intValue value
    pure (st.setInfo { info with openTypeOS2StrikeoutPosition := some n },
      rest, false)
  else if key = "OS2CapHeight" then do
    let n ← intValue value
    pure (st.setInfo { info with capHeight := some n }, rest, false)
  else if key = "OS2XHeight" then do
    let n ← intValue value
    pure (st.setInfo { info with xHeight := some n }, rest, false)
  else if key = "UniqueID" then do
    let n ← intValue value
    pure (st.setInfo { info with postscriptUniqueID := some n }, rest, false)
  else if key = "LangName" then do
    let some v := value | throw "TypeError: split of None"
    let info2 ← parseNames ext info v
    pure (st.setInfo info2, rest, false)
  else if key = "GaspTable" then do
    let some v := value | throw "TypeError: split of None"
    let info2 ← parseGaspTable info v
    pure (st.setInfo info2, rest, false)
  else if key = "BeginPrivate" then do
    let seed := match value with
      | some v => [v]
      | none => []
    let (sec, rest2) ← getSection "EndPrivate" seed rest
    let info2 ← parsePrivateDict info sec
    pure (st.setInfo info2, rest2, false)
  else if key = "BeginChars" then do
    let (sec, rest2) ← getSection "EndChars" [] rest
    pure ({ st with charData := some sec }, rest2, false)
  else if key = "Grid" then do
    let (sec, rest2) ← getSection "EndSplineSet" [] rest
    let info2 ← parseGrid ext info sec
    pure (st.setInfo info2, rest2, false)
  else if key = "KernClass2" then do
    let some v := value | throw "TypeError: match of None"
    let (pm2, rest2) ← parseKernClass ext st.pm rest v
    pure ({ st with pm := pm2 }, rest2, false)
  else if key = "Lookup" then do
    let some v := value | throw "TypeError: match of None"
    let pm2 ← parseLookup ext st.pm v
    pure ({ st with pm := pm2 }, rest, false)
  else if key = "AnchorClass2" then do
    let some v := value | throw "TypeError: findall of None"
    let pm2 ← parseAnchorClass ext st.pm v
    pure ({ st with pm := pm2 }, rest, false)
  else if key = "XUID" ∨ key = "UnicodeInterp" ∨ key = "NameList" ∨
      key = "DEI" then
    pure (st, rest, false)
  else if key = "EndSplineFont" then pure (st, rest, true)
  else pure (st, rest, false)

/-- The driver scan loop (fuelled). -/
def scanLoop (ext : Ext) : Nat → ScanState → List String → Bool →
    Except String ScanState
  | 0, _, _, _ => throw "RecursionError"
  | _ + 1, st, [], _ => pure st
  | fuel + 1, st, line :: rest, isFirst => do
    let (st2, rest2, brk) ← scanStep ext st line rest isFirst
    if brk then pure st2 else scanLoop ext fuel st2 rest2 false

/-- Source SFDParser.parse in single-file mode: the scan loop, layer
resolution, the glyph pass, the resolver passes, the feature program
passes, the unitsPerEm assignment and the styleName fallback. -/
def parse (ext : Ext) (ignoreUvs useUfoAnchors : Bool) (font : FontState)
    (data : List String) : Except String FontState := do
  let st0 : ScanState :=
    { fs := font, pm := {}, slots := [], layerType := [],
      charData := none, offsetMetrics := [] }
  let st ← scanLoop ext (data.length + 1) st0 data true
  let (fs1, resolved) := resolveLayers st.fs st.slots
  let some charData := st.charData
    | throw "TypeError: NoneType object is not iterable"
  let ctx : CharCtx :=
    { layers := resolved, layerType := st.layerType,
      ignoreUvs := ignoreUvs, useUfoAnchors := useUfoAnchors }
  let (fs2, pm2, _m) ← parseChars ext ctx fs1 st.pm charData
  let fs3 ← processReferences pm2 fs2
  let fs4 ← processKerns pm2 fs3
  let subtables := pm2.gposLookups.foldl (fun acc kv =>
    acc ++ (kv.2.filterMap (fun s => dictGet pm2.kernClasses s))) []
  let fs5 := ext.processKernClasses fs4 subtables
  let bounds := ext.getFontBounds fs5
  let info6 ← fixOffsetMetrics bounds fs5.info st.offsetMetrics
  let fs6 := { fs5 with info := info6 }
  let (pm3, fs7) ← writeGSUBGPOS ext pm2 fs6 false
  let (pm4, fs8) ← writeGSUBGPOS ext pm3 fs7 true
  let fs9 ← writeGDEF pm4 fs8
  let some a := fs9.info.ascender | throw "TypeError: int of None"
  let some d := fs9.info.descender | throw "TypeError: int of None"
  let i10 := { fs9.info with unitsPerEm := some (a - d) }
  let fs10 := { fs9 with info := i10 }
  pure (styleNameFallback fs10)

/-! ## Claim C1: the version gate (lines 1016-1021) -/

/-- A concrete instantiation of the external collaborators, for running the
embedding on closed inputs. -/
def extTriv : Ext where
  readUTF7 := fun s => s
  parseAltuni := fun _ _ _ => []
  parseColor := fun _ => []
  parseVersion := fun _ => (0, 0)
  parseAnchorPoint := fun n k x y _ => (n, k, x, y, 0)
  escapeDecode := fun s => s
  fmtTime := fun _ => ""
  getFontBounds := fun _ => {}
  processKernClasses := fun fs _ => fs
  atan2deg := fun _ _ => 0
  fmtG := fun _ => ""
  matchLayer := fun _ => none
  matchKerns := fun _ => none
  findKerns := fun _ => []
  matchAnchor := fun _ => none
  matchLookup := fun _ => none
  matchSubPos := fun _ => none
  splitDevTable := fun _ => []
  findQuoted := fun _ => []
  findFeatures := fun _ => []
  findLangsys := fun _ => []
  findTags := fun _ => []
  splitGeomLine := fun _ => none

/-- The condition lines 1016-1021 demand of the first line: a record whose
key is SplineFontDB and whose value reads as the float 3. -/
def versionGateOk (line : String) : Bool :=
  if (splitColonKV line).1 = "SplineFontDB" then
    match (splitColonKV line).2 with
    | some v => decide (pyFloat? v = some 3)
    | none => false
  else false

/-- A first line failing the gate makes the very first scan step throw,
whatever the scan state. -/
theorem scanStep_first_err (ext : Ext) (st : ScanState) (line : String)
    (rest : List String) (h : versionGateOk line = false) :
    ∃ e, scanStep ext st line rest true = Except.error e := by
  unfold versionGateOk at h
  unfold scanStep
  rcases hkv : splitColonKV line with ⟨key, value⟩
  rw [hkv] at h
  by_cases hk : key = "SplineFontDB"
  · rw [if_pos hk] at h
    subst hk
    cases value with
    | none =>
      refine ⟨"TypeError: float of None", ?_⟩
      simp [floatValue, bind, Except.bind, throw, throwThe,
        MonadExceptOf.throw]
    | some v =>
      simp only [decide_eq_false_iff_not] at h
      cases hf : pyFloat? v with
      | none =>
        refine ⟨"ValueError: float", ?_⟩
        simp [floatValue, hf, bind, Except.bind, throw, throwThe,
          MonadExceptOf.throw]
      | some q =>
        have hq : q ≠ 3 := by
          intro hq3
          rw [hf, hq3] at h
          exact h rfl
        refine ⟨"Unsupported SFD version", ?_⟩
        simp [floatValue, hf, hq, bind, Except.bind, throw, throwThe,
          MonadExceptOf.throw, pure, Except.pure]
  · refine ⟨"Not an SFD file.", ?_⟩
    simp [hk, throw, throwThe, MonadExceptOf.throw]

/-- Claim C1: an input whose first line is not a SplineFontDB record with
version 3.0 makes parsing fail with an error, producing no font model. -/
theorem c1_version_gate (ext : Ext) (ig ua : Bool) (font : FontState)
    (line : String) (rest : List String)
    (h : versionGateOk line = false) :
    ∃ e, parse ext ig ua font (line :: rest) = Except.error e := by
  obtain ⟨e, he⟩ := scanStep_first_err ext
    { fs := font, pm := {}, slots := [], layerType := [],
      charData := none, offsetMetrics := [] } line rest h
  refine ⟨e, ?_⟩
  unfold parse
  simp only [List.length_cons, scanLoop, he, bind, Except.bind]

/-- Claim C1 witness: the input whose only line is SplineFontDB: 2.0 is
rejected. -/
theorem c1_version_gate_witness :
    versionGateOk "SplineFontDB: 2.0" = false ∧
    ∃ e, parse extTriv false false {} ["SplineFontDB: 2.0"] =
      Except.error e :=
  ⟨by with_unfolding_all decide,
   c1_version_gate extTriv false false {} "SplineFontDB: 2.0" []
     (by with_unfolding_all decide)⟩

/-! ## Claim C9: unitsPerEm (lines 1252-1254) -/

/-- The styleName fallback touches only styleName. -/
theorem styleNameFallback_metrics (fs : FontState) :
    (styleNameFallback fs).info.ascender = fs.info.ascender ∧
    (styleNameFallback fs).info.descender = fs.info.descender ∧
    (styleNameFallback fs).info.unitsPerEm = fs.info.unitsPerEm := by
  unfold styleNameFallback
  cases h : fs.info.styleName <;> simp

/-- Claim C9: a successful parse stores unitsPerEm = ascender - descender. -/
theorem c9_units_per_em (ext : Ext) (ig ua : Bool) (font : FontState)
    (data : List String) (fs : FontState)
    (h : parse ext ig ua font data = Except.ok fs) :
    ∃ a d, fs.info.ascender = some a ∧ fs.info.descender = some d ∧
      fs.info.unitsPerEm = some (a - d) := by
  unfold parse at h
  simp only [bind, Except.bind] at h
  repeat any_goals split at h
  all_goals
    try simp only [throw, throwThe, MonadExceptOf.throw,
      reduceCtorEq] at h
  rename_i x2 v hg xa a ha xd d hd
  simp only [pure, Except.pure, Except.ok.injEq] at h
  subst h
  refine ⟨a, d, ?_, ?_, ?_⟩
  · rw [(styleNameFallback_metrics _).1]
    simpa using ha
  · rw [(styleNameFallback_metrics _).2.1]
    simpa using hd
  · rw [(styleNameFallback_metrics _).2.2]

/-- A minimal complete SFD input for running the driver end to end. -/
def c9Data : List String :=
  ["SplineFontDB: 3.0",
   "Ascent: 800",
   "Descent: 200",
   "BeginChars: 0 0",
   "EndChars",
   "EndSplineFont"]

/-- The font the minimal input parses to. -/
def c9Fs : FontState :=
  match parse extTriv false false {} c9Data with
  | .ok fs => fs
  | .error _ => {}

/-- Claim C9 witness: the minimal input parses, and the resulting font
carries unitsPerEm = ascender - descender. -/
theorem c9_units_per_em_witness :
    parse extTriv false false {} c9Data = Except.ok c9Fs ∧
    ∃ a d, c9Fs.info.ascender = some a ∧ c9Fs.info.descender = some d ∧
      c9Fs.info.unitsPerEm = some (a - d) := by
  have hp : parse extTriv false false {} c9Data = Except.ok c9Fs := by
    with_unfolding_all rfl
  exact ⟨hp, c9_units_per_em extTriv false false {} c9Data c9Fs hp⟩

/-! ## Claim C10: the Encoding record defines the glyph rank (478-481, 540-542) -/

/-- Lines left over by a section read are lines of the input. -/
theorem mem_of_getSection {em : String} {seed sec r2 data : List String}
    {x : String} (hg : getSection em seed data = .ok (sec, r2))
    (hx : x ∈ r2) : x ∈ data := by
  have hs := (getSection_suffix em data seed sec r2 hg).2
  rw [List.isSuffixOf_iff_suffix] at hs
  exact hs.subset hx

/-- font.modifyGlyph leaves the glyph order alone. -/
theorem modifyGlyph_glyphOrder (fs : FontState) (k : LayerKey) (name : String)
    (f : PGlyph → PGlyph) (fs2 : FontState)
    (h : fs.modifyGlyph k name f = .ok fs2) :
    fs2.glyphOrder = fs.glyphOrder := by
  unfold FontState.modifyGlyph at h
  repeat any_goals split at h
  all_goals first
    | (simp only [throw, throwThe, MonadExceptOf.throw, reduceCtorEq] at h
       done)
    | (simp only [pure, Except.pure, Except.ok.injEq] at h
       subst h
       cases k <;> rfl)

/-- layer.newGlyph leaves the glyph order alone. -/
theorem newLayerGlyph_glyphOrder (fs : FontState) (k : LayerKey)
    (name : String) (fs2 : FontState)
    (h : fs.newLayerGlyph k name = .ok fs2) :
    fs2.glyphOrder = fs.glyphOrder := by
  unfold FontState.newLayerGlyph at h
  repeat any_goals split at h
  all_goals first
    | (simp only [throw, throwThe, MonadExceptOf.throw, reduceCtorEq] at h
       done)
    | (simp only [pure, Except.pure, Except.ok.injEq] at h
       subst h
       cases k <;> rfl)

/-- _parseAnchorPoint leaves the glyph order alone. -/
theorem parseAnchorPt_glyphOrder {ext : Ext} {u : Bool} {fs : FontState}
    {pm : PMaps} {g d : String} {pr : FontState × PMaps}
    (h : parseAnchorPt ext u fs pm g d = .ok pr) :
    pr.1.glyphOrder = fs.glyphOrder := by
  unfold parseAnchorPt at h
  repeat
    any_goals first
      | split at h
      | (simp only [bind, Except.bind] at h; split at h)
  all_goals first
    | (simp only [throw, throwThe, MonadExceptOf.throw, reduceCtorEq] at h
       done)
    | (simp only [bind, Except.bind, pure, Except.pure, Except.ok.injEq] at h
       subst h
       first
         | rfl
         | exact modifyGlyph_glyphOrder _ _ _ _ _ (by assumption))

/-- Frame facts of one glyph record step: the font glyph order is unchanged,
the leftover lines are lines of the input, and the declaration order is
unchanged unless the record key is Encoding. -/
theorem charStep_frame (ext : Ext) (ctx : CharCtx) (gname : String)
    (st : CharState) (line : String) (rest : List String)
    (st2 : CharState) (rest2 : List String)
    (h : charStep ext ctx gname st line rest = .ok (st2, rest2)) :
    st2.font.glyphOrder = st.font.glyphOrder ∧
    (∀ x, x ∈ rest2 → x ∈ rest) ∧
    ((splitKV line).1 ≠ "Encoding" → st2.order = st.order) := by
  unfold charStep at h
  rcases hkv : splitKV line with ⟨key, value⟩
  rw [hkv] at h
  split at h
  rename_i x k2 v2 heq
  injection heq with e1 e2
  subst e1
  subst e2
  by_cases hk1 : key = "Width"
  · rw [if_pos hk1] at h
    repeat
      any_goals first
        | split at h
        | (simp only [bind, Except.bind] at h; split at h)
    all_goals first
      | (simp only [throw, throwThe, MonadExceptOf.throw, reduceCtorEq] at h
         done)
      | (simp only [bind, Except.bind, pure, Except.pure, Except.ok.injEq,
           Prod.mk.injEq] at h
         obtain ⟨h1, h2⟩ := h
         subst h1
         subst h2
         refine ⟨?_, ?_, ?_⟩
         · first
             | rfl
             | exact modifyGlyph_glyphOrder _ _ _ _ _ (by assumption)
             | exact (modifyGlyph_glyphOrder _ _ _ _ _ (by assumption)).trans
                 (newLayerGlyph_glyphOrder _ _ _ _ (by assumption))
             | exact parseAnchorPt_glyphOrder (by assumption)
         · first
             | exact fun y hy => hy
             | exact fun y hy => mem_of_getSection (by assumption) hy
         · first
             | exact fun hne => rfl
             | exact fun hne => absurd (by assumption) hne)
  · rw [if_neg hk1] at h
    by_cases hk2 : key = "VWidth"
    · rw [if_pos hk2] at h
      repeat
        any_goals first
          | split at h
          | (simp only [bind, Except.bind] at h; split at h)
      all_goals first
        | (simp only [throw, throwThe, MonadExceptOf.throw, reduceCtorEq] at h
           done)
        | (simp only [bind, Except.bind, pure, Except.pure, Except.ok.injEq,
             Prod.mk.injEq] at h
           obtain ⟨h1, h2⟩ := h
           subst h1
           subst h2
           refine ⟨?_, ?_, ?_⟩
           · first
               | rfl
               | exact modifyGlyph_glyphOrder _ _ _ _ _ (by assumption)
               | exact (modifyGlyph_glyphOrder _ _ _ _ _ (by assumption)).trans
                   (newLayerGlyph_glyphOrder _ _ _ _ (by assumption))
               | exact parseAnchorPt_glyphOrder (by assumption)
           · first
               | exact fun y hy => hy
               | exact fun y hy => mem_of_getSection (by assumption) hy
           · first
               | exact fun hne => rfl
               | exact fun hne => absurd (by assumption) hne)
    · rw [if_neg hk2] at h
      by_cases hk3 : key = "Encoding"
      · rw [if_pos hk3] at h
        repeat
          any_goals first
            | split at h
            | (simp only [bind, Except.bind] at h; split at h)
        all_goals first
          | (simp only [throw, throwThe, MonadExceptOf.throw, reduceCtorEq] at h
             done)
          | (simp only [bind, Except.bind, pure, Except.pure, Except.ok.injEq,
               Prod.mk.injEq] at h
             obtain ⟨h1, h2⟩ := h
             subst h1
             subst h2
             refine ⟨?_, ?_, ?_⟩
             · first
                 | rfl
                 | exact modifyGlyph_glyphOrder _ _ _ _ _ (by assumption)
                 | exact (modifyGlyph_glyphOrder _ _ _ _ _ (by assumption)).trans
                     (newLayerGlyph_glyphOrder _ _ _ _ (by assumption))
                 | exact parseAnchorPt_glyphOrder (by assumption)
             · first
                 | exact fun y hy => hy
                 | exact fun y hy => mem_of_getSection (by assumption) hy
             · first
                 | exact fun hne => rfl
                 | exact fun hne => absurd (by assumption) hne)
      · rw [if_neg hk3] at h
        by_cases hk4 : key = "AltUni2"
        · rw [if_pos hk4] at h
          repeat
            any_goals first
              | split at h
              | (simp only [bind, Except.bind] at h; split at h)
          all_goals first
            | (simp only [throw, throwThe, MonadExceptOf.throw, reduceCtorEq] at h
               done)
            | (simp only [bind, Except.bind, pure, Except.pure, Except.ok.injEq,
                 Prod.mk.injEq] at h
               obtain ⟨h1, h2⟩ := h
               subst h1
               subst h2
               refine ⟨?_, ?_, ?_⟩
               · first
                   | rfl
                   | exact modifyGlyph_glyphOrder _ _ _ _ _ (by assumption)
                   | exact (modifyGlyph_glyphOrder _ _ _ _ _ (by assumption)).trans
                       (newLayerGlyph_glyphOrder _ _ _ _ (by assumption))
                   | exact parseAnchorPt_glyphOrder (by assumption)
               · first
                   | exact fun y hy => hy
                   | exact fun y hy => mem_of_getSection (by assumption) hy
               · first
                   | exact fun hne => rfl
                   | exact fun hne => absurd (by assumption) hne)
        · rw [if_neg hk4] at h
          by_cases hk5 : key = "GlyphClass"
          · rw [if_pos hk5] at h
            repeat
              any_goals first
                | split at h
                | (simp only [bind, Except.bind] at h; split at h)
            all_goals first
              | (simp only [throw, throwThe, MonadExceptOf.throw, reduceCtorEq] at h
                 done)
              | (simp only [bind, Except.bind, pure, Except.pure, Except.ok.injEq,
                   Prod.mk.injEq] at h
                 obtain ⟨h1, h2⟩ := h
                 subst h1
                 subst h2
                 refine ⟨?_, ?_, ?_⟩
                 · first
                     | rfl
                     | exact modifyGlyph_glyphOrder _ _ _ _ _ (by assumption)
                     | exact (modifyGlyph_glyphOrder _ _ _ _ _ (by assumption)).trans
                         (newLayerGlyph_glyphOrder _ _ _ _ (by assumption))
                     | exact parseAnchorPt_glyphOrder (by assumption)
                 · first
                     | exact fun y hy => hy
                     | exact fun y hy => mem_of_getSection (by assumption) hy
                 · first
                     | exact fun hne => rfl
                     | exact fun hne => absurd (by assumption) hne)
          · rw [if_neg hk5] at h
            by_cases hk6 : key = "AnchorPoint"
            · rw [if_pos hk6] at h
              repeat
                any_goals first
                  | split at h
                  | (simp only [bind, Except.bind] at h; split at h)
              all_goals first
                | (simp only [throw, throwThe, MonadExceptOf.throw, reduceCtorEq] at h
                   done)
                | (simp only [bind, Except.bind, pure, Except.pure, Except.ok.injEq,
                     Prod.mk.injEq] at h
                   obtain ⟨h1, h2⟩ := h
                   subst h1
                   subst h2
                   refine ⟨?_, ?_, ?_⟩
                   · first
                       | rfl
                       | exact modifyGlyph_glyphOrder _ _ _ _ _ (by assumption)
                       | exact (modifyGlyph_glyphOrder _ _ _ _ _ (by assumption)).trans
                           (newLayerGlyph_glyphOrder _ _ _ _ (by assumption))
                       | exact parseAnchorPt_glyphOrder (by assumption)
                   · first
                       | exact fun y hy => hy
                       | exact fun y hy => mem_of_getSection (by assumption) hy
                   · first
                       | exact fun hne => rfl
                       | exact fun hne => absurd (by assumption) hne)
            · rw [if_neg hk6] at h
              by_cases hk7 : key ∈ LAYER_KEYWORDS
              · rw [if_pos hk7] at h
                repeat
                  any_goals first
                    | split at h
                    | (simp only [bind, Except.bind] at h; split at h)
                all_goals first
                  | (simp only [throw, throwThe, MonadExceptOf.throw, reduceCtorEq] at h
                     done)
                  | (simp only [bind, Except.bind, pure, Except.pure, Except.ok.injEq,
                       Prod.mk.injEq] at h
                     obtain ⟨h1, h2⟩ := h
                     subst h1
                     subst h2
                     refine ⟨?_, ?_, ?_⟩
                     · first
                         | rfl
                         | exact modifyGlyph_glyphOrder _ _ _ _ _ (by assumption)
                         | exact (modifyGlyph_glyphOrder _ _ _ _ _ (by assumption)).trans
                             (newLayerGlyph_glyphOrder _ _ _ _ (by assumption))
                         | exact parseAnchorPt_glyphOrder (by assumption)
                     · first
                         | exact fun y hy => hy
                         | exact fun y hy => mem_of_getSection (by assumption) hy
                     · first
                         | exact fun hne => rfl
                         | exact fun hne => absurd (by assumption) hne)
              · rw [if_neg hk7] at h
                by_cases hk8 : key = "SplineSet"
                · rw [if_pos hk8] at h
                  repeat
                    any_goals first
                      | split at h
                      | (simp only [bind, Except.bind] at h; split at h)
                  all_goals first
                    | (simp only [throw, throwThe, MonadExceptOf.throw, reduceCtorEq] at h
                       done)
                    | (simp only [bind, Except.bind, pure, Except.pure, Except.ok.injEq,
                         Prod.mk.injEq] at h
                       obtain ⟨h1, h2⟩ := h
                       subst h1
                       subst h2
                       refine ⟨?_, ?_, ?_⟩
                       · first
                           | rfl
                           | exact modifyGlyph_glyphOrder _ _ _ _ _ (by assumption)
                           | exact (modifyGlyph_glyphOrder _ _ _ _ _ (by assumption)).trans
                               (newLayerGlyph_glyphOrder _ _ _ _ (by assumption))
                           | exact parseAnchorPt_glyphOrder (by assumption)
                       · first
                           | exact fun y hy => hy
                           | exact fun y hy => mem_of_getSection (by assumption) hy
                       · first
                           | exact fun hne => rfl
                           | exact fun hne => absurd (by assumption) hne)
                · rw [if_neg hk8] at h
                  by_cases hk9 : key = "Image"
                  · rw [if_pos hk9] at h
                    repeat
                      any_goals first
                        | split at h
                        | (simp only [bind, Except.bind] at h; split at h)
                    all_goals first
                      | (simp only [throw, throwThe, MonadExceptOf.throw, reduceCtorEq] at h
                         done)
                      | (simp only [bind, Except.bind, pure, Except.pure, Except.ok.injEq,
                           Prod.mk.injEq] at h
                         obtain ⟨h1, h2⟩ := h
                         subst h1
                         subst h2
                         refine ⟨?_, ?_, ?_⟩
                         · first
                             | rfl
                             | exact modifyGlyph_glyphOrder _ _ _ _ _ (by assumption)
                             | exact (modifyGlyph_glyphOrder _ _ _ _ _ (by assumption)).trans
                                 (newLayerGlyph_glyphOrder _ _ _ _ (by assumption))
                             | exact parseAnchorPt_glyphOrder (by assumption)
                         · first
                             | exact fun y hy => hy
                             | exact fun y hy => mem_of_getSection (by assumption) hy
                         · first
                             | exact fun hne => rfl
                             | exact fun hne => absurd (by assumption) hne)
                  · rw [if_neg hk9] at h
                    by_cases hk10 : key = "Colour"
                    · rw [if_pos hk10] at h
                      repeat
                        any_goals first
                          | split at h
                          | (simp only [bind, Except.bind] at h; split at h)
                      all_goals first
                        | (simp only [throw, throwThe, MonadExceptOf.throw, reduceCtorEq] at h
                           done)
                        | (simp only [bind, Except.bind, pure, Except.pure, Except.ok.injEq,
                             Prod.mk.injEq] at h
                           obtain ⟨h1, h2⟩ := h
                           subst h1
                           subst h2
                           refine ⟨?_, ?_, ?_⟩
                           · first
                               | rfl
                               | exact modifyGlyph_glyphOrder _ _ _ _ _ (by assumption)
                               | exact (modifyGlyph_glyphOrder _ _ _ _ _ (by assumption)).trans
                                   (newLayerGlyph_glyphOrder _ _ _ _ (by assumption))
                               | exact parseAnchorPt_glyphOrder (by assumption)
                           · first
                               | exact fun y hy => hy
                               | exact fun y hy => mem_of_getSection (by assumption) hy
                           · first
                               | exact fun hne => rfl
                               | exact fun hne => absurd (by assumption) hne)
                    · rw [if_neg hk10] at h
                      by_cases hk11 : key = "Refer"
                      · rw [if_pos hk11] at h
                        repeat
                          any_goals first
                            | split at h
                            | (simp only [bind, Except.bind] at h; split at h)
                        all_goals first
                          | (simp only [throw, throwThe, MonadExceptOf.throw, reduceCtorEq] at h
                             done)
                          | (simp only [bind, Except.bind, pure, Except.pure, Except.ok.injEq,
                               Prod.mk.injEq] at h
                             obtain ⟨h1, h2⟩ := h
                             subst h1
                             subst h2
                             refine ⟨?_, ?_, ?_⟩
                             · first
                                 | rfl
                                 | exact modifyGlyph_glyphOrder _ _ _ _ _ (by assumption)
                                 | exact (modifyGlyph_glyphOrder _ _ _ _ _ (by assumption)).trans
                                     (newLayerGlyph_glyphOrder _ _ _ _ (by assumption))
                                 | exact parseAnchorPt_glyphOrder (by assumption)
                             · first
                                 | exact fun y hy => hy
                                 | exact fun y hy => mem_of_getSection (by assumption) hy
                             · first
                                 | exact fun hne => rfl
                                 | exact fun hne => absurd (by assumption) hne)
                      · rw [if_neg hk11] at h
                        by_cases hk12 : key = "Kerns2"
                        · rw [if_pos hk12] at h
                          repeat
                            any_goals first
                              | split at h
                              | (simp only [bind, Except.bind] at h; split at h)
                          all_goals first
                            | (simp only [throw, throwThe, MonadExceptOf.throw, reduceCtorEq] at h
                               done)
                            | (simp only [bind, Except.bind, pure, Except.pure, Except.ok.injEq,
                                 Prod.mk.injEq] at h
                               obtain ⟨h1, h2⟩ := h
                               subst h1
                               subst h2
                               refine ⟨?_, ?_, ?_⟩
                               · first
                                   | rfl
                                   | exact modifyGlyph_glyphOrder _ _ _ _ _ (by assumption)
                                   | exact (modifyGlyph_glyphOrder _ _ _ _ _ (by assumption)).trans
                                       (newLayerGlyph_glyphOrder _ _ _ _ (by assumption))
                                   | exact parseAnchorPt_glyphOrder (by assumption)
                               · first
                                   | exact fun y hy => hy
                                   | exact fun y hy => mem_of_getSection (by assumption) hy
                               · first
                                   | exact fun hne => rfl
                                   | exact fun hne => absurd (by assumption) hne)
                        · rw [if_neg hk12] at h
                          by_cases hk13 : key = "Comment"
                          · rw [if_pos hk13] at h
                            repeat
                              any_goals first
                                | split at h
                                | (simp only [bind, Except.bind] at h; split at h)
                            all_goals first
                              | (simp only [throw, throwThe, MonadExceptOf.throw, reduceCtorEq] at h
                                 done)
                              | (simp only [bind, Except.bind, pure, Except.pure, Except.ok.injEq,
                                   Prod.mk.injEq] at h
                                 obtain ⟨h1, h2⟩ := h
                                 subst h1
                                 subst h2
                                 refine ⟨?_, ?_, ?_⟩
                                 · first
                                     | rfl
                                     | exact modifyGlyph_glyphOrder _ _ _ _ _ (by assumption)
                                     | exact (modifyGlyph_glyphOrder _ _ _ _ _ (by assumption)).trans
                                         (newLayerGlyph_glyphOrder _ _ _ _ (by assumption))
                                     | exact parseAnchorPt_glyphOrder (by assumption)
                                 · first
                                     | exact fun y hy => hy
                                     | exact fun y hy => mem_of_getSection (by assumption) hy
                                 · first
                                     | exact fun hne => rfl
                                     | exact fun hne => absurd (by assumption) hne)
                          · rw [if_neg hk13] at h
                            by_cases hk14 : key = "UnlinkRmOvrlpSave"
                            · rw [if_pos hk14] at h
                              repeat
                                any_goals first
                                  | split at h
                                  | (simp only [bind, Except.bind] at h; split at h)
                              all_goals first
                                | (simp only [throw, throwThe, MonadExceptOf.throw, reduceCtorEq] at h
                                   done)
                                | (simp only [bind, Except.bind, pure, Except.pure, Except.ok.injEq,
                                     Prod.mk.injEq] at h
                                   obtain ⟨h1, h2⟩ := h
                                   subst h1
                                   subst h2
                                   refine ⟨?_, ?_, ?_⟩
                                   · first
                                       | rfl
                                       | exact modifyGlyph_glyphOrder _ _ _ _ _ (by assumption)
                                       | exact (modifyGlyph_glyphOrder _ _ _ _ _ (by assumption)).trans
                                           (newLayerGlyph_glyphOrder _ _ _ _ (by assumption))
                                       | exact parseAnchorPt_glyphOrder (by assumption)
                                   · first
                                       | exact fun y hy => hy
                                       | exact fun y hy => mem_of_getSection (by assumption) hy
                                   · first
                                       | exact fun hne => rfl
                                       | exact fun hne => absurd (by assumption) hne)
                            · rw [if_neg hk14] at h
                              by_cases hk15 : key = "LCarets2"
                              · rw [if_pos hk15] at h
                                repeat
                                  any_goals first
                                    | split at h
                                    | (simp only [bind, Except.bind] at h; split at h)
                                all_goals first
                                  | (simp only [throw, throwThe, MonadExceptOf.throw, reduceCtorEq] at h
                                     done)
                                  | (simp only [bind, Except.bind, pure, Except.pure, Except.ok.injEq,
                                       Prod.mk.injEq] at h
                                     obtain ⟨h1, h2⟩ := h
                                     subst h1
                                     subst h2
                                     refine ⟨?_, ?_, ?_⟩
                                     · first
                                         | rfl
                                         | exact modifyGlyph_glyphOrder _ _ _ _ _ (by assumption)
                                         | exact (modifyGlyph_glyphOrder _ _ _ _ _ (by assumption)).trans
                                             (newLayerGlyph_glyphOrder _ _ _ _ (by assumption))
                                         | exact parseAnchorPt_glyphOrder (by assumption)
                                     · first
                                         | exact fun y hy => hy
                                         | exact fun y hy => mem_of_getSection (by assumption) hy
                                     · first
                                         | exact fun hne => rfl
                                         | exact fun hne => absurd (by assumption) hne)
                              · rw [if_neg hk15] at h
                                by_cases hk16 : key ∈ ["Position2", "PairPos2", "Ligature2", "Substitution2",
                                      "AlternateSubs2", "MultipleSubs2"]
                                · rw [if_pos hk16] at h
                                  repeat
                                    any_goals first
                                      | split at h
                                      | (simp only [bind, Except.bind] at h; split at h)
                                  all_goals first
                                    | (simp only [throw, throwThe, MonadExceptOf.throw, reduceCtorEq] at h
                                       done)
                                    | (simp only [bind, Except.bind, pure, Except.pure, Except.ok.injEq,
                                         Prod.mk.injEq] at h
                                       obtain ⟨h1, h2⟩ := h
                                       subst h1
                                       subst h2
                                       refine ⟨?_, ?_, ?_⟩
                                       · first
                                           | rfl
                                           | exact modifyGlyph_glyphOrder _ _ _ _ _ (by assumption)
                                           | exact (modifyGlyph_glyphOrder _ _ _ _ _ (by assumption)).trans
                                               (newLayerGlyph_glyphOrder _ _ _ _ (by assumption))
                                           | exact parseAnchorPt_glyphOrder (by assumption)
                                       · first
                                           | exact fun y hy => hy
                                           | exact fun y hy => mem_of_getSection (by assumption) hy
                                       · first
                                           | exact fun hne => rfl
                                           | exact fun hne => absurd (by assumption) hne)
                                · rw [if_neg hk16] at h
                                  repeat
                                    any_goals first
                                      | split at h
                                      | (simp only [bind, Except.bind] at h; split at h)
                                  all_goals first
                                    | (simp only [throw, throwThe, MonadExceptOf.throw, reduceCtorEq] at h
                                       done)
                                    | (simp only [bind, Except.bind, pure, Except.pure, Except.ok.injEq,
                                         Prod.mk.injEq] at h
                                       obtain ⟨h1, h2⟩ := h
                                       subst h1
                                       subst h2
                                       refine ⟨?_, ?_, ?_⟩
                                       · first
                                           | rfl
                                           | exact modifyGlyph_glyphOrder _ _ _ _ _ (by assumption)
                                           | exact (modifyGlyph_glyphOrder _ _ _ _ _ (by assumption)).trans
                                               (newLayerGlyph_glyphOrder _ _ _ _ (by assumption))
                                           | exact parseAnchorPt_glyphOrder (by assumption)
                                       · first
                                           | exact fun y hy => hy
                                           | exact fun y hy => mem_of_getSection (by assumption) hy
                                       · first
                                           | exact fun hne => rfl
                                           | exact fun hne => absurd (by assumption) hne)

/-- Over a record list free of Encoding keys, the record loop preserves the
declaration order. -/
theorem charLoop_order_eq (ext : Ext) (ctx : CharCtx) (gname : String) :
    ∀ (fuel : Nat) (st : CharState) (lines : List String) (st2 : CharState),
    (∀ l ∈ lines, (splitKV l).1 ≠ "Encoding") →
    charLoop ext ctx gname fuel st lines = .ok st2 →
    st2.order = st.order := by
  intro fuel
  induction fuel with
  | zero =>
    intro st lines st2 _ h
    simp [charLoop, throw, throwThe, MonadExceptOf.throw] at h
  | succ n ih =>
    intro st lines st2 hno h
    cases lines with
    | nil =>
      simp only [charLoop, pure, Except.pure, Except.ok.injEq] at h
      subst h
      rfl
    | cons line rest =>
      simp only [charLoop] at h
      cases hs : charStep ext ctx gname st line rest with
      | error e =>
        rw [hs] at h
        simp [bind, Except.bind] at h
      | ok pr =>
        rcases pr with ⟨stm, rest2⟩
        rw [hs] at h
        simp only [bind, Except.bind] at h
        obtain ⟨-, hsub, hord⟩ :=
          charStep_frame ext ctx gname st line rest stm rest2 hs
        have h1 : stm.order = st.order :=
          hord (hno line (List.mem_cons_self line rest))
        have h2 := ih stm rest2 st2
          (fun l hl => hno l (List.mem_cons_of_mem line (hsub l hl))) h
        rw [h2, h1]

/-- The record loop cannot both preserve an unset order and end with one. -/
theorem order_contra {ext : Ext} {ctx : CharCtx} {gname : String}
    {fuel : Nat} {st0 : CharState} {lines : List String} {stv : CharState}
    {o : Int} (hno : ∀ l ∈ lines, (splitKV l).1 ≠ "Encoding")
    (hl : charLoop ext ctx gname fuel st0 lines = .ok stv)
    (h0 : st0.order = none) (ho : stv.order = some o) : False := by
  rw [charLoop_order_eq ext ctx gname fuel st0 lines stv hno hl, h0] at ho
  exact Option.noConfusion ho

/-- A glyph section with no Encoding record makes _parseChar throw. -/
theorem parseChar_no_encoding (ext : Ext) (ctx : CharCtx) (fs : FontState)
    (pm : PMaps) (first : String) (rest : List String)
    (hno : ∀ l ∈ rest, (splitKV l).1 ≠ "Encoding") :
    ∃ e, parseChar ext ctx fs pm (first :: rest) = Except.error e := by
  cases hp : parseChar ext ctx fs pm (first :: rest) with
  | error e => exact ⟨e, rfl⟩
  | ok r =>
    exfalso
    unfold parseChar at hp
    simp only [bind, Except.bind] at hp
    repeat any_goals split at hp
    all_goals first
      | (simp only [throw, throwThe, MonadExceptOf.throw,
           reduceCtorEq] at hp
         done)
      | exact order_contra hno (by assumption) rfl (by assumption)

/-- An Encoding record whose value parses to three ints sets the order to
the third, whatever it was before. -/
theorem charStep_encoding (ext : Ext) (ctx : CharCtx) (gname : String)
    (st : CharState) (line : String) (rest : List String) (v : String)
    (g uni ord : Int)
    (hkv : splitKV line = ("Encoding", some v))
    (hm : ((pySplitWs v).mapM (fun t =>
      match pyInt? t with
      | some n => pure n
      | none => throw "ValueError: int") : Except String (List Int)) =
      Except.ok [g, uni, ord]) :
    ∃ st2, charStep ext ctx gname st line rest = Except.ok (st2, rest) ∧
      st2.order = some ord := by
  unfold charStep
  rw [hkv]
  simp only [pure, Except.pure] at hm
  unfold List.mapM at hm
  by_cases huni : (0 : Int) ≤ uni
  · refine ⟨{ st with order := some ord, unicodes := st.unicodes ++ [uni] },
      ?_, rfl⟩
    simp [hm, huni, bind, Except.bind, pure, Except.pure]
  · refine ⟨{ st with order := some ord }, ?_, rfl⟩
    simp [hm, huni, bind, Except.bind, pure, Except.pure]

/-- Claim C10: a StartChar section parses only when it holds an Encoding
record (without one _parseChar throws instead of defaulting the rank), a
non-Encoding record never changes the stored rank, and an Encoding record
overwrites it with its third number - so the rank comes solely from the
last Encoding record. -/
theorem c10_encoding_defines_rank :
    (∀ (ext : Ext) (ctx : CharCtx) (fs : FontState) (pm : PMaps)
       (first : String) (rest : List String),
       (∀ l ∈ rest, (splitKV l).1 ≠ "Encoding") →
       ∃ e, parseChar ext ctx fs pm (first :: rest) = Except.error e) ∧
    (∀ (ext : Ext) (ctx : CharCtx) (gname : String) (st : CharState)
       (line : String) (rest : List String) (st2 : CharState)
       (rest2 : List String),
       charStep ext ctx gname st line rest = Except.ok (st2, rest2) →
       (splitKV line).1 ≠ "Encoding" → st2.order = st.order) ∧
    (∀ (ext : Ext) (ctx : CharCtx) (gname : String) (st : CharState)
       (line : String) (rest : List String) (v : String) (g uni ord : Int),
       splitKV line = ("Encoding", some v) →
       ((pySplitWs v).mapM (fun t =>
         match pyInt? t with
         | some n => pure n
         | none => throw "ValueError: int") : Except String (List Int)) =
         Except.ok [g, uni, ord] →
       ∃ st2, charStep ext ctx gname st line rest = Except.ok (st2, rest) ∧
         st2.order = some ord) :=
  ⟨parseChar_no_encoding,
   fun ext ctx gname st line rest st2 rest2 h hne =>
     (charStep_frame ext ctx gname st line rest st2 rest2 h).2.2 hne,
   charStep_encoding⟩

/-- Glyph context for the C10 witness. -/
def c10Ctx : CharCtx :=
  { layers := [], layerType := [], ignoreUvs := false, useUfoAnchors := false }

/-- Char state for the C10 witness: glyph a exists, order still unset. -/
def c10St : CharState :=
  { font := FontState.newGlyph {} "a", pm := {}, layerRef := .primary,
    quadratic := none, unicodes := [], order := none }

/-- The state after the Width record of the C10 witness. -/
def c10StepW : CharState :=
  match charStep extTriv c10Ctx "a" c10St "Width: 500" [] with
  | .ok (st2, _) => st2
  | .error _ => c10St

/-- Claim C10 witness: a section without Encoding fails, a Width record
keeps the order, and a concrete Encoding record sets it to 7. -/
theorem c10_encoding_defines_rank_witness :
    (∃ e, parseChar extTriv c10Ctx {} {} ["StartChar: a", "Width: 500"] =
      Except.error e) ∧
    c10StepW.order = c10St.order ∧
    (∃ st2, charStep extTriv c10Ctx "a" c10St "Encoding: 65 65 7" [] =
      Except.ok (st2, []) ∧ st2.order = some 7) :=
  ⟨c10_encoding_defines_rank.1 extTriv c10Ctx {} {} "StartChar: a"
     ["Width: 500"] (by decide),
   c10_encoding_defines_rank.2.1 extTriv c10Ctx "a" c10St "Width: 500" []
     c10StepW [] (by with_unfolding_all rfl) (by decide),
   c10_encoding_defines_rank.2.2 extTriv c10Ctx "a" c10St "Encoding: 65 65 7"
     [] "65 65 7" 65 65 7 (by decide) (by decide)⟩

/-! ## Claim C2: the glyph order invariant and assignment (lines 560-579) -/

/-- Peel one Except bind of a successful program. -/
theorem bindE_ok {α β : Type} {x : Except String α} {f : α → Except String β}
    {b : β} (h : (x >>= f) = .ok b) : ∃ a, x = .ok a ∧ f a = .ok b := by
  cases x with
  | error e => simp [bind, Except.bind] at h
  | ok a =>
    refine ⟨a, rfl, ?_⟩
    simpa [bind, Except.bind] using h

/-- The record loop never touches the font-wide glyph order. -/
theorem charLoop_glyphOrder (ext : Ext) (ctx : CharCtx) (gname : String) :
    ∀ (fuel : Nat) (st : CharState) (lines : List String) (st2 : CharState),
    charLoop ext ctx gname fuel st lines = .ok st2 →
    st2.font.glyphOrder = st.font.glyphOrder := by
  intro fuel
  induction fuel with
  | zero =>
    intro st lines st2 h
    simp [charLoop, throw, throwThe, MonadExceptOf.throw] at h
  | succ n ih =>
    intro st lines st2 h
    cases lines with
    | nil =>
      simp only [charLoop, pure, Except.pure, Except.ok.injEq] at h
      subst h
      rfl
    | cons line rest =>
      simp only [charLoop] at h
      obtain ⟨⟨stm, rest2⟩, hs, h⟩ := bindE_ok h
      exact (ih stm rest2 st2 h).trans
        (charStep_frame ext ctx gname st line rest stm rest2 hs).1

/-- _parseChar creates exactly one glyph: the glyph order afterwards is
that of font.newGlyph applied to the returned name. -/
theorem parseChar_glyphOrder (ext : Ext) (ctx : CharCtx) (fs : FontState)
    (pm : PMaps) (data : List String) (fs2 : FontState) (pm2 : PMaps)
    (name : String) (o : Int)
    (h : parseChar ext ctx fs pm data = .ok (fs2, pm2, name, o)) :
    fs2.glyphOrder = (fs.newGlyph name).glyphOrder := by
  cases data with
  | nil =>
    unfold parseChar at h
    simp [throw, throwThe, MonadExceptOf.throw] at h
  | cons first rest =>
    unfold parseChar at h
    obtain ⟨nm, hnm, h⟩ := bindE_ok h
    obtain ⟨stv, hloop, h⟩ := bindE_ok h
    obtain ⟨fsv, hmod, h⟩ := bindE_ok h
    cases ho : stv.order with
    | none =>
      rw [ho] at h
      simp [throw, throwThe, MonadExceptOf.throw] at h
    | some o2 =>
      rw [ho] at h
      simp only [pure, Except.pure, Except.ok.injEq, Prod.mk.injEq] at h
      obtain ⟨h1, h2, h3, h4⟩ := h
      subst h1
      subst h3
      exact (modifyGlyph_glyphOrder _ _ _ _ _ hmod).trans
        (charLoop_glyphOrder _ _ _ _ _ _ _ hloop)

/-- Keys of dictSet: untouched when the key is present, appended when new. -/
theorem dictSet_keys {β : Type} (m : List (String × β)) (k : String) (v : β) :
    (dictSet m k v).map Prod.fst =
      if k ∈ m.map Prod.fst then m.map Prod.fst
      else m.map Prod.fst ++ [k] := by
  unfold dictSet
  have hiff : (m.any (fun p => p.1 = k) = true) ↔ k ∈ m.map Prod.fst := by
    simp [List.any_eq_true, List.mem_map]
  by_cases hk : k ∈ m.map Prod.fst
  · rw [if_pos (hiff.mpr hk), if_pos hk, List.map_map]
    apply List.map_congr_left
    intro p hp
    by_cases hpk : p.1 = k
    · simp [Function.comp, hpk]
    · simp [Function.comp, hpk]
  · rw [if_neg (fun hc => hk (hiff.mp hc)), if_neg hk, List.map_append]
    rfl

/-- Invariant of the StartChar scan loop: the font glyph order stays equal
to the key list of the declaration-order map, and the keys stay distinct. -/
theorem parseCharsLoop_inv (ext : Ext) (ctx : CharCtx) :
    ∀ (fuel : Nat) (fs : FontState) (pm : PMaps) (lines : List String)
      (m : List (String × Int)) (fs2 : FontState) (pm2 : PMaps)
      (m2 : List (String × Int)),
    parseCharsLoop ext ctx fuel fs pm lines m = .ok (fs2, pm2, m2) →
    fs.glyphOrder = m.map Prod.fst →
    (m.map Prod.fst).Nodup →
    fs2.glyphOrder = m2.map Prod.fst ∧ (m2.map Prod.fst).Nodup := by
  intro fuel
  induction fuel with
  | zero =>
    intro fs pm lines m fs2 pm2 m2 h _ _
    simp [parseCharsLoop, throw, throwThe, MonadExceptOf.throw] at h
  | succ n ih =>
    intro fs pm lines m fs2 pm2 m2 h hI hN
    cases lines with
    | nil =>
      simp only [parseCharsLoop, pure, Except.pure, Except.ok.injEq,
        Prod.mk.injEq] at h
      obtain ⟨h1, h2, h3⟩ := h
      subst h1
      subst h3
      exact ⟨hI, hN⟩
    | cons line rest =>
      simp only [parseCharsLoop] at h
      by_cases hsc : pyStartsWith line "StartChar"
      · rw [if_pos hsc] at h
        obtain ⟨⟨sec, rest2⟩, hg, h⟩ := bindE_ok h
        obtain ⟨⟨fsc, pmc, name, o⟩, hc, h⟩ := bindE_ok h
        have hGO := parseChar_glyphOrder ext ctx fs pm sec fsc pmc name o hc
        refine ih fsc pmc rest2 (dictSet m name o) fs2 pm2 m2 h ?_ ?_
        · rw [hGO, dictSet_keys]
          unfold FontState.newGlyph
          rw [hI]
        · rw [dictSet_keys]
          by_cases hmem : name ∈ m.map Prod.fst
          · rw [if_pos hmem]
            exact hN
          · rw [if_neg hmem]
            refine hN.append (List.nodup_singleton name) ?_
            intro x hx hx2
            simp only [List.mem_singleton] at hx2
            subst hx2
            exact hmem hx
      · rw [if_neg hsc] at h
        exact ih fs pm rest m fs2 pm2 m2 h hI hN

/-- The rank comparison is transitive. -/
theorem rankLe_trans (m : List (String × Int)) :
    ∀ a b c, rankLe m a b = true → rankLe m b c = true →
      rankLe m a c = true := by
  intro a b c hab hbc
  simp only [rankLe, decide_eq_true_eq] at hab hbc ⊢
  omega

/-- The rank comparison is total. -/
theorem rankLe_total (m : List (String × Int)) :
    ∀ a b, (rankLe m a b || rankLe m b a) = true := by
  intro a b
  simp only [rankLe, Bool.or_eq_true, decide_eq_true_eq]
  omega

/-- Claim C2: for a font starting with no glyphs, the declaration-order map
built from the StartChar sections has distinct keys, its size equals the
number of glyphs created (so the invariant check of line 577 always passes
when the scan completes), and the final glyph order is exactly the names
sorted by rank - a permutation of the map keys, sorted stably, and
re-sorting the assigned order with the same rank map changes nothing. -/
theorem c2_glyph_order (ext : Ext) (ctx : CharCtx) (fs : FontState)
    (pm : PMaps) (data : List String) (fs2 : FontState) (pm2 : PMaps)
    (m : List (String × Int))
    (h0 : fs.glyphOrder = [])
    (h : parseChars ext ctx fs pm data = .ok (fs2, pm2, m)) :
    (m.map Prod.fst).Nodup ∧
    fs2.glyphOrder = sortByRank m ∧
    fs2.glyphOrder.length = m.length ∧
    fs2.glyphOrder.Perm (m.map Prod.fst) ∧
    (sortByRank m).mergeSort (rankLe m) = sortByRank m ∧
    (∀ (fs3 : FontState) (pm3 : PMaps) (m3 : List (String × Int)),
      parseCharsLoop ext ctx
        (((data.map pyStrip).filter (· ≠ "")).length + 1) fs pm
        ((data.map pyStrip).filter (· ≠ "")) [] = .ok (fs3, pm3, m3) →
      parseChars ext ctx fs pm data =
        .ok ({ fs3 with glyphOrder := sortByRank m3 }, pm3, m3)) := by
  have hmain : ∀ (fs3 : FontState) (pm3 : PMaps) (m3 : List (String × Int)),
      parseCharsLoop ext ctx
        (((data.map pyStrip).filter (· ≠ "")).length + 1) fs pm
        ((data.map pyStrip).filter (· ≠ "")) [] = .ok (fs3, pm3, m3) →
      fs3.glyphOrder = m3.map Prod.fst ∧ (m3.map Prod.fst).Nodup := by
    intro fs3 pm3 m3 hl
    exact parseCharsLoop_inv ext ctx _ fs pm _ [] fs3 pm3 m3 hl
      (by simpa using h0) (by simp)
  have hassert : ∀ (fs3 : FontState) (pm3 : PMaps) (m3 : List (String × Int)),
      parseCharsLoop ext ctx
        (((data.map pyStrip).filter (· ≠ "")).length + 1) fs pm
        ((data.map pyStrip).filter (· ≠ "")) [] = .ok (fs3, pm3, m3) →
      parseChars ext ctx fs pm data =
        .ok ({ fs3 with glyphOrder := sortByRank m3 }, pm3, m3) := by
    intro fs3 pm3 m3 hl
    obtain ⟨hEq, hNd⟩ := hmain fs3 pm3 m3 hl
    unfold parseChars
    simp only [bind, Except.bind]
    rw [hl]
    have hlen : fs3.glyphOrder.length = m3.length := by
      rw [hEq, List.length_map]
    simp [hlen, pure, Except.pure]
  unfold parseChars at h
  obtain ⟨⟨fs3, pm3, m3⟩, hl, h⟩ := bindE_ok h
  obtain ⟨hEq, hNd⟩ := hmain fs3 pm3 m3 hl
  have hlen : fs3.glyphOrder.length = m3.length := by
    rw [hEq, List.length_map]
  simp only [hlen, reduceIte, pure, Except.pure, Except.ok.injEq,
    Prod.mk.injEq] at h
  obtain ⟨h1, h2, h3⟩ := h
  subst h1
  subst h3
  refine ⟨hNd, rfl, ?_, ?_, ?_, hassert⟩
  · simp only [sortByRank, List.length_mergeSort, List.length_map]
  · exact List.mergeSort_perm _ _
  · exact List.mergeSort_of_sorted
      (List.sorted_mergeSort (rankLe_trans _) (rankLe_total _) _)

/-- Glyph context for the C2 witness. -/
def c2Ctx : CharCtx :=
  { layers := [], layerType := [], ignoreUvs := false, useUfoAnchors := false }

/-- A one-glyph char section list for the C2 witness. -/
def c2Data : List String :=
  ["StartChar: a", "Encoding: 65 65 0", "Width: 500", "EndChar"]

/-- The font produced by the C2 witness input. -/
def c2Fs : FontState :=
  match parseChars extTriv c2Ctx {} {} c2Data with
  | .ok (a, _, _) => a
  | .error _ => {}

/-- The deferred maps produced by the C2 witness input. -/
def c2Pm : PMaps :=
  match parseChars extTriv c2Ctx {} {} c2Data with
  | .ok (_, b, _) => b
  | .error _ => {}

/-- The declaration-order map produced by the C2 witness input. -/
def c2M : List (String × Int) :=
  match parseChars extTriv c2Ctx {} {} c2Data with
  | .ok (_, _, c) => c
  | .error _ => []

/-- Claim C2 witness: parsing one concrete glyph section from an empty font
satisfies every part of the glyph-order contract. -/
theorem c2_glyph_order_witness :
    ({} : FontState).glyphOrder = [] ∧
    ((c2M.map Prod.fst).Nodup ∧
     c2Fs.glyphOrder = sortByRank c2M ∧
     c2Fs.glyphOrder.length = c2M.length ∧
     c2Fs.glyphOrder.Perm (c2M.map Prod.fst) ∧
     (sortByRank c2M).mergeSort (rankLe c2M) = sortByRank c2M ∧
     (∀ (fs3 : FontState) (pm3 : PMaps) (m3 : List (String × Int)),
       parseCharsLoop extTriv c2Ctx
         (((c2Data.map pyStrip).filter (· ≠ "")).length + 1) {} {}
         ((c2Data.map pyStrip).filter (· ≠ "")) [] = .ok (fs3, pm3, m3) →
       parseChars extTriv c2Ctx {} {} c2Data =
         .ok ({ fs3 with glyphOrder := sortByRank m3 }, pm3, m3))) :=
  ⟨rfl, c2_glyph_order extTriv c2Ctx {} {} c2Data c2Fs c2Pm c2M rfl
     (by with_unfolding_all rfl)⟩

/-! ## Claim C7: pruned lookups are absent from the feature text (813-888) -/

/-- The serialized header line of a lookup block. -/
def lookupHeaderOf (nm : String) : String := "lookup " ++ nm ++ " \x7b"

/-- The serialized lookup reference line of a feature block. -/
def lookupRefOf (nm : String) : String := "      lookup " ++ nm ++ ";"

/-- Strings differing within their literal heads differ. -/
theorem append_ne_of_take (a c b d : String) (n : Nat)
    (h1 : n ≤ a.data.length) (h2 : n ≤ c.data.length)
    (hne : a.data.take n ≠ c.data.take n) : a ++ b ≠ c ++ d := by
  intro h
  apply hne
  have hd := congrArg String.data h
  rw [String.data_append, String.data_append] at hd
  have ht := congrArg (List.take n) hd
  rwa [List.take_append_of_le_length h1, List.take_append_of_le_length h2]
    at ht

/-- The empty string is no nonempty concatenation. -/
theorem empty_ne_append (a b : String) (ha : a.data ≠ []) :
    ("" : String) ≠ a ++ b := by
  intro h
  have hd := congrArg String.data h
  rw [String.data_append] at hd
  exact ha (List.append_eq_nil.mp hd.symm).1

/-- Cancel a common literal head and tail. -/
theorem wrap_inj (p s a b : String) (h : p ++ (a ++ s) = p ++ (b ++ s)) :
    a = b := by
  have hd := congrArg String.data h
  simp only [String.data_append] at hd
  have h2 := List.append_cancel_left hd
  have h3 := List.append_cancel_right h2
  cases a
  cases b
  exact congrArg String.mk h3

/-- Invariant carried through a monadic fold. -/
theorem foldlME_inv {α γ : Type} (P : α → Prop) :
    ∀ (l : List γ) (f : α → γ → Except String α) (a0 out : α),
    (∀ a x b, x ∈ l → f a x = .ok b → P a → P b) →
    l.foldlM f a0 = .ok out → P a0 → P out := by
  intro l
  induction l with
  | nil =>
    intro f a0 out _ h hP
    simp only [List.foldlM_nil, pure, Except.pure, Except.ok.injEq] at h
    exact h ▸ hP
  | cons x xs ih =>
    intro f a0 out hstep h hP
    rw [List.foldlM_cons] at h
    obtain ⟨a1, hx, h⟩ := bindE_ok h
    exact ih f a1 out
      (fun a y b hy => hstep a y b (List.mem_cons_of_mem _ hy)) h
      (hstep a0 x a1 (List.mem_cons_self _ _) hx hP)

/-- Invariant carried through a pure fold. -/
theorem foldl_inv {α γ : Type} (P : α → Prop) :
    ∀ (l : List γ) (f : α → γ → α) (a0 : α),
    (∀ a x, x ∈ l → P a → P (f a x)) → P a0 → P (l.foldl f a0) := by
  intro l
  induction l with
  | nil => intro f a0 _ hP; exact hP
  | cons x xs ih =>
    intro f a0 hstep hP
    rw [List.foldl_cons]
    exact ih f (f a0 x)
      (fun a y hy => hstep a y (List.mem_cons_of_mem _ hy))
      (hstep a0 x (List.mem_cons_self _ _) hP)

/-- Members of a monadic map come from members of the input. -/
theorem mapME_mem {α β : Type} :
    ∀ (l : List α) (f : α → Except String β) (out : List β),
    l.mapM f = .ok out → ∀ y ∈ out, ∃ x ∈ l, f x = .ok y := by
  intro l
  induction l with
  | nil =>
    intro f out h y hy
    simp only [List.mapM_nil, pure, Except.pure, Except.ok.injEq] at h
    subst h
    simp at hy
  | cons x xs ih =>
    intro f out h y hy
    rw [List.mapM_cons] at h
    obtain ⟨b, hb, h⟩ := bindE_ok h
    obtain ⟨bs, hbs, h⟩ := bindE_ok h
    simp only [pure, Except.pure, Except.ok.injEq] at h
    subst h
    rcases List.mem_cons.mp hy with rfl | hy2
    · exact ⟨x, List.mem_cons_self _ _, hb⟩
    · obtain ⟨x2, hx2, hfx2⟩ := ih f bs hbs y hy2
      exact ⟨x2, List.mem_cons_of_mem _ hx2, hfx2⟩

/-- With distinct keys, a key determines its value. -/
theorem keys_nodup_val_eq {β : Type} :
    ∀ (tl : List (String × β)) (k : String) (v1 v2 : β),
    (tl.map Prod.fst).Nodup → (k, v1) ∈ tl → (k, v2) ∈ tl → v1 = v2 := by
  intro tl
  induction tl with
  | nil => intro k v1 v2 _ h1; simp at h1
  | cons p tl ih =>
    intro k v1 v2 hnd h1 h2
    rw [List.map_cons, List.nodup_cons] at hnd
    rcases List.mem_cons.mp h1 with rfl | h1t
    · rcases List.mem_cons.mp h2 with h2h | h2t
      · exact congrArg Prod.snd h2h.symm
      · exact absurd (List.mem_map_of_mem Prod.fst h2t) hnd.1
    · rcases List.mem_cons.mp h2 with h2h | h2t
      · subst h2h
        exact absurd (List.mem_map_of_mem Prod.fst h1t) hnd.1
      · exact ih k v1 v2 hnd.2 h1t h2t

/-- A lookup with no surviving subtable is dropped by the pruning. -/
theorem pruned_drop (gps : GPS) (ac : List (String × List String))
    (tl : List (String × List String)) (L : String) (subs : List String)
    (hmem : (L, subs) ∈ tl)
    (hdead : ∀ s ∈ subs, subtableSurvives gps ac s = false)
    (hnd : (tl.map Prod.fst).Nodup) :
    pruneSubtables gps ac subs = [] ∧
    (L, subs) ∉ prunedLookups gps ac tl ∧
    L ∉ (prunedLookups gps ac tl).map Prod.fst := by
  have hprune : pruneSubtables gps ac subs = [] := by
    unfold pruneSubtables
    exact List.filter_eq_nil.mpr (fun s hs => by simp [hdead s hs])
  refine ⟨hprune, ?_, ?_⟩
  · intro hin
    have := List.of_mem_filter hin
    rw [hprune] at this
    simp [pyAnyStr] at this
  · intro hin
    obtain ⟨p, hp, hpk⟩ := List.mem_map.mp hin
    have hptl := List.mem_of_mem_filter hp
    have hsv := List.of_mem_filter hp
    have hpeq : p.2 = subs := by
      have : (L, p.2) ∈ tl := by
        rw [← hpk]
        exact hptl
      exact keys_nodup_val_eq tl L p.2 subs hnd this hmem
    rw [hpeq, hprune] at hsv
    simp [pyAnyStr] at hsv

/-- Rule lines never form a lookup header or a lookup reference. -/
theorem ruleLines_safe (nmL kind glyph : String) (payload : PosSubData)
    (out : List String) (h : ruleLines kind glyph payload = .ok out) :
    ∀ l ∈ out, l ≠ lookupHeaderOf nmL ∧ l ≠ lookupRefOf nmL := by
  unfold ruleLines at h
  repeat
    any_goals first
      | split at h
      | (simp only [bind, Except.bind] at h; split at h)
  all_goals first
    | (simp only [throw, throwThe, MonadExceptOf.throw, reduceCtorEq] at h
       done)
    | (simp only [bind, Except.bind, pure, Except.pure, Except.ok.injEq] at h
       subst h
       intro l hl
       simp only [List.mem_singleton] at hl
       subst hl
       constructor <;>
         (simp only [lookupHeaderOf, lookupRefOf]
          simp only [String.append_assoc]
          first
            | exact append_ne_of_take _ _ _ _ 1 (by decide) (by decide)
                (by decide)
            | exact append_ne_of_take _ _ _ _ 5 (by decide) (by decide)
                (by decide)))

/-- The grouping step only ever appends cursive attachment lines. -/
theorem anchorStep_safe (nmL : String) (ext : Ext) (pm : PMaps)
    (kind : String) (acc : AnchorAcc) (x : String × String)
    (hP : ∀ l ∈ acc.1, l ≠ lookupHeaderOf nmL ∧ l ≠ lookupRefOf nmL) :
    ∀ l ∈ (anchorStep ext pm kind acc x).1,
      l ≠ lookupHeaderOf nmL ∧ l ≠ lookupRefOf nmL := by
  unfold anchorStep
  rcases x with ⟨anchorClass, glyph⟩
  intro l hl
  repeat
    any_goals first
      | split at hl
      | (simp only [] at hl; split at hl)
  all_goals first
    | exact hP l hl
    | (rw [List.mem_append] at hl
       rcases hl with hl2 | hl2
       · exact hP l hl2
       · simp only [List.mem_singleton] at hl2
         subst hl2
         constructor <;>
           (simp only [lookupHeaderOf, lookupRefOf]
            simp only [String.append_assoc]
            first
              | exact append_ne_of_take _ _ _ _ 1 (by decide) (by decide)
                  (by decide)
              | exact append_ne_of_take _ _ _ _ 5 (by decide) (by decide)
                  (by decide)))

/-- Anchor class serialization never forms a lookup header or reference. -/
theorem writeAnchorClass_safe (nmL : String) (ext : Ext) (pm : PMaps)
    (fs : FontState) (lookup subtable : String) (out : List String)
    (h : writeAnchorClass ext pm fs lookup subtable = .ok out) :
    ∀ l ∈ out, l ≠ lookupHeaderOf nmL ∧ l ≠ lookupRefOf nmL := by
  unfold writeAnchorClass at h
  cases hinfo : dictGet pm.lookupInfo lookup with
  | none =>
    rw [hinfo] at h
    simp [throw, throwThe, MonadExceptOf.throw] at h
  | some kfl =>
    rw [hinfo] at h
    rcases kfl with ⟨kind, flags, fe⟩
    cases hac : dictGet pm.anchorClasses subtable with
    | none =>
      rw [hac] at h
      simp [throw, throwThe, MonadExceptOf.throw] at h
    | some anchorsOfSub =>
      rw [hac] at h
      obtain ⟨baseLines, hbase, h⟩ := bindE_ok h
      simp only [pure, Except.pure, Except.ok.injEq] at h
      subst h
      intro l hl
      rw [List.mem_append, List.mem_append] at hl
      rcases hl with (hl | hl) | hl
      · refine foldl_inv
          (fun acc => ∀ l2 ∈ acc.1,
            l2 ≠ lookupHeaderOf nmL ∧ l2 ≠ lookupRefOf nmL)
          _ (anchorStep ext pm kind) ([], [], [])
          (fun a x _ hPa => anchorStep_safe nmL ext pm kind a x hPa)
          (by simp) l hl
      · obtain ⟨mkv, hmk, hml⟩ := List.mem_map.mp hl
        subst hml
        constructor <;>
          (simp only [lookupHeaderOf, lookupRefOf]
           simp only [String.append_assoc]
           first
             | exact append_ne_of_take _ _ _ _ 1 (by decide) (by decide)
                 (by decide)
             | exact append_ne_of_take _ _ _ _ 3 (by decide) (by decide)
                 (by decide))
      · obtain ⟨bkv, hbk, hbl⟩ := mapME_mem _ _ _ hbase l hl
        repeat
          any_goals first
            | split at hbl
            | (simp only [] at hbl; split at hbl)
        all_goals first
          | (simp only [throw, throwThe, MonadExceptOf.throw,
               reduceCtorEq] at hbl
             done)
          | (simp only [pure, Except.pure, Except.ok.injEq] at hbl
             subst hbl
             constructor <;>
               (simp only [lookupHeaderOf, lookupRefOf]
                simp only [String.append_assoc]
                first
                  | exact append_ne_of_take _ _ _ _ 1 (by decide) (by decide)
                      (by decide)
                  | exact append_ne_of_take _ _ _ _ 3 (by decide) (by decide)
                      (by decide)))

/-- A lookup block whose lookup sanitizes away from nmL never contains the
header or reference line of nmL. -/
theorem writeLookupBlock_safe (nmL : String) (ext : Ext) (pm : PMaps)
    (fs : FontState) (st : List (String × String)) (lookup : String)
    (subs : List String) (out : List String)
    (h : writeLookupBlock ext pm fs st lookup subs = .ok out)
    (hname : ∀ nm2, dictGet st lookup = some nm2 → nm2 ≠ nmL) :
    ∀ l ∈ out, l ≠ lookupHeaderOf nmL ∧ l ≠ lookupRefOf nmL := by
  unfold writeLookupBlock at h
  cases hinfo : dictGet pm.lookupInfo lookup with
  | none =>
    rw [hinfo] at h
    simp [throw, throwThe, MonadExceptOf.throw] at h
  | some kfl =>
    rw [hinfo] at h
    rcases kfl with ⟨kind, flags, fe⟩
    obtain ⟨name, hn, h⟩ := bindE_ok h
    obtain ⟨body, hb, h⟩ := bindE_ok h
    simp only [pure, Except.pure, Except.ok.injEq] at h
    subst h
    have hnm : name ≠ nmL := by
      unfold sanNameOf at hn
      cases hg : dictGet st lookup with
      | none =>
        rw [hg] at hn
        simp [throw, throwThe, MonadExceptOf.throw] at hn
      | some v =>
        rw [hg] at hn
        simp only [pure, Except.pure, Except.ok.injEq] at hn
        subst hn
        exact hname v hg
    have hbody : ∀ l ∈ body,
        l ≠ lookupHeaderOf nmL ∧ l ≠ lookupRefOf nmL := by
      refine foldlME_inv
        (fun acc => ∀ l ∈ acc, l ≠ lookupHeaderOf nmL ∧ l ≠ lookupRefOf nmL)
        subs _ [] body ?_ hb (by simp)
      intro a x b hx hfab hPa
      by_cases hac : dictHas pm.anchorClasses x
      · rw [if_pos hac] at hfab
        obtain ⟨ls, hls, hfab⟩ := bindE_ok hfab
        simp only [pure, Except.pure, Except.ok.injEq] at hfab
        subst hfab
        intro l hl
        rcases List.mem_append.mp hl with hl | hl
        · exact hPa l hl
        · exact writeAnchorClass_safe nmL ext pm fs lookup x ls hls l hl
      · rw [if_neg hac] at hfab
        refine foldlME_inv
          (fun acc => ∀ l ∈ acc, l ≠ lookupHeaderOf nmL ∧ l ≠ lookupRefOf nmL)
          pm.glyphPosSub _ a b ?_ hfab hPa
        intro a2 g b2 hg hstep hPa2
        cases hge : dictGet g.2 x with
        | none =>
          rw [hge] at hstep
          simp only [pure, Except.pure, Except.ok.injEq] at hstep
          subst hstep
          exact hPa2
        | some entries =>
          rw [hge] at hstep
          refine foldlME_inv
            (fun acc => ∀ l ∈ acc,
              l ≠ lookupHeaderOf nmL ∧ l ≠ lookupRefOf nmL)
            entries _ a2 b2 ?_ hstep hPa2
          intro a3 e b3 he hrule hPa3
          obtain ⟨ls, hls, hrule⟩ := bindE_ok hrule
          simp only [pure, Except.pure, Except.ok.injEq] at hrule
          subst hrule
          intro l hl
          rcases List.mem_append.mp hl with hl | hl
          · exact hPa3 l hl
          · exact ruleLines_safe nmL kind g.1 e.2 ls hls l hl
    intro l hl
    rcases List.mem_append.mp hl with hl1 | hl1
    · rcases List.mem_append.mp hl1 with hl2 | hl2
      · simp only [List.mem_cons, List.not_mem_nil, or_false] at hl2
        rcases hl2 with rfl | rfl | rfl
        · constructor <;>
            (simp only [lookupHeaderOf, lookupRefOf]
             simp only [String.append_assoc]
             exact empty_ne_append _ _ (by decide))
        · constructor
          · intro heq
            simp only [lookupHeaderOf] at heq
            rw [String.append_assoc, String.append_assoc] at heq
            exact hnm (wrap_inj _ _ _ _ heq)
          · simp only [lookupRefOf]
            simp only [String.append_assoc]
            exact append_ne_of_take _ _ _ _ 1 (by decide) (by decide)
              (by decide)
        · constructor <;>
            (simp only [lookupHeaderOf, lookupRefOf]
             simp only [String.append_assoc]
             first
               | exact append_ne_of_take _ _ _ _ 1 (by decide) (by decide)
                   (by decide)
               | exact append_ne_of_take _ _ _ _ 3 (by decide) (by decide)
                   (by decide))
      · exact hbody l hl2
    · simp only [List.mem_singleton] at hl1
      subst hl1
      constructor <;>
        (simp only [lookupHeaderOf, lookupRefOf]
         simp only [String.append_assoc]
         exact append_ne_of_take _ _ _ _ 1 (by decide) (by decide)
           (by decide))

/-- Every lookup reference produced for a feature slot names a lookup of the
pruned list through the sanitization table. -/
theorem outlFor_names (st : List (String × String))
    (lookups : List (String × List String))
    (linfo : List (String × LookupVal)) (feature script language : String)
    (out : List String)
    (h : outlFor st lookups linfo feature script language = .ok out) :
    ∀ n ∈ out, ∃ p ∈ lookups, dictGet st p.1 = some n := by
  unfold outlFor at h
  refine foldlME_inv
    (fun acc => ∀ n ∈ acc, ∃ p ∈ lookups, dictGet st p.1 = some n)
    lookups _ [] out ?_ h (by simp)
  intro a p b hp hstep hPa
  cases hinfo : dictGet linfo p.1 with
  | none =>
    rw [hinfo] at hstep
    simp [throw, throwThe, MonadExceptOf.throw] at hstep
  | some info =>
    rw [hinfo] at hstep
    refine foldlME_inv
      (fun acc => ∀ n ∈ acc, ∃ p ∈ lookups, dictGet st p.1 = some n)
      info.2.2 _ a b ?_ hstep hPa
    intro a2 fl b2 hfl hstep2 hPa2
    by_cases hf : fl.1 = feature
    · rw [if_pos hf] at hstep2
      refine foldlME_inv
        (fun acc => ∀ n ∈ acc, ∃ p ∈ lookups, dictGet st p.1 = some n)
        fl.2 _ a2 b2 ?_ hstep2 hPa2
      intro a3 sl b3 hsl hstep3 hPa3
      by_cases hs : sl.1 = script
      · rw [if_pos hs] at hstep3
        refine foldlME_inv
          (fun acc => ∀ n ∈ acc, ∃ p ∈ lookups, dictGet st p.1 = some n)
          sl.2 _ a3 b3 ?_ hstep3 hPa3
        intro a4 ll b4 hll hstep4 hPa4
        by_cases hlg : ll = language
        · rw [if_pos hlg] at hstep4
          obtain ⟨n, hn, hstep4⟩ := bindE_ok hstep4
          simp only [pure, Except.pure, Except.ok.injEq] at hstep4
          subst hstep4
          intro n2 hn2
          rcases List.mem_append.mp hn2 with hn2 | hn2
          · exact hPa4 n2 hn2
          · simp only [List.mem_singleton] at hn2
            subst hn2
            unfold sanNameOf at hn
            cases hg : dictGet st p.1 with
            | none =>
              rw [hg] at hn
              simp [throw, throwThe, MonadExceptOf.throw] at hn
            | some v =>
              rw [hg] at hn
              simp only [pure, Except.pure, Except.ok.injEq] at hn
              subst hn
              exact ⟨p, hp, hg⟩
        · rw [if_neg hlg] at hstep4
          simp only [pure, Except.pure, Except.ok.injEq] at hstep4
          subst hstep4
          exact hPa4
      · rw [if_neg hs] at hstep3
        simp only [pure, Except.pure, Except.ok.injEq] at hstep3
        subst hstep3
        exact hPa3
    · rw [if_neg hf] at hstep2
      simp only [pure, Except.pure, Except.ok.injEq] at hstep2
      subst hstep2
      exact hPa2

/-- Every lookup name inside the built feature structure names a lookup of
the pruned list through the sanitization table. -/
theorem buildFeatures_names (st : List (String × String))
    (linfo : List (String × LookupVal))
    (lookups : List (String × List String)) (featureSet scripts : List String)
    (langSet : List (String × List String))
    (features : List (String × List (String × List (String × List String))))
    (h : buildFeatures st linfo lookups featureSet scripts langSet =
      .ok features) :
    ∀ f ∈ features, ∀ sc ∈ f.2, ∀ lg ∈ sc.2, ∀ n ∈ lg.2,
      ∃ p ∈ lookups, dictGet st p.1 = some n := by
  unfold buildFeatures at h
  refine foldlME_inv
    (fun acc => ∀ f ∈ acc, ∀ sc ∈ f.2, ∀ lg ∈ sc.2, ∀ n ∈ lg.2,
      ∃ p ∈ lookups, dictGet st p.1 = some n)
    featureSet _ [] features ?_ h (by simp)
  intro a feature b hft hstep hPa
  obtain ⟨outf, houtf, hstep⟩ := bindE_ok hstep
  simp only [pure, Except.pure, Except.ok.injEq] at hstep
  subst hstep
  have houtfP : ∀ sc ∈ outf, ∀ lg ∈ sc.2, ∀ n ∈ lg.2,
      ∃ p ∈ lookups, dictGet st p.1 = some n := by
    refine foldlME_inv
      (fun acc => ∀ sc ∈ acc, ∀ lg ∈ sc.2, ∀ n ∈ lg.2,
        ∃ p ∈ lookups, dictGet st p.1 = some n)
      scripts _ [] outf ?_ houtf (by simp)
    intro a2 script b2 hsc hstep2 hPa2
    cases hlg : dictGet langSet script with
    | none =>
      rw [hlg] at hstep2
      simp [throw, throwThe, MonadExceptOf.throw] at hstep2
    | some langs =>
      rw [hlg] at hstep2
      obtain ⟨outs, houts, hstep2⟩ := bindE_ok hstep2
      simp only [pure, Except.pure, Except.ok.injEq] at hstep2
      subst hstep2
      have houtsP : ∀ lg ∈ outs, ∀ n ∈ lg.2,
          ∃ p ∈ lookups, dictGet st p.1 = some n := by
        refine foldlME_inv
          (fun acc => ∀ lg ∈ acc, ∀ n ∈ lg.2,
            ∃ p ∈ lookups, dictGet st p.1 = some n)
          (sortLangs langs) _ [] outs ?_ houts (by simp)
        intro a3 language b3 hll hstep3 hPa3
        obtain ⟨outl, houtl, hstep3⟩ := bindE_ok hstep3
        simp only [pure, Except.pure, Except.ok.injEq] at hstep3
        subst hstep3
        split
        · intro lg hlg2
          rcases List.mem_append.mp hlg2 with hlg2 | hlg2
          · exact hPa3 lg hlg2
          · simp only [List.mem_singleton] at hlg2
            subst hlg2
            exact outlFor_names st lookups linfo feature script language
              outl houtl
        · exact hPa3
      split
      · intro sc hsc2
        rcases List.mem_append.mp hsc2 with hsc2 | hsc2
        · exact hPa2 sc hsc2
        · simp only [List.mem_singleton] at hsc2
          subst hsc2
          exact houtsP
      · exact hPa2
  split
  · intro f hf2
    rcases List.mem_append.mp hf2 with hf2 | hf2
    · exact hPa f hf2
    · simp only [List.mem_singleton] at hf2
      subst hf2
      exact houtfP
  · exact hPa

/-- Feature blocks whose lookup names avoid nmL never contain the header or
reference line of nmL. -/
theorem featureBlockLines_safe (nmL : String)
    (features : List (String × List (String × List (String × List String))))
    (hnames : ∀ f ∈ features, ∀ sc ∈ f.2, ∀ lg ∈ sc.2, ∀ n ∈ lg.2, n ≠ nmL) :
    ∀ l ∈ featureBlockLines features,
      l ≠ lookupHeaderOf nmL ∧ l ≠ lookupRefOf nmL := by
  unfold featureBlockLines
  refine foldl_inv
    (fun acc => ∀ l ∈ acc, l ≠ lookupHeaderOf nmL ∧ l ≠ lookupRefOf nmL)
    features _ [] ?_ (by simp)
  intro a f hf hPa
  intro l hl
  rcases List.mem_append.mp hl with hl1 | hl1
  · rcases List.mem_append.mp hl1 with hl2 | hl2
    · rcases List.mem_append.mp hl2 with hl3 | hl3
      · exact hPa l hl3
      · simp only [List.mem_cons, List.not_mem_nil, or_false] at hl3
        rcases hl3 with rfl | rfl
        · constructor <;>
            (simp only [lookupHeaderOf, lookupRefOf]
             simp only [String.append_assoc]
             exact empty_ne_append _ _ (by decide))
        · constructor <;>
            (simp only [lookupHeaderOf, lookupRefOf]
             simp only [String.append_assoc]
             exact append_ne_of_take _ _ _ _ 1 (by decide) (by decide)
               (by decide))
    · refine foldl_inv
        (fun acc => ∀ l ∈ acc,
          l ≠ lookupHeaderOf nmL ∧ l ≠ lookupRefOf nmL)
        f.2 _ [] ?_ (by simp) l hl2
      intro a2 sc hsc hPa2
      intro l2 hl2b
      rcases List.mem_append.mp hl2b with hl3 | hl3
      · rcases List.mem_append.mp hl3 with hl4 | hl4
        · exact hPa2 l2 hl4
        · simp only [List.mem_cons, List.not_mem_nil, or_false] at hl4
          rcases hl4 with rfl | rfl
          · constructor <;>
              (simp only [lookupHeaderOf, lookupRefOf]
               simp only [String.append_assoc]
               exact empty_ne_append _ _ (by decide))
          · constructor <;>
              (simp only [lookupHeaderOf, lookupRefOf]
               simp only [String.append_assoc]
               first
                 | exact append_ne_of_take _ _ _ _ 1 (by decide) (by decide)
                     (by decide)
                 | exact append_ne_of_take _ _ _ _ 2 (by decide) (by decide)
                     (by decide))
      · refine foldl_inv
          (fun acc => ∀ l ∈ acc,
            l ≠ lookupHeaderOf nmL ∧ l ≠ lookupRefOf nmL)
          sc.2 _ [] ?_ (by simp) l2 hl3
        intro a3 lg hlgm hPa3
        intro l3 hl3b
        rcases List.mem_append.mp hl3b with hl4 | hl4
        · rcases List.mem_append.mp hl4 with hl5 | hl5
          · exact hPa3 l3 hl5
          · simp only [List.mem_singleton] at hl5
            subst hl5
            constructor <;>
              (simp only [lookupHeaderOf, lookupRefOf]
               simp only [String.append_assoc]
               first
                 | exact append_ne_of_take _ _ _ _ 1 (by decide) (by decide)
                     (by decide)
                 | exact append_ne_of_take _ _ _ _ 6 (by decide) (by decide)
                     (by decide))
        · obtain ⟨n, hnm, hln⟩ := List.mem_map.mp hl4
          subst hln
          constructor
          · simp only [lookupHeaderOf]
            simp only [String.append_assoc]
            exact append_ne_of_take _ _ _ _ 1 (by decide) (by decide)
              (by decide)
          · intro heq
            simp only [lookupRefOf] at heq
            rw [String.append_assoc, String.append_assoc] at heq
            exact hnames f hf sc hsc lg hlgm n hnm (wrap_inj _ _ _ _ heq)
  · simp only [List.mem_singleton] at hl1
    subst hl1
    constructor <;>
      (simp only [lookupHeaderOf, lookupRefOf]
       simp only [String.append_assoc]
       exact append_ne_of_take _ _ _ _ 1 (by decide) (by decide)
         (by decide))

/-- Claim C7: a lookup none of whose subtables survives (no glyph filed rule
fragments under any of them and none is an anchor-class subtable) is dropped
by the pruning and is entirely absent from the feature text _writeGSUBGPOS
appends: no lookup block is headed by its sanitized name and no feature
block references it. -/
theorem c7_pruned_lookup_absent (ext : Ext) (pm : PMaps) (fs : FontState)
    (isgpos : Bool) (pm2 : PMaps) (fs2 : FontState) (L : String)
    (subs : List String) (nmL : String)
    (h : writeGSUBGPOS ext pm fs isgpos = .ok (pm2, fs2))
    (hmem : (L, subs) ∈ (if isgpos then pm.gposLookups else pm.gsubLookups))
    (hdead : ∀ s ∈ subs,
      subtableSurvives pm.glyphPosSub pm.anchorClasses s = false)
    (hnd : ((if isgpos then pm.gposLookups else pm.gsubLookups).map
      Prod.fst).Nodup)
    (hvals : (dictVals pm2.sanitized).Nodup)
    (hget : dictGet pm2.sanitized L = some nmL) :
    (L, subs) ∉ prunedLookups pm.glyphPosSub pm.anchorClasses
      (if isgpos then pm.gposLookups else pm.gsubLookups) ∧
    L ∉ (prunedLookups pm.glyphPosSub pm.anchorClasses
      (if isgpos then pm.gposLookups else pm.gsubLookups)).map Prod.fst ∧
    (fs2.featuresText = fs.featuresText ∨
     ∃ lines, fs2 = appendFeatureText fs lines ∧
       ∀ l ∈ lines, l ≠ lookupHeaderOf nmL ∧ l ≠ lookupRefOf nmL) := by
  obtain ⟨hprune, hnp, hnk⟩ := pruned_drop pm.glyphPosSub pm.anchorClasses
    _ L subs hmem hdead hnd
  refine ⟨hnp, hnk, ?_⟩
  unfold writeGSUBGPOS at h
  obtain ⟨st, hst, hcont⟩ := bindE_ok h
  clear h
  have h := hcont
  clear hcont
  split at h
  all_goals
    first
      | (rename_i hg; subst hg)
      | (rename_i hg; rw [Bool.not_eq_true] at hg; subst hg)
  all_goals
    (simp only [] at h
     split at h
     · simp only [pure, Except.pure, Except.ok.injEq, Prod.mk.injEq] at h
       obtain ⟨h1, h2⟩ := h
       exact Or.inl (by rw [← h2])
     · obtain ⟨⟨featureSet, scripts, langSet⟩, hcol, h⟩ := bindE_ok h
       obtain ⟨features, hfeat, h⟩ := bindE_ok h
       obtain ⟨blocks, hblocks, h⟩ := bindE_ok h
       simp only [pure, Except.pure, Except.ok.injEq, Prod.mk.injEq] at h
       obtain ⟨h1, h2⟩ := h
       subst h1
       have hgetst : dictGet st L = some nmL := hget
       have hvalst : (dictVals st).Nodup := hvals
       have hkey2 : ∀ (k nm2 : String), dictGet st k = some nm2 →
           k ≠ L → nm2 ≠ nmL := by
         intro k nm2 hg2 hkL heq
         subst heq
         exact hkL (vals_nodup_inj st k L nm2 hvalst (dictGet_mem hg2)
           (dictGet_mem hgetst))
       refine Or.inr ⟨_, h2.symm, ?_⟩
       intro l hl
       rcases List.mem_append.mp hl with hl1 | hl1
       · rcases List.mem_append.mp hl1 with hl2 | hl2
         · rcases List.mem_append.mp hl2 with hl3 | hl3
           · simp only [List.mem_cons, List.not_mem_nil, or_false] at hl3
             rcases hl3 with rfl | rfl
             · constructor <;>
                 (simp only [lookupHeaderOf, lookupRefOf]
                  simp only [String.append_assoc]
                  exact append_ne_of_take _ _ _ _ 1 (by decide) (by decide)
                    (by decide))
             · constructor <;>
                 (simp only [lookupHeaderOf, lookupRefOf]
                  simp only [String.append_assoc]
                  exact empty_ne_append _ _ (by decide))
           · refine foldlME_inv
               (fun acc => ∀ l2 ∈ acc,
                 l2 ≠ lookupHeaderOf nmL ∧ l2 ≠ lookupRefOf nmL)
               _ _ [] blocks ?_ hblocks (by simp) l hl3
             intro a p b hp hstep hPa
             obtain ⟨ls, hls, hstep⟩ := bindE_ok hstep
             simp only [pure, Except.pure, Except.ok.injEq] at hstep
             subst hstep
             intro l2 hl2b
             rcases List.mem_append.mp hl2b with hx | hx
             · exact hPa l2 hx
             · exact writeLookupBlock_safe nmL ext _ fs st p.1 p.2 ls hls
                 (fun nm2 hg2 => hkey2 p.1 nm2 hg2
                   (fun he => hnk (he ▸ List.mem_map_of_mem Prod.fst hp)))
                 l2 hx
         · refine featureBlockLines_safe nmL features ?_ l hl2
           intro f hf sc hsc lg hlg n hn heq
           subst heq
           obtain ⟨p, hp, hg2⟩ := buildFeatures_names st _ _ _ _ _
             features hfeat f hf sc hsc lg hlg _ hn
           exact hkey2 p.1 n hg2
             (fun he => hnk (he ▸ List.mem_map_of_mem Prod.fst hp)) rfl
       · simp only [List.mem_singleton] at hl1
         subst hl1
         constructor <;>
           (simp only [lookupHeaderOf, lookupRefOf]
            simp only [String.append_assoc]
            exact empty_ne_append _ _ (by decide)))

/-- Deferred maps for the C7 witness: one GSUB lookup whose only subtable
has no rule fragments and is no anchor class. -/
def c7Pm : PMaps :=
  { gsubLookups := [("lookupA", ["subA"])],
    lookupInfo := [("lookupA", ("gsub_single", [], []))] }

/-- The C7 witness run of the GSUB writer. -/
def c7Res : Except String (PMaps × FontState) :=
  writeGSUBGPOS extTriv c7Pm {} false

/-- Deferred maps after the C7 witness run. -/
def c7Pm2 : PMaps :=
  match c7Res with
  | .ok (p, _) => p
  | .error _ => {}

/-- Font after the C7 witness run. -/
def c7Fs2 : FontState :=
  match c7Res with
  | .ok (_, f) => f
  | .error _ => {}

/-- Claim C7 witness: the dead lookup of the concrete table is pruned and
the produced feature text never names it. -/
theorem c7_pruned_lookup_absent_witness :
    writeGSUBGPOS extTriv c7Pm {} false = Except.ok (c7Pm2, c7Fs2) ∧
    (("lookupA", ["subA"]) ∉ prunedLookups c7Pm.glyphPosSub
        c7Pm.anchorClasses
        (if false then c7Pm.gposLookups else c7Pm.gsubLookups) ∧
     "lookupA" ∉ (prunedLookups c7Pm.glyphPosSub c7Pm.anchorClasses
        (if false then c7Pm.gposLookups else c7Pm.gsubLookups)).map
        Prod.fst ∧
     (c7Fs2.featuresText = ({} : FontState).featuresText ∨
      ∃ lines, c7Fs2 = appendFeatureText {} lines ∧
        ∀ l ∈ lines,
          l ≠ lookupHeaderOf "lookupA" ∧ l ≠ lookupRefOf "lookupA")) :=
  ⟨by with_unfolding_all rfl,
   c7_pruned_lookup_absent extTriv c7Pm {} false c7Pm2 c7Fs2 "lookupA"
     ["subA"] "lookupA" (by with_unfolding_all rfl) (by decide) (by decide)
     (by decide) (by with_unfolding_all decide)
     (by with_unfolding_all decide)⟩
